import Mathlib

/-!
STM32L4 flash driver (arch/arm/src/stm32l4/stm32l4_flash.c): a shallow
embedding of its progmem interface.

* Machine integers are natural numbers; `size_t` and `uint32_t` are 32 bits
  wide and arithmetic that can overflow is reduced modulo `2^32`.
* The chip header (register addresses, bit masks, flash geometry) is a
  parameter, `Chip`.
* The flash controller and the flash array are a parameter as well, `Device`:
  a state type with the effect of the bus accesses `getreg32`, `getreg8`,
  `putreg32` and of the stall primitive `up_waste`.
* Every driver function passes a `World` along: the device state, the count of
  the semaphore `g_sem` and the trace of all bus accesses and semaphore
  operations made so far.
* A busy-wait loop takes a bound on its number of polls; a function whose wait
  does not end within the bound, or that waits on a semaphore nobody can post,
  has no result (`none`).
-/

namespace Stm32l4Flash

/-! ## Machine integers and errno values -/

/-- Largest value of `size_t` (32 bits). -/
def SIZE_MAX : Nat := 4294967295

/-- Reduction of an unsigned 32-bit result. -/
def wrap32 (n : Nat) : Nat := n % 4294967296

/-- Bitwise complement of a 32-bit value (the C operator `~` on `uint32_t`). -/
def not32 (x : Nat) : Nat := 4294967295 ^^^ x

/-- Conversion of a `size_t` value to `ssize_t` (two's complement, 32 bits). -/
def toSsize (n : Nat) : Int :=
  if n < 2147483648 then (n : Int) else (n : Int) - 4294967296

/-- Value of `OK`. -/
def OK : Int := 0

/-- Value of errno `EIO` (include/errno.h). -/
def EIO : Int := 5

/-- Value of errno `EFAULT` (include/errno.h). -/
def EFAULT : Int := 14

/-- Value of errno `EINVAL` (include/errno.h). -/
def EINVAL : Int := 22

/-- Value of errno `EROFS` (include/errno.h). -/
def EROFS : Int := 30

/-- First key of the unlock sequence of the main array. -/
def FLASH_KEY1 : Nat := 0x45670123

/-- Second key of the unlock sequence of the main array. -/
def FLASH_KEY2 : Nat := 0xCDEF89AB

/-- First key of the unlock sequence of the option bytes. -/
def OPTBYTES_KEY1 : Nat := 0x08192A3B

/-- Second key of the unlock sequence of the option bytes. -/
def OPTBYTES_KEY2 : Nat := 0x4C5D6E7F

/-! ## The chip header -/

/-- Constants of the chip header `stm32l4_flash.h`, which the driver only
includes: flash geometry, register addresses and register bit masks. -/
structure Chip where
  STM32L4_FLASH_BASE : Nat
  STM32L4_FLASH_SIZE : Nat
  STM32L4_FLASH_PAGESIZE : Nat
  STM32L4_FLASH_NPAGES : Nat
  STM32L4_FLASH_KEYR : Nat
  STM32L4_FLASH_OPTKEYR : Nat
  STM32L4_FLASH_SR : Nat
  STM32L4_FLASH_CR : Nat
  STM32L4_FLASH_OPTR : Nat
  FLASH_SR_BSY : Nat
  FLASH_SR_PGSERR : Nat
  FLASH_SR_SIZERR : Nat
  FLASH_SR_PGAERR : Nat
  FLASH_SR_WRPERR : Nat
  FLASH_SR_PROGERR : Nat
  FLASH_CR_PG : Nat
  FLASH_CR_PER : Nat
  FLASH_CR_PNB_MASK : Nat
  FLASH_CR_PNB_SHIFT : Nat
  FLASH_CR_START : Nat
  FLASH_CR_OPTSTRT : Nat
  FLASH_CR_OPTLOCK : Nat
  FLASH_CR_LOCK : Nat
  FLASH_OPTCR_RDP_MASK : Nat

namespace Chip

/-- The macro `FLASH_CR_PAGE_ERASE`. -/
def FLASH_CR_PAGE_ERASE (c : Chip) : Nat := c.FLASH_CR_PER

/-- The macro `FLASH_SR_WRITE_PROTECTION_ERROR`. -/
def FLASH_SR_WRITE_PROTECTION_ERROR (c : Chip) : Nat := c.FLASH_SR_WRPERR

/-- The macro `FLASH_SR_ALLERRS`: all errors for Standard Programming. -/
def FLASH_SR_ALLERRS (c : Chip) : Nat :=
  c.FLASH_SR_PGSERR ||| c.FLASH_SR_SIZERR ||| c.FLASH_SR_PGAERR ||| c.FLASH_SR_WRPERR |||
    c.FLASH_SR_PROGERR

/-- The macro `FLASH_CR_PNB(n)`: a page number placed in the page-select field. -/
def FLASH_CR_PNB (c : Chip) (n : Nat) : Nat := wrap32 (n <<< c.FLASH_CR_PNB_SHIFT)

/-- Geometry facts of a chip header: the array is a whole number of pages of a
positive size, lies above the linear offsets and ends inside the 32-bit
address space. -/
structure Geometry (c : Chip) : Prop where
  pagesize_pos : 0 < c.STM32L4_FLASH_PAGESIZE
  size_eq : c.STM32L4_FLASH_SIZE = c.STM32L4_FLASH_NPAGES * c.STM32L4_FLASH_PAGESIZE
  size_le_base : c.STM32L4_FLASH_SIZE ≤ c.STM32L4_FLASH_BASE
  end_le : c.STM32L4_FLASH_BASE + c.STM32L4_FLASH_SIZE ≤ SIZE_MAX

end Chip

/-- A chip header: the register map of the STM32L4x6 flash interface with the
geometry pageSize = 2048, pageCount = 256, base = 0x08000000. -/
def stm32l476 : Chip where
  STM32L4_FLASH_BASE := 0x08000000
  STM32L4_FLASH_SIZE := 256 * 2048
  STM32L4_FLASH_PAGESIZE := 2048
  STM32L4_FLASH_NPAGES := 256
  STM32L4_FLASH_KEYR := 0x40022008
  STM32L4_FLASH_OPTKEYR := 0x4002200c
  STM32L4_FLASH_SR := 0x40022010
  STM32L4_FLASH_CR := 0x40022014
  STM32L4_FLASH_OPTR := 0x40022020
  FLASH_SR_BSY := 0x10000
  FLASH_SR_PGSERR := 0x80
  FLASH_SR_SIZERR := 0x40
  FLASH_SR_PGAERR := 0x20
  FLASH_SR_WRPERR := 0x10
  FLASH_SR_PROGERR := 0x8
  FLASH_CR_PG := 0x1
  FLASH_CR_PER := 0x2
  FLASH_CR_PNB_MASK := 0x7f8
  FLASH_CR_PNB_SHIFT := 3
  FLASH_CR_START := 0x10000
  FLASH_CR_OPTSTRT := 0x20000
  FLASH_CR_OPTLOCK := 0x40000000
  FLASH_CR_LOCK := 0x80000000
  FLASH_OPTCR_RDP_MASK := 0xff

/-! ## The device and the world -/

/-- The hardware behind the bus: what a 32-bit and an 8-bit read at an address
return in a device state, how a 32-bit write of a value to an address changes
the state, and how the state changes while the processor stalls in
`up_waste`. -/
structure Device (σ : Type) where
  read32 : σ → Nat → Nat
  read8 : σ → Nat → Nat
  write32 : σ → Nat → Nat → σ
  stall : σ → σ

/-- One observable action of the driver. -/
inductive Event where
  | sem_wait : Event
  | sem_post : Event
  | get32 (addr val : Nat) : Event
  | get8 (addr val : Nat) : Event
  | put32 (val addr : Nat) : Event
  | waste : Event
  deriving DecidableEq, Repr

/-- State passed through every driver function: device state, count of the
semaphore `g_sem`, and the actions performed so far (oldest first). -/
structure World (σ : Type) where
  hw : σ
  g_sem : Nat
  trace : List Event

variable {σ : Type}

/-- The bus read `getreg32(addr)`. -/
def getreg32 (d : Device σ) (addr : Nat) (w : World σ) : Nat × World σ :=
  (d.read32 w.hw addr, { w with trace := w.trace ++ [Event.get32 addr (d.read32 w.hw addr)] })

/-- The bus read `getreg8(addr)`. -/
def getreg8 (d : Device σ) (addr : Nat) (w : World σ) : Nat × World σ :=
  (d.read8 w.hw addr, { w with trace := w.trace ++ [Event.get8 addr (d.read8 w.hw addr)] })

/-- The bus write `putreg32(val, addr)`. -/
def putreg32 (d : Device σ) (val addr : Nat) (w : World σ) : World σ :=
  { w with hw := d.write32 w.hw val addr, trace := w.trace ++ [Event.put32 val addr] }

/-- The stall primitive `up_waste()`. -/
def up_waste (d : Device σ) (w : World σ) : World σ :=
  { w with hw := d.stall w.hw, trace := w.trace ++ [Event.waste] }

/-- Modelled from the spec: `modifyreg32(addr, clearbits, setbits)` of
up_modifyreg32.c, which is not among the sources, is a read-modify-write of the
register: read it, clear `clearbits`, set `setbits`, write it back. -/
def modifyreg32 (d : Device σ) (addr clearbits setbits : Nat) (w : World σ) : World σ :=
  let r := getreg32 d addr w
  putreg32 d ((r.1 &&& not32 clearbits) ||| setbits) addr r.2

/-- Modelled from the spec: `nxsem_wait(&g_sem)` of the OS, which is not among
the sources, grants the gate when its count is positive and otherwise blocks
until another thread posts it; in this sequential model nobody else does, so a
wait on a count of zero never returns. Signals are not modelled, so the wait
never ends with `-EINTR`. -/
def nxsem_wait (w : World σ) : Option (Int × World σ) :=
  if 0 < w.g_sem then
    some (OK, { w with g_sem := w.g_sem - 1, trace := w.trace ++ [Event.sem_wait] })
  else none

/-- Modelled from the spec: `nxsem_post(&g_sem)` of the OS, which is not among
the sources, always succeeds and gives the gate back. -/
def nxsem_post (w : World σ) : World σ :=
  { w with g_sem := w.g_sem + 1, trace := w.trace ++ [Event.sem_post] }

/-! ## Private functions of the driver -/

/-- The function `sem_lock`: take the semaphore, again while the wait was
interrupted by a signal (the model of `nxsem_wait` never is, so the loop body
runs once). -/
def sem_lock (w : World σ) : Option (World σ) :=
  match nxsem_wait w with
  | none => none
  | some r => some r.2

/-- The function `sem_unlock`. -/
def sem_unlock (w : World σ) : World σ := nxsem_post w

/-- The loop `while (getreg32(STM32L4_FLASH_SR) & FLASH_SR_BSY) up_waste();`
with at most `fuel` polls of the status register. -/
def busy_wait (d : Device σ) (c : Chip) : Nat → World σ → Option (World σ)
  | 0, _ => none
  | fuel + 1, w =>
    let r := getreg32 d c.STM32L4_FLASH_SR w
    if r.1 &&& c.FLASH_SR_BSY ≠ 0 then busy_wait d c fuel (up_waste d r.2) else some r.2

/-- The function `flash_unlock`. -/
def flash_unlock (d : Device σ) (c : Chip) (fuel : Nat) (w : World σ) : Option (World σ) :=
  match busy_wait d c fuel w with
  | none => none
  | some w1 =>
    let r := getreg32 d c.STM32L4_FLASH_CR w1
    if r.1 &&& c.FLASH_CR_LOCK ≠ 0 then
      some (putreg32 d FLASH_KEY2 c.STM32L4_FLASH_KEYR
        (putreg32 d FLASH_KEY1 c.STM32L4_FLASH_KEYR r.2))
    else some r.2

/-- The function `flash_lock`. -/
def flash_lock (d : Device σ) (c : Chip) (w : World σ) : World σ :=
  modifyreg32 d c.STM32L4_FLASH_CR 0 c.FLASH_CR_LOCK w

/-- The function `flash_optbytes_unlock`. -/
def flash_optbytes_unlock (d : Device σ) (c : Chip) (fuel : Nat) (w : World σ) :
    Option (World σ) :=
  match flash_unlock d c fuel w with
  | none => none
  | some w1 =>
    let r := getreg32 d c.STM32L4_FLASH_CR w1
    if r.1 &&& c.FLASH_CR_OPTLOCK ≠ 0 then
      some (putreg32 d OPTBYTES_KEY2 c.STM32L4_FLASH_OPTKEYR
        (putreg32 d OPTBYTES_KEY1 c.STM32L4_FLASH_OPTKEYR r.2))
    else some r.2

/-- The function `flash_optbytes_lock`. -/
def flash_optbytes_lock (d : Device σ) (c : Chip) (w : World σ) : World σ :=
  flash_lock d c w

/-! ## Geometry -/

/-- The function `up_progmem_pagesize`. -/
def up_progmem_pagesize (c : Chip) (_page : Nat) : Nat := c.STM32L4_FLASH_PAGESIZE

/-- The function `up_progmem_getpage`. -/
def up_progmem_getpage (c : Chip) (addr : Nat) : Int :=
  let addr1 := if addr ≥ c.STM32L4_FLASH_BASE then addr - c.STM32L4_FLASH_BASE else addr
  if addr1 ≥ c.STM32L4_FLASH_SIZE then - EFAULT
  else toSsize (addr1 / c.STM32L4_FLASH_PAGESIZE)

/-- The function `up_progmem_getaddress`. -/
def up_progmem_getaddress (c : Chip) (page : Nat) : Nat :=
  if page ≥ c.STM32L4_FLASH_NPAGES then SIZE_MAX
  else wrap32 (page * c.STM32L4_FLASH_PAGESIZE + c.STM32L4_FLASH_BASE)

/-- The function `up_progmem_npages`. -/
def up_progmem_npages (c : Chip) : Nat := c.STM32L4_FLASH_NPAGES

/-- The function `up_progmem_isuniform`. -/
def up_progmem_isuniform : Bool := true

/-! ## Option bytes -/

/-- How a call of a function with preconditions ends. -/
inductive Outcome (α : Type) where
  | returned (a : α) : Outcome α
  | assertion_failed : Outcome α
  | no_return : Outcome α

/-- Modelled from the spec: `DEBUGASSERT(f)` of assert.h, which is not among
the sources: a violated precondition is fatal, the call is rejected before any
hardware access and nothing after the assertion runs. -/
def DEBUGASSERT {α : Type} (f : Bool) (k : Outcome α) : Outcome α :=
  if f then k else Outcome.assertion_failed

/-- The body of `stm32l4_flash_user_optbytes` from `sem_lock()` to the
`return` (the debug output of `finfo` is not modelled). -/
def user_optbytes_locked (d : Device σ) (c : Chip) (fuel clrbits setbits : Nat)
    (w : World σ) : Option (Nat × World σ) :=
  match sem_lock w with
  | none => none
  | some w1 =>
    match flash_optbytes_unlock d c fuel w1 with
    | none => none
    | some w2 =>
      let r := getreg32 d c.STM32L4_FLASH_OPTR w2
      let regval := (r.1 &&& not32 clrbits) ||| setbits
      let w3 := putreg32 d regval c.STM32L4_FLASH_OPTR r.2
      let w4 := modifyreg32 d c.STM32L4_FLASH_CR 0 c.FLASH_CR_OPTSTRT w3
      match busy_wait d c fuel w4 with
      | none => none
      | some w5 => some (regval, sem_unlock (flash_optbytes_lock d c w5))

/-- The function `stm32l4_flash_user_optbytes`. -/
def stm32l4_flash_user_optbytes (d : Device σ) (c : Chip) (fuel clrbits setbits : Nat)
    (w : World σ) : Outcome (Nat × World σ) :=
  DEBUGASSERT (clrbits &&& c.FLASH_OPTCR_RDP_MASK == 0)
    (DEBUGASSERT (setbits &&& c.FLASH_OPTCR_RDP_MASK == 0)
      (match user_optbytes_locked d c fuel clrbits setbits w with
       | none => Outcome.no_return
       | some r => Outcome.returned r))

/-! ## Erase -/

/-- The verify loop of `up_progmem_ispageerased`: `count` bytes from `addr`
on, `bwritten` counting those that are not 0xff. -/
def scan_page (d : Device σ) : Nat → Nat → Nat → World σ → Nat × World σ
  | 0, _, bwritten, w => (bwritten, w)
  | count + 1, addr, bwritten, w =>
    let r := getreg8 d addr w
    scan_page d count (wrap32 (addr + 1))
      (if r.1 ≠ 0xff then wrap32 (bwritten + 1) else bwritten) r.2

/-- The function `up_progmem_ispageerased`. -/
def up_progmem_ispageerased (d : Device σ) (c : Chip) (page : Nat) (w : World σ) :
    Int × World σ :=
  if page ≥ c.STM32L4_FLASH_NPAGES then (- EFAULT, w)
  else
    let r := scan_page d (up_progmem_pagesize c page) (up_progmem_getaddress c page) 0 w
    (toSsize r.1, r.2)

/-- The body of `up_progmem_erasepage` from `sem_lock()` to `sem_unlock()`:
unlock, select page erase and the page, start, wait, leave page erase, lock. -/
def erasepage_locked (d : Device σ) (c : Chip) (fuel page : Nat) (w : World σ) :
    Option (World σ) :=
  match sem_lock w with
  | none => none
  | some w1 =>
    match flash_unlock d c fuel w1 with
    | none => none
    | some w2 =>
      let w3 := modifyreg32 d c.STM32L4_FLASH_CR 0 c.FLASH_CR_PAGE_ERASE w2
      let w4 := modifyreg32 d c.STM32L4_FLASH_CR c.FLASH_CR_PNB_MASK (c.FLASH_CR_PNB page) w3
      let w5 := modifyreg32 d c.STM32L4_FLASH_CR 0 c.FLASH_CR_START w4
      match busy_wait d c fuel w5 with
      | none => none
      | some w6 =>
        let w7 := modifyreg32 d c.STM32L4_FLASH_CR c.FLASH_CR_PAGE_ERASE 0 w6
        some (sem_unlock (flash_lock d c w7))

/-- The function `up_progmem_erasepage`. -/
def up_progmem_erasepage (d : Device σ) (c : Chip) (fuel page : Nat) (w : World σ) :
    Option (Int × World σ) :=
  if page ≥ c.STM32L4_FLASH_NPAGES then some (- EFAULT, w)
  else
    match erasepage_locked d c fuel page w with
    | none => none
    | some w1 =>
      let r := up_progmem_ispageerased d c page w1
      if r.1 = 0 then some (toSsize (up_progmem_pagesize c page), r.2)
      else some (- EIO, r.2)

/-! ## Program -/

/-- The local `second_word` of the programming loop: the word after `*word`,
or the erased pattern when only one word is left. -/
def second_word (buf : Nat → Nat) (count wi : Nat) : Nat :=
  if count = 4 then 0xffffffff else buf (wi + 1)

/-- First half of the loop body of `up_progmem_write`: write the first word,
write the second word and wait for completion. The buffer `buf` gives the
32-bit word at each word index and `wi` is the index `word` points to. -/
def stride_program (d : Device σ) (c : Chip) (fuel : Nat) (buf : Nat → Nat)
    (addr count wi : Nat) (w : World σ) : Option (World σ) :=
  let w1 := putreg32 d (buf wi) addr w
  let w2 := putreg32 d (second_word buf count wi) (wrap32 (addr + 4)) w1
  busy_wait d c fuel w2

/-- Second half of the loop body of `up_progmem_write`, the part under
`Verify`: the value of `ret` it leaves (`OK` when neither `goto out` is
taken). -/
def stride_verify (d : Device σ) (c : Chip) (buf : Nat → Nat) (addr count wi : Nat)
    (w : World σ) : Int × World σ :=
  let r := getreg32 d c.STM32L4_FLASH_SR w
  if r.1 &&& c.FLASH_SR_WRITE_PROTECTION_ERROR ≠ 0 then (- EROFS, r.2)
  else
    let r1 := getreg32 d addr r.2
    if r1.1 ≠ buf wi then (- EIO, r1.2)
    else
      let r2 := getreg32 d (wrap32 (addr + 4)) r1.2
      if r2.1 ≠ second_word buf count wi then (- EIO, r2.2) else (OK, r2.2)

/-- The loop of `up_progmem_write`, at most `n` strides: the value of `ret`
at the label `out`. -/
def write_loop (d : Device σ) (c : Chip) (fuel : Nat) (buf : Nat → Nat) :
    Nat → Nat → Nat → Nat → World σ → Option (Int × World σ)
  | 0, _, _, _, _ => none
  | n + 1, addr, count, wi, w =>
    if count = 0 then some (OK, w)
    else
      match stride_program d c fuel buf addr count wi w with
      | none => none
      | some w1 =>
        let r := stride_verify d c buf addr count wi w1
        if r.1 ≠ OK then some r
        else if count = 4 then some (OK, r.2)
        else write_loop d c fuel buf n (wrap32 (addr + 8)) (wrap32 (count + 4294967296 - 8))
          (wi + 2) r.2

/-- The start of the critical section of `up_progmem_write`: take the gate,
unlock, set the programming bit. -/
def write_begin (d : Device σ) (c : Chip) (fuel : Nat) (w : World σ) : Option (World σ) :=
  match sem_lock w with
  | none => none
  | some w1 =>
    match flash_unlock d c fuel w1 with
    | none => none
    | some w2 => some (modifyreg32 d c.STM32L4_FLASH_CR 0 c.FLASH_CR_PG w2)

/-- The code of `up_progmem_write` from the label `out` to `sem_unlock()`
(the debug output of `ferr` is not modelled). -/
def write_end (d : Device σ) (c : Chip) (ret : Int) (w : World σ) : World σ :=
  let w1 := modifyreg32 d c.STM32L4_FLASH_CR c.FLASH_CR_PG 0 w
  let w2 := if ret ≠ OK then modifyreg32 d c.STM32L4_FLASH_SR 0 c.FLASH_SR_ALLERRS w1 else w1
  sem_unlock (flash_lock d c w2)

/-- The function `up_progmem_write`; `fuel` bounds the polls of each busy-wait
and the number of strides. -/
def up_progmem_write (d : Device σ) (c : Chip) (fuel addr : Nat) (buf : Nat → Nat)
    (count : Nat) (w : World σ) : Option (Int × World σ) :=
  let written := count
  if addr &&& 7 ≠ 0 then some (- EINVAL, w)
  else if count &&& 3 ≠ 0 then some (- EINVAL, w)
  else
    let addr1 := if addr ≥ c.STM32L4_FLASH_BASE then addr - c.STM32L4_FLASH_BASE else addr
    if wrap32 (addr1 + count) > c.STM32L4_FLASH_SIZE then some (- EFAULT, w)
    else
      match write_begin d c fuel w with
      | none => none
      | some w1 =>
        match write_loop d c fuel buf fuel (wrap32 (addr1 + c.STM32L4_FLASH_BASE)) count 0 w1 with
        | none => none
        | some r =>
          some (if r.1 = OK then toSsize written else r.1, write_end d c r.1 r.2)

/-! ## A simulated controller

A concrete device for the STM32L476 header, used to run the driver on
concrete inputs: the control register is write-protected while locked, the two
key sequences unlock it, an operation is busy until the next stall, programming
stores the words written, erasing sets every byte of the page to 0xff, and an
access to a write-protected page raises the write-protection error instead. -/

/-- State of the simulated controller. -/
structure Sim where
  cr : Nat
  sr : Nat
  optr : Nat
  key : Bool
  optkey : Bool
  busy : Bool
  wrp : Nat → Bool
  mem : Nat → Nat

namespace Sim

/-- Little-endian 32-bit word at an address of the byte memory. -/
def load32 (mem : Nat → Nat) (a : Nat) : Nat :=
  mem a % 256 + 256 * (mem (a + 1) % 256) + 65536 * (mem (a + 2) % 256) +
    16777216 * (mem (a + 3) % 256)

/-- Byte memory after storing a 32-bit word, little-endian, at an address. -/
def store32 (mem : Nat → Nat) (a v : Nat) : Nat → Nat := fun x =>
  if x = a then v % 256
  else if x = a + 1 then v / 256 % 256
  else if x = a + 2 then v / 65536 % 256
  else if x = a + 3 then v / 16777216 % 256
  else mem x

/-- Byte memory after erasing a page. -/
def erase (mem : Nat → Nat) (page : Nat) : Nat → Nat := fun x =>
  if stm32l476.STM32L4_FLASH_BASE + page * stm32l476.STM32L4_FLASH_PAGESIZE ≤ x ∧
      x < stm32l476.STM32L4_FLASH_BASE + (page + 1) * stm32l476.STM32L4_FLASH_PAGESIZE
  then 0xff else mem x

/-- Page of the simulated array an absolute address lies in. -/
def pageOf (a : Nat) : Nat :=
  (a - stm32l476.STM32L4_FLASH_BASE) / stm32l476.STM32L4_FLASH_PAGESIZE

/-- A 32-bit read. -/
def read32 (s : Sim) (a : Nat) : Nat :=
  if a = stm32l476.STM32L4_FLASH_SR then
    (s.sr &&& stm32l476.FLASH_SR_ALLERRS) ||| (if s.busy then stm32l476.FLASH_SR_BSY else 0)
  else if a = stm32l476.STM32L4_FLASH_CR then s.cr
  else if a = stm32l476.STM32L4_FLASH_OPTR then s.optr
  else if a = stm32l476.STM32L4_FLASH_KEYR ∨ a = stm32l476.STM32L4_FLASH_OPTKEYR then 0
  else load32 s.mem a

/-- A write to the control register. -/
def writeCR (s : Sim) (v : Nat) : Sim :=
  if s.cr &&& stm32l476.FLASH_CR_LOCK ≠ 0 then s
  else
    let kept := (v ||| (s.cr &&& stm32l476.FLASH_CR_OPTLOCK)) &&&
      not32 (stm32l476.FLASH_CR_START ||| stm32l476.FLASH_CR_OPTSTRT)
    let cr1 := if v &&& stm32l476.FLASH_CR_LOCK ≠ 0 then kept ||| stm32l476.FLASH_CR_OPTLOCK
      else kept
    let page := (v &&& stm32l476.FLASH_CR_PNB_MASK) >>> stm32l476.FLASH_CR_PNB_SHIFT
    if v &&& stm32l476.FLASH_CR_START ≠ 0 ∧ v &&& stm32l476.FLASH_CR_PER ≠ 0 then
      if s.wrp page then
        { s with cr := cr1, busy := true, sr := s.sr ||| stm32l476.FLASH_SR_WRPERR }
      else { s with cr := cr1, busy := true, mem := erase s.mem page }
    else if v &&& stm32l476.FLASH_CR_OPTSTRT ≠ 0 then { s with cr := cr1, busy := true }
    else { s with cr := cr1 }

/-- A 32-bit write. -/
def write32 (s : Sim) (v a : Nat) : Sim :=
  if a = stm32l476.STM32L4_FLASH_KEYR then
    if v = FLASH_KEY1 then { s with key := true }
    else if v = FLASH_KEY2 ∧ s.key = true then
      { s with cr := s.cr &&& not32 stm32l476.FLASH_CR_LOCK, key := false }
    else { s with key := false }
  else if a = stm32l476.STM32L4_FLASH_OPTKEYR then
    if v = OPTBYTES_KEY1 then { s with optkey := true }
    else if v = OPTBYTES_KEY2 ∧ s.optkey = true ∧ s.cr &&& stm32l476.FLASH_CR_LOCK = 0 then
      { s with cr := s.cr &&& not32 stm32l476.FLASH_CR_OPTLOCK, optkey := false }
    else { s with optkey := false }
  else if a = stm32l476.STM32L4_FLASH_CR then writeCR s v
  else if a = stm32l476.STM32L4_FLASH_SR then { s with sr := s.sr &&& not32 v }
  else if a = stm32l476.STM32L4_FLASH_OPTR then
    if s.cr &&& stm32l476.FLASH_CR_OPTLOCK = 0 then { s with optr := v } else s
  else if stm32l476.STM32L4_FLASH_BASE ≤ a ∧
      a + 4 ≤ stm32l476.STM32L4_FLASH_BASE + stm32l476.STM32L4_FLASH_SIZE then
    if s.cr &&& stm32l476.FLASH_CR_LOCK = 0 ∧ s.cr &&& stm32l476.FLASH_CR_PG ≠ 0 then
      if s.wrp (pageOf a) then
        { s with busy := true, sr := s.sr ||| stm32l476.FLASH_SR_WRPERR }
      else { s with busy := true, mem := store32 s.mem a v }
    else s
  else s

/-- One stall: the operation in progress completes. -/
def stall (s : Sim) : Sim := { s with busy := false }

/-- The simulated controller as a device. -/
def device : Device Sim where
  read32 := read32
  read8 := fun s a => s.mem a
  write32 := write32
  stall := stall

/-- The controller after reset, over a given array content and write
protection: locked, idle, no error flag. -/
def reset (wrp : Nat → Bool) (mem : Nat → Nat) : Sim where
  cr := 0xC0000000
  sr := 0
  optr := 0xFFEFF8AA
  key := false
  optkey := false
  busy := false
  wrp := wrp
  mem := mem

/-- The world at start-up: controller after reset, gate free, nothing done. -/
def boot (wrp : Nat → Bool) (mem : Nat → Nat) : World Sim where
  hw := reset wrp mem
  g_sem := 1
  trace := []

end Sim

/-! ## Vocabulary of the statements -/

/-- Every busy-wait of the device ends within `n` polls: from every state the
status register shows Busy clear after fewer than `n` stalls. -/
def BusyClears (d : Device σ) (c : Chip) (n : Nat) : Prop :=
  ∀ s : σ, ∃ k, k < n ∧ d.read32 (d.stall^[k] s) c.STM32L4_FLASH_SR &&& c.FLASH_SR_BSY = 0

/-- Every byte of page `page` reads as the erased value 0xff in device state
`s` (the bytes `up_progmem_ispageerased` scans). -/
def PageBlank (d : Device σ) (c : Chip) (page : Nat) (s : σ) : Prop :=
  ∀ i, i < up_progmem_pagesize c page →
    d.read8 s (wrap32 (up_progmem_getaddress c page + i)) = 0xff

/-- The three argument tests of `up_progmem_write` all pass: `addr & 7` and
`count & 3` are zero, and `addr + count`, taken from the translated offset in
32-bit arithmetic, is not above the flash size. -/
def PassesChecks (c : Chip) (addr count : Nat) : Prop :=
  addr &&& 7 = 0 ∧ count &&& 3 = 0 ∧
    ¬ wrap32 ((if addr ≥ c.STM32L4_FLASH_BASE then addr - c.STM32L4_FLASH_BASE else addr) +
      count) > c.STM32L4_FLASH_SIZE

instance (c : Chip) (addr count : Nat) : Decidable (PassesChecks c addr count) := by
  unfold PassesChecks
  infer_instance

/-- A program request whose destination lies inside the array: address a
multiple of 8, count a multiple of 4, and the byte range, taken from the
translated offset in unbounded arithmetic, inside the array. Such a request
passes the tests of `up_progmem_write`; the tests also let through a range
whose end wraps around 2^32, which is not a `ValidRequest`. -/
def ValidRequest (c : Chip) (addr count : Nat) : Prop :=
  addr % 8 = 0 ∧ count % 4 = 0 ∧
    (if addr ≥ c.STM32L4_FLASH_BASE then addr - c.STM32L4_FLASH_BASE else addr) + count ≤
      c.STM32L4_FLASH_SIZE

instance (c : Chip) (addr count : Nat) : Decidable (ValidRequest c addr count) := by
  unfold ValidRequest
  infer_instance

/-- Absolute flash address of the first double-word a request programs. -/
def write_dest (c : Chip) (addr : Nat) : Nat :=
  (if addr ≥ c.STM32L4_FLASH_BASE then addr - c.STM32L4_FLASH_BASE else addr) +
    c.STM32L4_FLASH_BASE

/-- Number of double-word strides a byte count takes: ceil(count / 8). -/
def strides (count : Nat) : Nat := (count + 7) / 8

/-- The write-protection-error flag is set in the status register in device
state `s`. -/
def WrpErr (d : Device σ) (c : Chip) (s : σ) : Prop :=
  d.read32 s c.STM32L4_FLASH_SR &&& c.FLASH_SR_WRPERR ≠ 0

instance (d : Device σ) (c : Chip) (s : σ) : Decidable (WrpErr d c s) := by
  unfold WrpErr
  infer_instance

/-- Both words of the double-word at `addr` read back in device state `s` as
the words the stride wrote: `buf wi` and the second word. -/
def ReadBack (d : Device σ) (buf : Nat → Nat) (addr count wi : Nat) (s : σ) : Prop :=
  d.read32 s addr = buf wi ∧ d.read32 s (addr + 4) = second_word buf count wi

instance (d : Device σ) (buf : Nat → Nat) (addr count wi : Nat) (s : σ) :
    Decidable (ReadBack d buf addr count wi s) := by
  unfold ReadBack
  infer_instance

/-- The world after the first `k` strides of a programming loop that starts at
flash address `addr` with `count` bytes to go and `word` at index `wi`, when in
each of them the busy-wait ended, the write-protection-error flag was clear and
both words read back as written; `none` otherwise. -/
def strides_verified (d : Device σ) (c : Chip) (fuel : Nat) (buf : Nat → Nat) :
    Nat → Nat → Nat → Nat → World σ → Option (World σ)
  | 0, _, _, _, w => some w
  | k + 1, addr, count, wi, w =>
    match stride_program d c fuel buf addr count wi w with
    | none => none
    | some ws =>
      if ¬ WrpErr d c ws.hw ∧ ReadBack d buf addr count wi ws.hw then
        strides_verified d c fuel buf k (addr + 8) (count - 8) (wi + 2)
          (stride_verify d c buf addr count wi ws).2
      else none

/-- The value the control register reads as in device state `s`. -/
def crval (d : Device σ) (c : Chip) (s : σ) : Nat := d.read32 s c.STM32L4_FLASH_CR

/-- The Lock bit of the control register is set (the test `flash_unlock`
makes). -/
def Locked (d : Device σ) (c : Chip) (s : σ) : Prop := crval d c s &&& c.FLASH_CR_LOCK ≠ 0

/-- The program-enable and page-erase mode bits of the control register are
clear. -/
def ModeClear (d : Device σ) (c : Chip) (s : σ) : Prop :=
  crval d c s &&& c.FLASH_CR_PG = 0 ∧ crval d c s &&& c.FLASH_CR_PER = 0

/-- The three fields of the control register the statements follow: Lock,
program enable, page erase. -/
def IsField (c : Chip) (m : Nat) : Prop :=
  m = c.FLASH_CR_LOCK ∨ m = c.FLASH_CR_PG ∨ m = c.FLASH_CR_PER

/-- Register-map facts of a chip header: Lock, PG and PER are distinct 32-bit
fields, no other field the driver writes to the control register overlaps
them, the control register is not one of the other registers and does not lie
in the flash array, which starts and ends on a double-word boundary. -/
structure Chip.Layout (c : Chip) : Prop where
  lock_ne : c.FLASH_CR_LOCK ≠ 0
  field_lt : ∀ m, IsField c m → m < 4294967296
  lock_pg : c.FLASH_CR_LOCK &&& c.FLASH_CR_PG = 0
  lock_per : c.FLASH_CR_LOCK &&& c.FLASH_CR_PER = 0
  pg_per : c.FLASH_CR_PG &&& c.FLASH_CR_PER = 0
  pnb_mask : ∀ m, IsField c m → c.FLASH_CR_PNB_MASK &&& m = 0
  pnb : ∀ n m, n < c.STM32L4_FLASH_NPAGES → IsField c m → c.FLASH_CR_PNB n &&& m = 0
  start : ∀ m, IsField c m → c.FLASH_CR_START &&& m = 0
  optstrt : ∀ m, IsField c m → c.FLASH_CR_OPTSTRT &&& m = 0
  keyr_ne : c.STM32L4_FLASH_KEYR ≠ c.STM32L4_FLASH_CR
  optkeyr_ne : c.STM32L4_FLASH_OPTKEYR ≠ c.STM32L4_FLASH_CR
  sr_ne : c.STM32L4_FLASH_SR ≠ c.STM32L4_FLASH_CR
  optr_ne : c.STM32L4_FLASH_OPTR ≠ c.STM32L4_FLASH_CR
  cr_outside : c.STM32L4_FLASH_CR < c.STM32L4_FLASH_BASE ∨
    c.STM32L4_FLASH_BASE + c.STM32L4_FLASH_SIZE ≤ c.STM32L4_FLASH_CR
  base_aligned : c.STM32L4_FLASH_BASE % 8 = 0
  size_aligned : c.STM32L4_FLASH_SIZE % 8 = 0

/-- How the device treats the Lock, PG and PER fields of its control
register: a write to the control register sets them to the value written when
the register is unlocked and leaves them alone when it is locked; a write to
any other address and a stall leave PG and PER alone and do not set Lock. -/
structure ControlRegister (d : Device σ) (c : Chip) : Prop where
  write_unlocked : ∀ s v m, IsField c m → ¬ Locked d c s →
    crval d c (d.write32 s v c.STM32L4_FLASH_CR) &&& m = v &&& m
  write_locked : ∀ s v m, IsField c m → Locked d c s →
    crval d c (d.write32 s v c.STM32L4_FLASH_CR) &&& m = crval d c s &&& m
  write_other : ∀ s v a, a ≠ c.STM32L4_FLASH_CR →
    crval d c (d.write32 s v a) &&& c.FLASH_CR_PG = crval d c s &&& c.FLASH_CR_PG ∧
    crval d c (d.write32 s v a) &&& c.FLASH_CR_PER = crval d c s &&& c.FLASH_CR_PER ∧
    (Locked d c (d.write32 s v a) → Locked d c s)
  stall : ∀ s, crval d c (d.stall s) = crval d c s

/-- The controller is left locked and out of any mode and the gate is free
again: Lock set, PG and PER clear, gate count `g` as before the call. -/
def Relocked (d : Device σ) (c : Chip) (g : Nat) (w : World σ) : Prop :=
  Locked d c w.hw ∧ ModeClear d c w.hw ∧ w.g_sem = g

instance (d : Device σ) (c : Chip) (g : Nat) (w : World σ) : Decidable (Relocked d c g w) := by
  unfold Relocked Locked ModeClear
  infer_instance

/-- While the mode bit `b` (PG or PER) may be set: the other mode bit `o` is
clear, and `b` is clear too if the control register is locked. -/
def ModeInv (d : Device σ) (c : Chip) (b o : Nat) (s : σ) : Prop :=
  crval d c s &&& o = 0 ∧ (Locked d c s → crval d c s &&& b = 0)

/-- A property of the device state that stalls and writes to addresses other
than the control register keep. -/
structure Quiet (d : Device σ) (c : Chip) (P : σ → Prop) : Prop where
  stall : ∀ s, P s → P (d.stall s)
  write : ∀ s v a, a ≠ c.STM32L4_FLASH_CR → P s → P (d.write32 s v a)

/-- The two ways the mode bits pair up: the bit an operation sets and the
other one. -/
def ModePair (c : Chip) (b o : Nat) : Prop :=
  (b = c.FLASH_CR_PG ∧ o = c.FLASH_CR_PER) ∨ (b = c.FLASH_CR_PER ∧ o = c.FLASH_CR_PG)

/-- A call of one of the three operations that change the flash or the option
bytes. -/
inductive Call where
  | erasepage (page : Nat) : Call
  | write (addr : Nat) (buf : Nat → Nat) (count : Nat) : Call
  | user_optbytes (clrbits setbits : Nat) : Call

/-- The arguments of the call name a place inside the array: a page index
below the page count for an erase, a `ValidRequest` for a program request
(aligned, and the byte range inside the array in unbounded arithmetic: narrower
than the tests of `up_progmem_write`, which a range wrapping around 2^32 also
passes). `stm32l4_flash_user_optbytes` has no such argument; its assertions
decide by themselves, a call they reject does not return. -/
def Call.InRange (c : Chip) : Call → Prop
  | Call.erasepage page => page < c.STM32L4_FLASH_NPAGES
  | Call.write addr _ count => ValidRequest c addr count
  | Call.user_optbytes _ _ => True

/-- The world a call leaves when it returns. -/
def Call.run (d : Device σ) (c : Chip) (fuel : Nat) : Call → World σ → Option (World σ)
  | Call.erasepage page, w =>
    match up_progmem_erasepage d c fuel page w with
    | none => none
    | some r => some r.2
  | Call.write addr buf count, w =>
    match up_progmem_write d c fuel addr buf count w with
    | none => none
    | some r => some r.2
  | Call.user_optbytes clrbits setbits, w =>
    match stm32l4_flash_user_optbytes d c fuel clrbits setbits w with
    | Outcome.returned r => some r.2
    | Outcome.assertion_failed => none
    | Outcome.no_return => none

/-- The world a sequence of calls leaves, each with its own fuel, when all of
them return. -/
def run_calls (d : Device σ) (c : Chip) : List (Nat × Call) → World σ → Option (World σ)
  | [], w => some w
  | fc :: rest, w =>
    match Call.run d c fc.1 fc.2 w with
    | none => none
    | some w1 => run_calls d c rest w1

/-- Conversion of an `ssize_t` value to `size_t` (two's complement, 32 bits),
as when the result of `up_progmem_getpage` is passed on as a page index. -/
def ofSsize (i : Int) : Nat := (i % 4294967296).toNat

/-- A degenerate header: one page of size 0 at base 0x08000000. -/
def zeroPageChip : Chip :=
  { stm32l476 with STM32L4_FLASH_PAGESIZE := 0, STM32L4_FLASH_NPAGES := 1,
                   STM32L4_FLASH_SIZE := 0 }

/-- A header whose page indices do not all fit `ssize_t`: 0x80000001 pages of
one byte at base 0. -/
def hugeChip : Chip :=
  { stm32l476 with STM32L4_FLASH_BASE := 0, STM32L4_FLASH_PAGESIZE := 1,
                   STM32L4_FLASH_NPAGES := 0x80000001, STM32L4_FLASH_SIZE := 0x80000001 }

/-- The 32-bit word at word index `i` of a byte buffer, as the little-endian
processor reads it through `uint32_t *`. -/
def words_of_bytes (bytes : Nat → Nat) (i : Nat) : Nat :=
  bytes (4 * i) % 256 + 256 * (bytes (4 * i + 1) % 256) + 65536 * (bytes (4 * i + 2) % 256) +
    16777216 * (bytes (4 * i + 3) % 256)

/-- The scenario of the spec from world `w0` of the simulated controller: erase
page 3, program the first 32 bytes of `bytes` at the start of page 3, ask how
much of page 3 is not erased. The three values returned, when all three calls
return. -/
def scenario_from (w0 : World Sim) (bytes : Nat → Nat) : Option (Int × Int × Int) :=
  match up_progmem_erasepage Sim.device stm32l476 2 3 w0 with
  | none => none
  | some r1 =>
    match up_progmem_write Sim.device stm32l476 5 (0x08000000 + 3 * 2048) (words_of_bytes bytes)
        32 r1.2 with
    | none => none
    | some r2 => some (r1.1, r2.1, (up_progmem_ispageerased Sim.device stm32l476 3 r2.2).1)

/-- The scenario of the spec on the simulated controller after reset, over an
unprotected array of zero bytes. -/
def scenario (bytes : Nat → Nat) : Option (Int × Int × Int) :=
  scenario_from (Sim.boot (fun _ => false) (fun _ => 0)) bytes

/-- The simulated controller accepts programming: unlocked, programming bit
set, page-erase bit clear, no page write-protected, no error flag pending. -/
def Sim.Ready (s : Sim) : Prop :=
  s.cr &&& stm32l476.FLASH_CR_LOCK = 0 ∧ s.cr &&& stm32l476.FLASH_CR_PG ≠ 0 ∧
    s.cr &&& stm32l476.FLASH_CR_PER = 0 ∧ (∀ p, s.wrp p = false) ∧ s.sr = 0

/-- Byte memory after `k` strides of a programming loop that starts at flash
address `addr` with `count` bytes to go and `word` at index `wi`. -/
def Sim.programmed (buf : Nat → Nat) : Nat → Nat → Nat → Nat → (Nat → Nat) → (Nat → Nat)
  | 0, _, _, _, mem => mem
  | k + 1, addr, count, wi, mem =>
    Sim.programmed buf k (addr + 8) (count - 8) (wi + 2)
      (Sim.store32 (Sim.store32 mem addr (buf wi)) (addr + 4) (second_word buf count wi))

/-- Number of the `n` values `f a`, `f (a + 1)`, ... that differ from the
erased value 0xff. -/
def nonblank (f : Nat → Nat) : Nat → Nat → Nat
  | 0, _ => 0
  | n + 1, a => (if f a ≠ 0xff then 1 else 0) + nonblank f n (a + 1)

/-- The simulated controller as the driver leaves it after an operation on
page 3 of an unprotected array with content `mem`: locked, idle, page 3
selected. -/
def Sim.idle3 (mem : Nat → Nat) : Sim where
  cr := 0xC0000018
  sr := 0
  optr := 0xFFEFF8AA
  key := false
  optkey := false
  busy := false
  wrp := fun _ => false
  mem := mem

/-- The register and flash writes among a list of actions, oldest first: value
and address of every `putreg32`. -/
def puts : List Event → List (Nat × Nat)
  | [] => []
  | e :: es =>
    match e with
    | Event.put32 v a => (v, a) :: puts es
    | _ => puts es

/-! ## Arithmetic helpers -/

theorem and_seven (a : Nat) : a &&& 7 = a % 8 :=
  Nat.and_pow_two_sub_one_eq_mod a 3

theorem and_three (a : Nat) : a &&& 3 = a % 4 :=
  Nat.and_pow_two_sub_one_eq_mod a 2

theorem toSsize_of_lt (n : Nat) (h : n < 2147483648) : toSsize n = (n : Int) := by
  unfold toSsize
  simp [h]

theorem stm32l476_geometry : stm32l476.Geometry := by
  constructor <;> decide

theorem Chip.Geometry.size_lt (c : Chip) (hg : c.Geometry) :
    c.STM32L4_FLASH_SIZE < 2147483648 := by
  have h1 := hg.size_le_base
  have h2 := hg.end_le
  unfold SIZE_MAX at h2
  omega

/-! ## Geometry -/

/-- C10: `up_progmem_getpage` fails with `-EFAULT` exactly when the offset of
the address is at or beyond the flash size, otherwise it is the offset divided
by the page size, a page index below the page count; a linear offset and the
absolute address `base + offset` give the same page. -/
theorem up_progmem_getpage_spec (c : Chip) (hg : c.Geometry) :
    (∀ a : Nat,
      (up_progmem_getpage c a = - EFAULT ↔
        c.STM32L4_FLASH_SIZE ≤
          (if a ≥ c.STM32L4_FLASH_BASE then a - c.STM32L4_FLASH_BASE else a)) ∧
      ((if a ≥ c.STM32L4_FLASH_BASE then a - c.STM32L4_FLASH_BASE else a) <
          c.STM32L4_FLASH_SIZE →
        up_progmem_getpage c a =
          (((if a ≥ c.STM32L4_FLASH_BASE then a - c.STM32L4_FLASH_BASE else a) /
            c.STM32L4_FLASH_PAGESIZE : Nat) : Int) ∧
        (if a ≥ c.STM32L4_FLASH_BASE then a - c.STM32L4_FLASH_BASE else a) /
            c.STM32L4_FLASH_PAGESIZE < c.STM32L4_FLASH_NPAGES)) ∧
    (∀ o : Nat, o < c.STM32L4_FLASH_SIZE →
      up_progmem_getpage c (c.STM32L4_FLASH_BASE + o) = up_progmem_getpage c o) := by
  have hsz := Chip.Geometry.size_lt c hg
  constructor
  · intro a
    generalize hoff : (if a ≥ c.STM32L4_FLASH_BASE then a - c.STM32L4_FLASH_BASE else a) = off
    have hdef : up_progmem_getpage c a =
        if off ≥ c.STM32L4_FLASH_SIZE then - EFAULT
        else toSsize (off / c.STM32L4_FLASH_PAGESIZE) := by
      simp only [up_progmem_getpage, hoff]
    have hq : off < c.STM32L4_FLASH_SIZE →
        off / c.STM32L4_FLASH_PAGESIZE < c.STM32L4_FLASH_NPAGES := by
      intro h
      rw [hg.size_eq, Nat.mul_comm] at h
      exact Nat.div_lt_of_lt_mul h
    constructor
    · constructor
      · intro h
        by_contra hlt
        have hlt2 : off < c.STM32L4_FLASH_SIZE := Nat.lt_of_not_le hlt
        have hle : off / c.STM32L4_FLASH_PAGESIZE ≤ off := Nat.div_le_self _ _
        rw [hdef, if_neg (by omega), toSsize_of_lt _ (by omega)] at h
        generalize off / c.STM32L4_FLASH_PAGESIZE = q at h
        unfold EFAULT at h
        omega
      · intro h
        rw [hdef, if_pos h]
    · intro h
      have hle : off / c.STM32L4_FLASH_PAGESIZE ≤ off := Nat.div_le_self _ _
      refine ⟨?_, hq h⟩
      rw [hdef, if_neg (by omega), toSsize_of_lt _ (by omega)]
  · intro o ho
    have hb := hg.size_le_base
    have h1 : (if c.STM32L4_FLASH_BASE + o ≥ c.STM32L4_FLASH_BASE then
        c.STM32L4_FLASH_BASE + o - c.STM32L4_FLASH_BASE else c.STM32L4_FLASH_BASE + o) = o := by
      rw [if_pos (by omega)]; omega
    have h2 : (if o ≥ c.STM32L4_FLASH_BASE then o - c.STM32L4_FLASH_BASE else o) = o := by
      rw [if_neg (by omega)]
    simp only [up_progmem_getpage, h1, h2]

/-- C10 at the absolute address 0x08001800 of the STM32L476 geometry: offset
0x1800 lies in page 3. -/
theorem up_progmem_getpage_spec_witness :
    up_progmem_getpage stm32l476 0x08001800 = 3 ∧
      up_progmem_getpage stm32l476 (0x08000000 + 0x1800) = up_progmem_getpage stm32l476 0x1800 :=
  ⟨by
    have h := ((up_progmem_getpage_spec stm32l476 stm32l476_geometry).1 0x08001800).2
      (by decide)
    simpa [stm32l476] using h.1,
   (up_progmem_getpage_spec stm32l476 stm32l476_geometry).2 0x1800 (by decide)⟩

/-! ## Rejected requests -/

/-- C6: a page index at or beyond the page count is rejected by
`up_progmem_erasepage` and `up_progmem_ispageerased` with `-EFAULT` and by
`up_progmem_getaddress` with `SIZE_MAX`; the world that comes back is the one
that went in: gate, device state and trace are untouched, so no register was
read or written and no flash byte was read. -/
theorem page_out_of_range_rejected (d : Device σ) (c : Chip) (fuel p : Nat) (w : World σ)
    (hp : c.STM32L4_FLASH_NPAGES ≤ p) :
    up_progmem_erasepage d c fuel p w = some (- EFAULT, w) ∧
      up_progmem_ispageerased d c p w = (- EFAULT, w) ∧
      up_progmem_getaddress c p = SIZE_MAX := by
  refine ⟨?_, ?_, ?_⟩
  · simp only [up_progmem_erasepage, ge_iff_le, hp, if_true]
  · simp only [up_progmem_ispageerased, ge_iff_le, hp, if_true]
  · simp only [up_progmem_getaddress, ge_iff_le, hp, if_true]

/-- C6 at page 256 of the STM32L476 geometry (256 pages) on the simulated
controller after reset. -/
theorem page_out_of_range_rejected_witness :
    up_progmem_erasepage Sim.device stm32l476 0 256 (Sim.boot (fun _ => false) (fun _ => 0)) =
        some (- EFAULT, Sim.boot (fun _ => false) (fun _ => 0)) ∧
      up_progmem_ispageerased Sim.device stm32l476 256 (Sim.boot (fun _ => false) (fun _ => 0)) =
        (- EFAULT, Sim.boot (fun _ => false) (fun _ => 0)) ∧
      up_progmem_getaddress stm32l476 256 = SIZE_MAX :=
  page_out_of_range_rejected Sim.device stm32l476 0 256 (Sim.boot (fun _ => false) (fun _ => 0))
    (by decide)

theorem stride_verify_ret (d : Device σ) (c : Chip) (buf : Nat → Nat) (addr count wi : Nat)
    (w : World σ) :
    (stride_verify d c buf addr count wi w).1 = OK ∨
      (stride_verify d c buf addr count wi w).1 = - EROFS ∨
      (stride_verify d c buf addr count wi w).1 = - EIO := by
  unfold stride_verify
  simp only
  split
  · exact Or.inr (Or.inl rfl)
  · split
    · exact Or.inr (Or.inr rfl)
    · split
      · exact Or.inr (Or.inr rfl)
      · exact Or.inl rfl

theorem write_loop_ret (d : Device σ) (c : Chip) (fuel : Nat) (buf : Nat → Nat) :
    ∀ (n addr count wi : Nat) (w : World σ) (r : Int × World σ),
      write_loop d c fuel buf n addr count wi w = some r →
      r.1 = OK ∨ r.1 = - EROFS ∨ r.1 = - EIO := by
  intro n
  induction n with
  | zero => intro addr count wi w r h; simp [write_loop] at h
  | succ n ih =>
    intro addr count wi w r h
    rw [write_loop] at h
    split at h
    · cases h; exact Or.inl rfl
    · split at h
      · cases h
      · rename_i w1 _
        simp only at h
        split at h
        · cases h; exact stride_verify_ret d c buf addr count wi w1
        · split at h
          · cases h; exact Or.inl rfl
          · exact ih _ _ _ _ _ h

/-- C2: `up_progmem_write` returns `-EINVAL` exactly when the address is not a
multiple of 8 or the count is not a multiple of 4, whatever the range; and then
the world that comes back is the one that went in: gate, registers (the Lock
bit among them) and flash contents are unchanged. -/
theorem up_progmem_write_einval_iff (d : Device σ) (c : Chip) (fuel addr : Nat)
    (buf : Nat → Nat) (count : Nat) (w : World σ) :
    ((∃ w', up_progmem_write d c fuel addr buf count w = some (- EINVAL, w')) ↔
        (addr % 8 ≠ 0 ∨ count % 4 ≠ 0)) ∧
      (addr % 8 ≠ 0 ∨ count % 4 ≠ 0 →
        up_progmem_write d c fuel addr buf count w = some (- EINVAL, w)) := by
  have hrej : addr % 8 ≠ 0 ∨ count % 4 ≠ 0 →
      up_progmem_write d c fuel addr buf count w = some (- EINVAL, w) := by
    intro h
    unfold up_progmem_write
    simp only [and_seven, and_three]
    by_cases ha : addr % 8 = 0
    · have hc : count % 4 ≠ 0 := by
        rcases h with h | h
        · exact absurd ha h
        · exact h
      simp [ha, hc]
    · simp [ha]
  refine ⟨⟨?_, fun h => ⟨w, hrej h⟩⟩, hrej⟩
  rintro ⟨w', h⟩
  by_contra hal
  have ha : addr % 8 = 0 := by omega
  have hc : count % 4 = 0 := by omega
  unfold up_progmem_write at h
  simp only [and_seven, and_three, ha, hc, ne_eq, not_true_eq_false, if_false] at h
  generalize (if addr ≥ c.STM32L4_FLASH_BASE then addr - c.STM32L4_FLASH_BASE else addr) =
    addr1 at h
  split at h
  · simp [EINVAL, EFAULT] at h
  · split at h
    · cases h
    · split at h
      · cases h
      · rename_i r hr
        have hret := write_loop_ret d c fuel buf _ _ _ _ _ _ hr
        simp only [Option.some.injEq, Prod.mk.injEq] at h
        have h1 := h.1
        split at h1
        · unfold toSsize EINVAL at h1
          split at h1 <;> omega
        · rcases hret with hret | hret | hret
          · contradiction
          · rw [hret] at h1; simp [EROFS, EINVAL] at h1
          · rw [hret] at h1; simp [ EIO, EINVAL] at h1

/-- C2 at the misaligned address 0x08001804 on the simulated controller
after reset. -/
theorem up_progmem_write_einval_iff_witness :
    up_progmem_write Sim.device stm32l476 3 0x08001804 (fun _ => 0) 8
        (Sim.boot (fun _ => false) (fun _ => 0xff)) =
      some (- EINVAL, Sim.boot (fun _ => false) (fun _ => 0xff)) :=
  (up_progmem_write_einval_iff Sim.device stm32l476 3 0x08001804 (fun _ => 0) 8
    (Sim.boot (fun _ => false) (fun _ => 0xff))).2 (Or.inl (by decide))

/-! ## Busy-wait and the gate -/

theorem busy_wait_of_clear (d : Device σ) (c : Chip) :
    ∀ (k fuel : Nat) (w : World σ), k < fuel →
      d.read32 (d.stall^[k] w.hw) c.STM32L4_FLASH_SR &&& c.FLASH_SR_BSY = 0 →
      ∃ w', busy_wait d c fuel w = some w' := by
  intro k
  induction k with
  | zero =>
    intro fuel w hk h
    obtain ⟨f, rfl⟩ : ∃ f, fuel = f + 1 := ⟨fuel - 1, by omega⟩
    simp only [Function.iterate_zero, id_eq] at h
    rw [busy_wait]
    simp only [getreg32, h, ne_eq, not_true_eq_false, if_false]
    exact ⟨_, rfl⟩
  | succ k ih =>
    intro fuel w hk h
    obtain ⟨f, rfl⟩ : ∃ f, fuel = f + 1 := ⟨fuel - 1, by omega⟩
    rw [busy_wait]
    split
    · exact ih f _ (by omega) (by simpa [up_waste, getreg32, Function.iterate_succ_apply] using h)
    · exact ⟨_, rfl⟩

theorem busy_wait_isSome (d : Device σ) (c : Chip) (fuel : Nat) (hb : BusyClears d c fuel)
    (w : World σ) : ∃ w', busy_wait d c fuel w = some w' := by
  obtain ⟨k, hk, h⟩ := hb w.hw
  exact busy_wait_of_clear d c k fuel w hk h

theorem sem_lock_eq (w : World σ) (h : 0 < w.g_sem) :
    sem_lock w =
      some { w with g_sem := w.g_sem - 1, trace := w.trace ++ [Event.sem_wait] } := by
  simp [sem_lock, nxsem_wait, h]

theorem flash_unlock_isSome (d : Device σ) (c : Chip) (fuel : Nat) (hb : BusyClears d c fuel)
    (w : World σ) : ∃ w', flash_unlock d c fuel w = some w' := by
  obtain ⟨w1, h1⟩ := busy_wait_isSome d c fuel hb w
  unfold flash_unlock
  rw [h1]
  simp only
  split <;> exact ⟨_, rfl⟩

theorem erasepage_locked_isSome (d : Device σ) (c : Chip) (fuel page : Nat)
    (hb : BusyClears d c fuel) (w : World σ) (hs : 0 < w.g_sem) :
    ∃ w', erasepage_locked d c fuel page w = some w' := by
  unfold erasepage_locked
  rw [sem_lock_eq w hs]
  simp only
  obtain ⟨w2, h2⟩ := flash_unlock_isSome d c fuel hb
    { w with g_sem := w.g_sem - 1, trace := w.trace ++ [Event.sem_wait] }
  rw [h2]
  simp only
  obtain ⟨w6, h6⟩ := busy_wait_isSome d c fuel hb
    (modifyreg32 d c.STM32L4_FLASH_CR 0 c.FLASH_CR_START
      (modifyreg32 d c.STM32L4_FLASH_CR c.FLASH_CR_PNB_MASK (c.FLASH_CR_PNB page)
        (modifyreg32 d c.STM32L4_FLASH_CR 0 c.FLASH_CR_PAGE_ERASE w2)))
  rw [h6]
  exact ⟨_, rfl⟩

/-! ## The erase verification -/

theorem scan_page_hw (d : Device σ) :
    ∀ (n a b : Nat) (w : World σ), (scan_page d n a b w).2.hw = w.hw := by
  intro n
  induction n with
  | zero => intro a b w; rfl
  | succ n ih =>
    intro a b w
    rw [scan_page, ih]
    rfl

theorem scan_page_count (d : Device σ) :
    ∀ (n a b : Nat) (w : World σ), a < 4294967296 → b + n < 4294967296 →
      b ≤ (scan_page d n a b w).1 ∧
      ((scan_page d n a b w).1 = b ↔ ∀ i, i < n → d.read8 w.hw (wrap32 (a + i)) = 0xff) := by
  intro n
  induction n with
  | zero => intro a b w _ _; simp [scan_page]
  | succ n ih =>
    intro a b w ha hb
    rw [scan_page]
    have hwa : wrap32 (a + 1) < 4294967296 := Nat.mod_lt _ (by decide)
    have hstep : ∀ i, wrap32 (wrap32 (a + 1) + i) = wrap32 (a + (i + 1)) := by
      intro i
      unfold wrap32
      omega
    have ha0 : wrap32 (a + 0) = a := by unfold wrap32; omega
    by_cases hbyte : d.read8 w.hw a = 0xff
    · have hgr : (getreg8 d a w).1 = 0xff := hbyte
      have hhw : (getreg8 d a w).2.hw = w.hw := rfl
      rw [hgr]
      simp only [ne_eq, not_true_eq_false, if_false]
      obtain ⟨h1, h2⟩ := ih (wrap32 (a + 1)) b (getreg8 d a w).2 hwa (by omega)
      refine ⟨h1, ?_⟩
      rw [h2, hhw]
      constructor
      · intro h i hi
        cases i with
        | zero => rw [ha0]; exact hbyte
        | succ j => rw [← hstep]; exact h j (by omega)
      · intro h i hi
        rw [hstep]
        exact h (i + 1) (by omega)
    · have hgr : (getreg8 d a w).1 ≠ 0xff := hbyte
      have hb1 : wrap32 (b + 1) = b + 1 := by unfold wrap32; omega
      rw [if_pos hgr, hb1]
      obtain ⟨h1, _⟩ := ih (wrap32 (a + 1)) (b + 1) (getreg8 d a w).2 hwa (by omega)
      refine ⟨by omega, ?_⟩
      constructor
      · intro h; omega
      · intro h
        exact absurd (by rw [← ha0]; exact h 0 (by omega)) hbyte

theorem scan_page_le (d : Device σ) :
    ∀ (n a b : Nat) (w : World σ), (scan_page d n a b w).1 ≤ b + n := by
  intro n
  induction n with
  | zero => intro a b w; simp [scan_page]
  | succ n ih =>
    intro a b w
    rw [scan_page]
    have hw : wrap32 (b + 1) ≤ b + 1 := Nat.mod_le _ _
    by_cases hbyte : (getreg8 d a w).1 ≠ 0xff
    · rw [if_pos hbyte]
      have h := ih (wrap32 (a + 1)) (wrap32 (b + 1)) (getreg8 d a w).2
      omega
    · rw [if_neg hbyte]
      have h := ih (wrap32 (a + 1)) b (getreg8 d a w).2
      omega

theorem up_progmem_getaddress_lt (c : Chip) (page : Nat) :
    up_progmem_getaddress c page < 4294967296 := by
  unfold up_progmem_getaddress
  split
  · decide
  · exact Nat.mod_lt _ (by decide)

theorem ispageerased_zero_iff (d : Device σ) (c : Chip) (page : Nat) (w : World σ)
    (hp : page < c.STM32L4_FLASH_NPAGES) (hps : c.STM32L4_FLASH_PAGESIZE < 2147483648) :
    (up_progmem_ispageerased d c page w).1 = 0 ↔ PageBlank d c page w.hw := by
  have hsc := scan_page_count d (up_progmem_pagesize c page) (up_progmem_getaddress c page) 0 w
    (up_progmem_getaddress_lt c page) (by simp only [up_progmem_pagesize]; omega)
  have hle : (scan_page d (up_progmem_pagesize c page) (up_progmem_getaddress c page) 0 w).1 ≤
      up_progmem_pagesize c page := by
    have := scan_page_le d (up_progmem_pagesize c page) (up_progmem_getaddress c page) 0 w
    omega
  have key : ∀ n : Nat, n ≤ up_progmem_pagesize c page → (toSsize n = 0 ↔ n = 0) := by
    intro n hn
    have hpe : up_progmem_pagesize c page = c.STM32L4_FLASH_PAGESIZE := rfl
    rw [hpe] at hn
    unfold toSsize
    split <;> omega
  unfold up_progmem_ispageerased
  rw [if_neg (by omega)]
  simp only
  rw [key _ hle]
  exact hsc.2
theorem Sim.busyClears : BusyClears Sim.device stm32l476 2 := by
  intro s
  refine ⟨1, by decide, ?_⟩
  show ((s.sr &&& stm32l476.FLASH_SR_ALLERRS) ||| 0) &&& stm32l476.FLASH_SR_BSY = 0
  rw [Nat.or_zero, Nat.and_assoc]
  have h : stm32l476.FLASH_SR_ALLERRS &&& stm32l476.FLASH_SR_BSY = 0 := by decide
  rw [h, Nat.and_zero]

/-- C5: for a page index below the page count, with the gate free and a
device whose busy-waits end, `up_progmem_erasepage` returns; it returns the
page size when every byte of the page reads 0xff in the device state the erase
sequence leaves, and `-EIO` when some byte does not; so whenever the value
returned is non-negative, `up_progmem_ispageerased` on the resulting flash
contents is 0. -/
theorem up_progmem_erasepage_verify (d : Device σ) (c : Chip) (fuel p : Nat) (w : World σ)
    (hp : p < c.STM32L4_FLASH_NPAGES) (hps : c.STM32L4_FLASH_PAGESIZE < 2147483648)
    (hs : 0 < w.g_sem) (hb : BusyClears d c fuel) :
    ∃ r w1 w', erasepage_locked d c fuel p w = some w1 ∧
      up_progmem_erasepage d c fuel p w = some (r, w') ∧ w'.hw = w1.hw ∧
      (PageBlank d c p w1.hw → r = (c.STM32L4_FLASH_PAGESIZE : Int)) ∧
      (¬ PageBlank d c p w1.hw → r = - EIO) ∧
      (0 ≤ r → (up_progmem_ispageerased d c p w').1 = 0) := by
  obtain ⟨w1, h1⟩ := erasepage_locked_isSome d c fuel p hb w hs
  have hiff := ispageerased_zero_iff d c p w1 hp hps
  have hhw : (up_progmem_ispageerased d c p w1).2.hw = w1.hw := by
    unfold up_progmem_ispageerased
    rw [if_neg (by omega)]
    exact scan_page_hw d _ _ _ _
  have hiff2 := ispageerased_zero_iff d c p (up_progmem_ispageerased d c p w1).2 hp hps
  rw [hhw] at hiff2
  have hdef : up_progmem_erasepage d c fuel p w =
      if (up_progmem_ispageerased d c p w1).1 = 0 then
        some (toSsize (up_progmem_pagesize c p), (up_progmem_ispageerased d c p w1).2)
      else some (- EIO, (up_progmem_ispageerased d c p w1).2) := by
    unfold up_progmem_erasepage
    rw [if_neg (by omega), h1]
  have hpz : toSsize (up_progmem_pagesize c p) = (c.STM32L4_FLASH_PAGESIZE : Int) :=
    toSsize_of_lt _ hps
  by_cases hblank : PageBlank d c p w1.hw
  · rw [if_pos (hiff.2 hblank), hpz] at hdef
    exact ⟨_, w1, _, h1, hdef, hhw, fun _ => rfl, fun h => absurd hblank h,
      fun _ => hiff2.2 hblank⟩
  · rw [if_neg (fun h => hblank (hiff.1 h))] at hdef
    refine ⟨_, w1, _, h1, hdef, hhw, fun h => absurd h hblank, fun _ => rfl, ?_⟩
    intro h
    unfold EIO at h
    omega

/-- C5 at page 3 of the simulated controller after reset, over an array of
zero bytes. -/
theorem up_progmem_erasepage_verify_witness :
    ∃ r w1 w', erasepage_locked Sim.device stm32l476 2 3 (Sim.boot (fun _ => false) (fun _ => 0)) =
        some w1 ∧
      up_progmem_erasepage Sim.device stm32l476 2 3 (Sim.boot (fun _ => false) (fun _ => 0)) =
        some (r, w') ∧ w'.hw = w1.hw ∧
      (PageBlank Sim.device stm32l476 3 w1.hw → r = (stm32l476.STM32L4_FLASH_PAGESIZE : Int)) ∧
      (¬ PageBlank Sim.device stm32l476 3 w1.hw → r = - EIO) ∧
      (0 ≤ r → (up_progmem_ispageerased Sim.device stm32l476 3 w').1 = 0) :=
  up_progmem_erasepage_verify Sim.device stm32l476 2 3 (Sim.boot (fun _ => false) (fun _ => 0))
    (by decide) (by decide) (by decide) Sim.busyClears

/-! ## The range check of `up_progmem_write` -/

/-- C1, the code at a request whose end wraps around: address 8 and count
0xfffffff8 are aligned and the byte range [8, 8 + 0xfffffff8) is not inside
the array of 0x80000 bytes, but the sum is 0 modulo 2^32 and the check lets the
request through. On the simulated controller with every page write-protected
the call takes the gate, writes the control register and two flash words, and
returns `-EROFS`, not `-EFAULT`. -/
theorem up_progmem_write_range_check_wraps :
    8 % 8 = 0 ∧ 4294967288 % 4 = 0 ∧
      ¬ (8 + 4294967288 ≤ stm32l476.STM32L4_FLASH_SIZE) ∧
      (up_progmem_write Sim.device stm32l476 2 8 (fun _ => 0) 4294967288
          (Sim.boot (fun _ => true) (fun _ => 0xff))).map (fun r => (r.1, r.2.trace)) =
        some (- EROFS,
          [Event.sem_wait,
           Event.get32 0x40022010 0,
           Event.get32 0x40022014 0xC0000000,
           Event.put32 0x45670123 0x40022008,
           Event.put32 0xCDEF89AB 0x40022008,
           Event.get32 0x40022014 0x40000000,
           Event.put32 0x40000001 0x40022014,
           Event.put32 0 0x08000008,
           Event.put32 0 0x0800000C,
           Event.get32 0x40022010 0x10010,
           Event.waste,
           Event.get32 0x40022010 0x10,
           Event.get32 0x40022010 0x10,
           Event.get32 0x40022014 0x40000001,
           Event.put32 0x40000000 0x40022014,
           Event.get32 0x40022010 0x10,
           Event.put32 0xF8 0x40022010,
           Event.get32 0x40022014 0x40000000,
           Event.put32 0xC0000000 0x40022014,
           Event.sem_post]) := by
  refine ⟨by decide, by decide, by decide, ?_⟩
  decide

/-- Without wrap-around the check is exact: an aligned request whose byte
range, taken from the translated offset, sticks out of the array and ends below
2^32 is rejected with `-EFAULT` and the world is untouched. -/
theorem up_progmem_write_efault (d : Device σ) (c : Chip) (fuel addr : Nat) (buf : Nat → Nat)
    (count : Nat) (w : World σ) (ha : addr % 8 = 0) (hc : count % 4 = 0)
    (hout : c.STM32L4_FLASH_SIZE <
      (if addr ≥ c.STM32L4_FLASH_BASE then addr - c.STM32L4_FLASH_BASE else addr) + count)
    (hnowrap :
      (if addr ≥ c.STM32L4_FLASH_BASE then addr - c.STM32L4_FLASH_BASE else addr) + count <
        4294967296) :
    up_progmem_write d c fuel addr buf count w = some (- EFAULT, w) := by
  unfold up_progmem_write
  simp only [and_seven, and_three, ha, hc, ne_eq, not_true_eq_false, if_false]
  generalize (if addr ≥ c.STM32L4_FLASH_BASE then addr - c.STM32L4_FLASH_BASE else addr) =
    addr1 at hout hnowrap
  have hw : wrap32 (addr1 + count) = addr1 + count := Nat.mod_eq_of_lt hnowrap
  rw [hw, if_pos hout]

/-! ## Traces of the private functions -/

theorem busy_wait_trace (d : Device σ) (c : Chip) :
    ∀ (fuel : Nat) (w w' : World σ), busy_wait d c fuel w = some w' →
      w'.g_sem = w.g_sem ∧
      ∃ evs, w'.trace = w.trace ++ evs ∧ ∀ v a, Event.put32 v a ∉ evs := by
  intro fuel
  induction fuel with
  | zero => intro w w' h; simp [busy_wait] at h
  | succ n ih =>
    intro w w' h
    rw [busy_wait] at h
    split at h
    · obtain ⟨hs, evs, ht, hp⟩ := ih _ _ h
      refine ⟨hs, [Event.get32 c.STM32L4_FLASH_SR (d.read32 w.hw c.STM32L4_FLASH_SR),
        Event.waste] ++ evs, ?_, ?_⟩
      · rw [ht]
        simp [up_waste, getreg32]
      · intro v a hm
        simp only [List.cons_append, List.nil_append, List.mem_cons, reduceCtorEq,
          false_or] at hm
        exact hp v a hm
    · cases h
      refine ⟨rfl, [Event.get32 c.STM32L4_FLASH_SR (d.read32 w.hw c.STM32L4_FLASH_SR)], rfl, ?_⟩
      intro v a hm
      simp at hm

theorem sem_lock_some (w w1 : World σ) (h : sem_lock w = some w1) :
    0 < w.g_sem ∧
      w1 = { w with g_sem := w.g_sem - 1, trace := w.trace ++ [Event.sem_wait] } := by
  unfold sem_lock nxsem_wait at h
  by_cases hs : 0 < w.g_sem
  · simp only [hs, if_true] at h
    cases h
    exact ⟨hs, rfl⟩
  · simp [hs] at h

theorem flash_unlock_trace (d : Device σ) (c : Chip) (fuel : Nat) (w w' : World σ)
    (h : flash_unlock d c fuel w = some w') :
    w'.g_sem = w.g_sem ∧
      ∃ evs, w'.trace = w.trace ++ evs ∧
        ∀ v a, Event.put32 v a ∈ evs → a = c.STM32L4_FLASH_KEYR := by
  unfold flash_unlock at h
  cases hb : busy_wait d c fuel w with
  | none => simp [hb] at h
  | some w1 =>
    obtain ⟨hs, evs, ht, hp⟩ := busy_wait_trace d c fuel w w1 hb
    simp only [hb] at h
    split at h
    · cases h
      refine ⟨hs, evs ++ [Event.get32 c.STM32L4_FLASH_CR (d.read32 w1.hw c.STM32L4_FLASH_CR),
        Event.put32 FLASH_KEY1 c.STM32L4_FLASH_KEYR,
        Event.put32 FLASH_KEY2 c.STM32L4_FLASH_KEYR], ?_, ?_⟩
      · simp [putreg32, getreg32, ht]
      · intro v a hm
        simp only [List.mem_append, List.mem_cons, Event.put32.injEq, reduceCtorEq, false_or,
          List.mem_singleton, List.not_mem_nil, or_false] at hm
        rcases hm with hm | hm | hm
        · exact absurd hm (hp v a)
        · exact hm.2
        · exact hm.2
    · cases h
      refine ⟨hs, evs ++ [Event.get32 c.STM32L4_FLASH_CR (d.read32 w1.hw c.STM32L4_FLASH_CR)],
        ?_, ?_⟩
      · simp [getreg32, ht]
      · intro v a hm
        simp only [List.mem_append, List.mem_singleton, reduceCtorEq, or_false] at hm
        exact absurd hm (hp v a)

theorem flash_optbytes_unlock_trace (d : Device σ) (c : Chip) (fuel : Nat) (w w' : World σ)
    (h : flash_optbytes_unlock d c fuel w = some w') :
    w'.g_sem = w.g_sem ∧
      ∃ evs, w'.trace = w.trace ++ evs ∧
        ∀ v a, Event.put32 v a ∈ evs →
          a = c.STM32L4_FLASH_KEYR ∨ a = c.STM32L4_FLASH_OPTKEYR := by
  unfold flash_optbytes_unlock at h
  cases hb : flash_unlock d c fuel w with
  | none => simp [hb] at h
  | some w1 =>
    obtain ⟨hs, evs, ht, hp⟩ := flash_unlock_trace d c fuel w w1 hb
    simp only [hb] at h
    split at h
    · cases h
      refine ⟨hs, evs ++ [Event.get32 c.STM32L4_FLASH_CR (d.read32 w1.hw c.STM32L4_FLASH_CR),
        Event.put32 OPTBYTES_KEY1 c.STM32L4_FLASH_OPTKEYR,
        Event.put32 OPTBYTES_KEY2 c.STM32L4_FLASH_OPTKEYR], ?_, ?_⟩
      · simp [putreg32, getreg32, ht]
      · intro v a hm
        simp only [List.mem_append, List.mem_cons, Event.put32.injEq, reduceCtorEq, false_or,
          List.mem_singleton, List.not_mem_nil, or_false] at hm
        rcases hm with hm | hm | hm
        · exact Or.inl (hp v a hm)
        · exact Or.inr hm.2
        · exact Or.inr hm.2
    · cases h
      refine ⟨hs, evs ++ [Event.get32 c.STM32L4_FLASH_CR (d.read32 w1.hw c.STM32L4_FLASH_CR)],
        ?_, ?_⟩
      · simp [getreg32, ht]
      · intro v a hm
        simp only [List.mem_append, List.mem_singleton, reduceCtorEq, or_false] at hm
        exact Or.inl (hp v a hm)

theorem flash_optbytes_unlock_isSome (d : Device σ) (c : Chip) (fuel : Nat)
    (hb : BusyClears d c fuel) (w : World σ) :
    ∃ w', flash_optbytes_unlock d c fuel w = some w' := by
  obtain ⟨w1, h1⟩ := flash_unlock_isSome d c fuel hb w
  unfold flash_optbytes_unlock
  rw [h1]
  simp only
  split <;> exact ⟨_, rfl⟩

/-! ## Option bytes -/

theorem user_optbytes_locked_shape (d : Device σ) (c : Chip) (fuel clrbits setbits : Nat)
    (w : World σ) (r : Nat) (w' : World σ)
    (h : user_optbytes_locked d c fuel clrbits setbits w = some (r, w')) :
    ∃ cur pre post,
      w'.trace = w.trace ++ pre ++
        [Event.get32 c.STM32L4_FLASH_OPTR cur, Event.put32 r c.STM32L4_FLASH_OPTR] ++ post ∧
      r = (cur &&& not32 clrbits) ||| setbits ∧
      (∀ v a, Event.put32 v a ∈ pre →
        a = c.STM32L4_FLASH_KEYR ∨ a = c.STM32L4_FLASH_OPTKEYR) ∧
      (∀ v a, Event.put32 v a ∈ post → a = c.STM32L4_FLASH_CR) := by
  unfold user_optbytes_locked at h
  cases h1 : sem_lock w with
  | none => simp [h1] at h
  | some w1 =>
    obtain ⟨_, hw1⟩ := sem_lock_some w w1 h1
    simp only [h1] at h
    cases h2 : flash_optbytes_unlock d c fuel w1 with
    | none => simp [h2] at h
    | some w2 =>
      obtain ⟨_, evs2, ht2, hp2⟩ := flash_optbytes_unlock_trace d c fuel w1 w2 h2
      simp only [h2] at h
      split at h
      · cases h
      · rename_i w5 h5
        obtain ⟨_, evs5, ht5, hp5⟩ := busy_wait_trace d c fuel _ w5 h5
        simp only [Option.some.injEq, Prod.mk.injEq] at h
        obtain ⟨hr, hw'⟩ := h
        subst hr
        subst hw'
        refine ⟨d.read32 w2.hw c.STM32L4_FLASH_OPTR, [Event.sem_wait] ++ evs2,
          [Event.get32 c.STM32L4_FLASH_CR
              (d.read32 (d.write32 w2.hw
                (d.read32 w2.hw c.STM32L4_FLASH_OPTR &&& not32 clrbits ||| setbits)
                c.STM32L4_FLASH_OPTR) c.STM32L4_FLASH_CR),
            Event.put32
              (d.read32 (d.write32 w2.hw
                (d.read32 w2.hw c.STM32L4_FLASH_OPTR &&& not32 clrbits ||| setbits)
                c.STM32L4_FLASH_OPTR) c.STM32L4_FLASH_CR &&& not32 0 ||| c.FLASH_CR_OPTSTRT)
              c.STM32L4_FLASH_CR] ++ evs5 ++
            [Event.get32 c.STM32L4_FLASH_CR (d.read32 w5.hw c.STM32L4_FLASH_CR),
              Event.put32 (d.read32 w5.hw c.STM32L4_FLASH_CR &&& not32 0 ||| c.FLASH_CR_LOCK)
                c.STM32L4_FLASH_CR,
              Event.sem_post], ?g1, ?g2, ?g3, ?g4⟩
        case g1 =>
          simp only [sem_unlock, nxsem_post, flash_optbytes_lock, flash_lock, modifyreg32,
            putreg32, getreg32, ht5, ht2, hw1]
          simp only [List.append_assoc, List.cons_append, List.nil_append]
        case g2 =>
          rfl
        case g3 =>
          intro v a hm
          simp only [List.mem_append, List.mem_singleton, reduceCtorEq, false_or] at hm
          exact hp2 v a hm
        case g4 =>
          intro v a hm
          simp only [List.mem_append, List.mem_cons, Event.put32.injEq, reduceCtorEq, false_or,
            List.mem_singleton, List.not_mem_nil, or_false] at hm
          rcases hm with (hm | hm) | hm
          · exact hm.2
          · exact absurd hm (hp5 v a)
          · exact hm.2

/-! ## Bit masks -/

theorem testBit_not32 (x i : Nat) :
    (not32 x).testBit i = (decide (i < 32) != x.testBit i) := by
  have h : (4294967295 : Nat) = 2 ^ 32 - 1 := by norm_num
  unfold not32
  rw [h, Nat.testBit_xor, Nat.testBit_two_pow_sub_one]

theorem testBit_mask_lt (m i : Nat) (hm : m < 4294967296) (h : m.testBit i = true) : i < 32 := by
  by_contra hge
  have h1 : m < 2 ^ i :=
    lt_of_lt_of_le hm (by
      have : (4294967296 : Nat) = 2 ^ 32 := by norm_num
      rw [this]
      exact Nat.pow_le_pow_right (by decide) (by omega))
  rw [Nat.testBit_lt_two_pow h1] at h
  cases h

theorem testBit_disjoint (a m i : Nat) (h : a &&& m = 0) (hm : m.testBit i = true) :
    a.testBit i = false := by
  have h1 : (a &&& m).testBit i = false := by rw [h]; exact Nat.zero_testBit i
  rw [Nat.testBit_and, hm, Bool.and_true] at h1
  exact h1

/-- A field that neither mask touches keeps its value under
`(cur & ~clrbits) | setbits`. -/
theorem field_preserved (cur clrbits setbits m : Nat) (hm : m < 4294967296)
    (hc : clrbits &&& m = 0) (hs : setbits &&& m = 0) :
    ((cur &&& not32 clrbits) ||| setbits) &&& m = cur &&& m := by
  apply Nat.eq_of_testBit_eq
  intro i
  rw [Nat.testBit_and, Nat.testBit_or, Nat.testBit_and, testBit_not32, Nat.testBit_and]
  cases hmi : m.testBit i with
  | false => simp
  | true =>
    rw [testBit_disjoint clrbits m i hc hmi, testBit_disjoint setbits m i hs hmi]
    have := testBit_mask_lt m i hm hmi
    simp [this]

theorem user_optbytes_locked_isSome (d : Device σ) (c : Chip) (fuel clrbits setbits : Nat)
    (hb : BusyClears d c fuel) (w : World σ) (hs : 0 < w.g_sem) :
    ∃ r, user_optbytes_locked d c fuel clrbits setbits w = some r := by
  unfold user_optbytes_locked
  rw [sem_lock_eq w hs]
  simp only
  obtain ⟨w2, h2⟩ := flash_optbytes_unlock_isSome d c fuel hb
    { w with g_sem := w.g_sem - 1, trace := w.trace ++ [Event.sem_wait] }
  rw [h2]
  simp only
  obtain ⟨w5, h5⟩ := busy_wait_isSome d c fuel hb
    (modifyreg32 d c.STM32L4_FLASH_CR 0 c.FLASH_CR_OPTSTRT
      (putreg32 d ((getreg32 d c.STM32L4_FLASH_OPTR w2).1 &&& not32 clrbits ||| setbits)
        c.STM32L4_FLASH_OPTR (getreg32 d c.STM32L4_FLASH_OPTR w2).2))
  rw [h5]
  exact ⟨_, rfl⟩

/-- C8: for masks that do not touch the protection-level field, with the gate
free and a device whose busy-waits end, `stm32l4_flash_user_optbytes` reads the
option register (value `cur`), writes `(cur & ~clrbits) | setbits` to it right
after, and returns that value; the only other bus writes are keys before and
control-register writes after. In the value written a bit in neither mask is
the bit of `cur` and a bit of `setbits` is set, also when `clrbits` has it. -/
theorem stm32l4_flash_user_optbytes_value (d : Device σ) (c : Chip)
    (fuel clrbits setbits : Nat) (w : World σ)
    (hclr : clrbits &&& c.FLASH_OPTCR_RDP_MASK = 0)
    (hset : setbits &&& c.FLASH_OPTCR_RDP_MASK = 0)
    (hs : 0 < w.g_sem) (hb : BusyClears d c fuel) :
    ∃ cur pre post w',
      stm32l4_flash_user_optbytes d c fuel clrbits setbits w =
        Outcome.returned ((cur &&& not32 clrbits) ||| setbits, w') ∧
      w'.trace = w.trace ++ pre ++
        [Event.get32 c.STM32L4_FLASH_OPTR cur,
          Event.put32 ((cur &&& not32 clrbits) ||| setbits) c.STM32L4_FLASH_OPTR] ++ post ∧
      (∀ v a, Event.put32 v a ∈ pre →
        a = c.STM32L4_FLASH_KEYR ∨ a = c.STM32L4_FLASH_OPTKEYR) ∧
      (∀ v a, Event.put32 v a ∈ post → a = c.STM32L4_FLASH_CR) ∧
      (∀ i, i < 32 → clrbits.testBit i = false → setbits.testBit i = false →
        ((cur &&& not32 clrbits) ||| setbits).testBit i = cur.testBit i) ∧
      (∀ i, setbits.testBit i = true →
        ((cur &&& not32 clrbits) ||| setbits).testBit i = true) := by
  obtain ⟨⟨r, w'⟩, hr⟩ := user_optbytes_locked_isSome d c fuel clrbits setbits hb w hs
  obtain ⟨cur, pre, post, ht, hv, hpre, hpost⟩ :=
    user_optbytes_locked_shape d c fuel clrbits setbits w r w' hr
  subst hv
  refine ⟨cur, pre, post, w', ?_, ht, hpre, hpost, ?_, ?_⟩
  · unfold stm32l4_flash_user_optbytes DEBUGASSERT
    simp [hclr, hset, hr]
  · intro i hi hc hsb
    rw [Nat.testBit_or, Nat.testBit_and, testBit_not32, hc, hsb]
    simp [hi]
  · intro i hsb
    rw [Nat.testBit_or, hsb, Bool.or_true]

/-- C8 on the simulated controller after reset: clear bit 8, set bits 8
and 9. -/
theorem stm32l4_flash_user_optbytes_value_witness :
    ∃ cur pre post w',
      stm32l4_flash_user_optbytes Sim.device stm32l476 2 0x100 0x300
          (Sim.boot (fun _ => false) (fun _ => 0xff)) =
        Outcome.returned ((cur &&& not32 0x100) ||| 0x300, w') ∧
      w'.trace = (Sim.boot (fun _ => false) (fun _ => 0xff)).trace ++ pre ++
        [Event.get32 stm32l476.STM32L4_FLASH_OPTR cur,
          Event.put32 ((cur &&& not32 0x100) ||| 0x300) stm32l476.STM32L4_FLASH_OPTR] ++ post ∧
      (∀ v a, Event.put32 v a ∈ pre →
        a = stm32l476.STM32L4_FLASH_KEYR ∨ a = stm32l476.STM32L4_FLASH_OPTKEYR) ∧
      (∀ v a, Event.put32 v a ∈ post → a = stm32l476.STM32L4_FLASH_CR) ∧
      (∀ i, i < 32 → Nat.testBit 0x100 i = false → Nat.testBit 0x300 i = false →
        ((cur &&& not32 0x100) ||| 0x300).testBit i = cur.testBit i) ∧
      (∀ i, Nat.testBit 0x300 i = true →
        ((cur &&& not32 0x100) ||| 0x300).testBit i = true) :=
  stm32l4_flash_user_optbytes_value Sim.device stm32l476 2 0x100 0x300
    (Sim.boot (fun _ => false) (fun _ => 0xff)) (by decide) (by decide) (by decide)
    Sim.busyClears

/-- C9: a request whose clear or set mask has a bit of the protection-level
field is rejected by the assertions before any hardware access; and in every
call that returns, the value written to the option register (the only write to
it: the writes before go to the key registers, the writes after to the control
register) has the protection-level field of the value read from it. -/
theorem stm32l4_flash_user_optbytes_rdp (d : Device σ) (c : Chip)
    (fuel clrbits setbits : Nat) (w : World σ)
    (hm : c.FLASH_OPTCR_RDP_MASK < 4294967296)
    (hk : c.STM32L4_FLASH_OPTR ≠ c.STM32L4_FLASH_KEYR)
    (ho : c.STM32L4_FLASH_OPTR ≠ c.STM32L4_FLASH_OPTKEYR)
    (hcr : c.STM32L4_FLASH_OPTR ≠ c.STM32L4_FLASH_CR) :
    (clrbits &&& c.FLASH_OPTCR_RDP_MASK ≠ 0 ∨ setbits &&& c.FLASH_OPTCR_RDP_MASK ≠ 0 →
        stm32l4_flash_user_optbytes d c fuel clrbits setbits w = Outcome.assertion_failed) ∧
      (∀ r w', stm32l4_flash_user_optbytes d c fuel clrbits setbits w = Outcome.returned (r, w') →
        ∃ cur pre post,
          w'.trace = w.trace ++ pre ++
            [Event.get32 c.STM32L4_FLASH_OPTR cur, Event.put32 r c.STM32L4_FLASH_OPTR] ++ post ∧
          r &&& c.FLASH_OPTCR_RDP_MASK = cur &&& c.FLASH_OPTCR_RDP_MASK ∧
          (∀ v, Event.put32 v c.STM32L4_FLASH_OPTR ∉ pre) ∧
          (∀ v, Event.put32 v c.STM32L4_FLASH_OPTR ∉ post)) := by
  constructor
  · intro h
    unfold stm32l4_flash_user_optbytes DEBUGASSERT
    by_cases hc : clrbits &&& c.FLASH_OPTCR_RDP_MASK = 0
    · have hsb : setbits &&& c.FLASH_OPTCR_RDP_MASK ≠ 0 := by
        rcases h with h | h
        · exact absurd hc h
        · exact h
      simp [hc, hsb]
    · simp [hc]
  · intro r w' h
    unfold stm32l4_flash_user_optbytes DEBUGASSERT at h
    by_cases hc : clrbits &&& c.FLASH_OPTCR_RDP_MASK = 0
    · by_cases hsb : setbits &&& c.FLASH_OPTCR_RDP_MASK = 0
      · simp only [hc, hsb, beq_self_eq_true, if_true] at h
        cases hr : user_optbytes_locked d c fuel clrbits setbits w with
        | none => simp [hr] at h
        | some r' =>
          simp only [hr, Outcome.returned.injEq] at h
          subst h
          obtain ⟨cur, pre, post, ht, hv, hpre, hpost⟩ :=
            user_optbytes_locked_shape d c fuel clrbits setbits w r w' hr
          refine ⟨cur, pre, post, ht, ?_, ?_, ?_⟩
          · rw [hv]
            exact field_preserved cur clrbits setbits _ hm hc hsb
          · intro v hmem
            rcases hpre v _ hmem with h1 | h1
            · exact hk h1
            · exact ho h1
          · intro v hmem
            exact hcr (hpost v _ hmem)
      · simp [hc, hsb] at h
    · simp [hc] at h

/-- C9 on the simulated controller after reset, for a clear mask that covers
the whole protection-level field. -/
theorem stm32l4_flash_user_optbytes_rdp_witness :
    stm32l4_flash_user_optbytes Sim.device stm32l476 2 0xff 0
        (Sim.boot (fun _ => false) (fun _ => 0xff)) = Outcome.assertion_failed :=
  (stm32l4_flash_user_optbytes_rdp Sim.device stm32l476 2 0xff 0
    (Sim.boot (fun _ => false) (fun _ => 0xff)) (by decide) (by decide) (by decide)
    (by decide)).1 (Or.inl (by decide))

/-! ## The programming loop -/

theorem stride_verify_wrperr (d : Device σ) (c : Chip) (buf : Nat → Nat) (addr count wi : Nat)
    (w : World σ) (h : WrpErr d c w.hw) :
    stride_verify d c buf addr count wi w =
      (- EROFS, { w with trace := w.trace ++
        [Event.get32 c.STM32L4_FLASH_SR (d.read32 w.hw c.STM32L4_FLASH_SR)] }) := by
  unfold WrpErr at h
  unfold stride_verify
  simp only [getreg32, Chip.FLASH_SR_WRITE_PROTECTION_ERROR]
  rw [if_pos h]

theorem stride_verify_mismatch (d : Device σ) (c : Chip) (buf : Nat → Nat)
    (addr count wi : Nat) (w : World σ) (ha : addr + 4 < 4294967296)
    (h : ¬ WrpErr d c w.hw) (hr : ¬ ReadBack d buf addr count wi w.hw) :
    ∃ evs, stride_verify d c buf addr count wi w =
        (- EIO, { w with trace := w.trace ++ evs }) ∧
      ∀ v a, Event.put32 v a ∉ evs := by
  unfold WrpErr at h
  unfold ReadBack at hr
  have hw : wrap32 (addr + 4) = addr + 4 := Nat.mod_eq_of_lt ha
  unfold stride_verify
  simp only [getreg32, Chip.FLASH_SR_WRITE_PROTECTION_ERROR, hw]
  rw [if_neg h]
  by_cases h1 : d.read32 w.hw addr = buf wi
  · have h2 : d.read32 w.hw (addr + 4) ≠ second_word buf count wi := fun h2 => hr ⟨h1, h2⟩
    rw [if_neg (by simpa using h1), if_pos h2]
    refine ⟨[Event.get32 c.STM32L4_FLASH_SR (d.read32 w.hw c.STM32L4_FLASH_SR),
      Event.get32 addr (d.read32 w.hw addr),
      Event.get32 (addr + 4) (d.read32 w.hw (addr + 4))], ?_, ?_⟩
    · simp
    · intro v a hm
      simp at hm
  · rw [if_pos h1]
    refine ⟨[Event.get32 c.STM32L4_FLASH_SR (d.read32 w.hw c.STM32L4_FLASH_SR),
      Event.get32 addr (d.read32 w.hw addr)], ?_, ?_⟩
    · simp
    · intro v a hm
      simp at hm

theorem stride_verify_clean (d : Device σ) (c : Chip) (buf : Nat → Nat) (addr count wi : Nat)
    (w : World σ) (ha : addr + 4 < 4294967296)
    (h : ¬ WrpErr d c w.hw) (hr : ReadBack d buf addr count wi w.hw) :
    (stride_verify d c buf addr count wi w).1 = OK := by
  unfold WrpErr at h
  unfold ReadBack at hr
  have hw : wrap32 (addr + 4) = addr + 4 := Nat.mod_eq_of_lt ha
  unfold stride_verify
  simp only [getreg32, Chip.FLASH_SR_WRITE_PROTECTION_ERROR, hw]
  rw [if_neg h, if_neg (by simpa using hr.1), if_neg (by simpa using hr.2)]

theorem stride_verify_ok_iff (d : Device σ) (c : Chip) (buf : Nat → Nat) (addr count wi : Nat)
    (w : World σ) (ha : addr + 4 < 4294967296) :
    (stride_verify d c buf addr count wi w).1 = OK ↔
      (¬ WrpErr d c w.hw ∧ ReadBack d buf addr count wi w.hw) := by
  constructor
  · intro h
    by_contra hn
    by_cases hwp : WrpErr d c w.hw
    · rw [stride_verify_wrperr d c buf addr count wi w hwp] at h
      simp [EROFS, OK] at h
    · have hr : ¬ ReadBack d buf addr count wi w.hw := fun hr => hn ⟨hwp, hr⟩
      obtain ⟨evs, he, _⟩ := stride_verify_mismatch d c buf addr count wi w ha hwp hr
      rw [he] at h
      simp [ EIO, OK] at h
  · rintro ⟨h1, h2⟩
    exact stride_verify_clean d c buf addr count wi w ha h1 h2

theorem strides_pos (count : Nat) (h : count ≠ 0) : 0 < strides count := by
  unfold strides
  omega

theorem strides_step (count : Nat) (h : 8 ≤ count) : strides count = strides (count - 8) + 1 := by
  unfold strides
  omega

/-- The loop returns `OK` from the world the verified strides leave. -/
theorem write_loop_of_verified (d : Device σ) (c : Chip) (fuel : Nat) (buf : Nat → Nat) :
    ∀ (n addr count wi : Nat) (w wn : World σ), count % 4 = 0 →
      addr + count < 4294967296 → strides count < n →
      strides_verified d c fuel buf (strides count) addr count wi w = some wn →
      write_loop d c fuel buf n addr count wi w = some (OK, wn) := by
  intro n
  induction n with
  | zero => intro addr count wi w wn _ _ hn; omega
  | succ n ih =>
    intro addr count wi w wn hc ha hn hv
    rw [write_loop]
    by_cases h0 : count = 0
    · subst h0
      rw [show strides 0 = 0 from rfl, strides_verified] at hv
      cases hv
      simp
    · rw [if_neg h0]
      obtain ⟨k, hk⟩ : ∃ k, strides count = k + 1 := ⟨strides count - 1, by
        have := strides_pos count h0; omega⟩
      rw [hk, strides_verified] at hv
      cases hp : stride_program d c fuel buf addr count wi w with
      | none => simp [hp] at hv
      | some ws =>
        simp only [hp] at hv ⊢
        by_cases hcl : ¬ WrpErr d c ws.hw ∧ ReadBack d buf addr count wi ws.hw
        · rw [if_pos hcl] at hv
          have hok := (stride_verify_ok_iff d c buf addr count wi ws (by omega)).2 hcl
          rw [if_neg (by simpa using hok)]
          by_cases h4 : count = 4
          · subst h4
            have hk0 : k = 0 := by
              have : strides 4 = 1 := rfl
              omega
            subst hk0
            rw [strides_verified] at hv
            cases hv
            simp
          · rw [if_neg h4]
            have h8 : 8 ≤ count := by omega
            have hw1 : wrap32 (addr + 8) = addr + 8 := Nat.mod_eq_of_lt (by omega)
            have hw2 : wrap32 (count + 4294967296 - 8) = count - 8 := by
              unfold wrap32; omega
            rw [hw1, hw2]
            have hs := strides_step count h8
            have hk' : k = strides (count - 8) := by omega
            rw [hk'] at hv
            exact ih (addr + 8) (count - 8) (wi + 2) _ wn (by omega) (by omega) (by omega) hv
        · rw [if_neg hcl] at hv
          cases hv

/-- A loop that returns `OK` has verified every stride. -/
theorem verified_of_write_loop (d : Device σ) (c : Chip) (fuel : Nat) (buf : Nat → Nat) :
    ∀ (n addr count wi : Nat) (w wn : World σ), count % 4 = 0 →
      addr + count < 4294967296 →
      write_loop d c fuel buf n addr count wi w = some (OK, wn) →
      strides_verified d c fuel buf (strides count) addr count wi w = some wn := by
  intro n
  induction n with
  | zero => intro addr count wi w wn _ _ h; simp [write_loop] at h
  | succ n ih =>
    intro addr count wi w wn hc ha h
    rw [write_loop] at h
    by_cases h0 : count = 0
    · subst h0
      simp only [if_true, Option.some.injEq, Prod.mk.injEq, true_and] at h
      subst h
      rfl
    · rw [if_neg h0] at h
      obtain ⟨k, hk⟩ : ∃ k, strides count = k + 1 := ⟨strides count - 1, by
        have := strides_pos count h0; omega⟩
      rw [hk, strides_verified]
      cases hp : stride_program d c fuel buf addr count wi w with
      | none => simp [hp] at h
      | some ws =>
        simp only [hp] at h ⊢
        by_cases hok : (stride_verify d c buf addr count wi ws).1 = OK
        · have hcl := (stride_verify_ok_iff d c buf addr count wi ws (by omega)).1 hok
          rw [if_pos hcl]
          rw [if_neg (by simpa using hok)] at h
          by_cases h4 : count = 4
          · subst h4
            have hk0 : k = 0 := by
              have : strides 4 = 1 := rfl
              omega
            subst hk0
            simp only [if_true, Option.some.injEq, Prod.mk.injEq, true_and] at h
            subst h
            rfl
          · rw [if_neg h4] at h
            have h8 : 8 ≤ count := by omega
            have hw1 : wrap32 (addr + 8) = addr + 8 := Nat.mod_eq_of_lt (by omega)
            have hw2 : wrap32 (count + 4294967296 - 8) = count - 8 := by
              unfold wrap32; omega
            rw [hw1, hw2] at h
            have hs := strides_step count h8
            have hk' : k = strides (count - 8) := by omega
            rw [hk']
            exact ih (addr + 8) (count - 8) (wi + 2) _ wn (by omega) (by omega) h
        · rw [if_pos (by simpa using hok)] at h
          simp only [Option.some.injEq] at h
          rw [h] at hok
          exact absurd rfl hok

/-- The loop stops at the first stride that does not verify, with the value
its verification leaves in `ret`. -/
theorem write_loop_of_failure (d : Device σ) (c : Chip) (fuel : Nat) (buf : Nat → Nat) :
    ∀ (k n addr count wi : Nat) (w wk ws : World σ), count % 4 = 0 →
      addr + count < 4294967296 → k < strides count → k < n →
      strides_verified d c fuel buf k addr count wi w = some wk →
      stride_program d c fuel buf (addr + 8 * k) (count - 8 * k) (wi + 2 * k) wk = some ws →
      ¬ (¬ WrpErr d c ws.hw ∧ ReadBack d buf (addr + 8 * k) (count - 8 * k) (wi + 2 * k) ws.hw) →
      write_loop d c fuel buf n addr count wi w =
        some (stride_verify d c buf (addr + 8 * k) (count - 8 * k) (wi + 2 * k) ws) := by
  intro k
  induction k with
  | zero =>
    intro n addr count wi w wk ws hc ha hk hn hv hp hbad
    obtain ⟨m, rfl⟩ : ∃ m, n = m + 1 := ⟨n - 1, by omega⟩
    rw [strides_verified] at hv
    cases hv
    simp only [Nat.mul_zero, Nat.add_zero, Nat.sub_zero] at hp hbad ⊢
    have h0 : count ≠ 0 := by
      intro h; subst h
      have : strides 0 = 0 := rfl
      omega
    rw [write_loop, if_neg h0]
    simp only [hp]
    have hnok : (stride_verify d c buf addr count wi ws).1 ≠ OK := fun h =>
      hbad ((stride_verify_ok_iff d c buf addr count wi ws (by omega)).1 h)
    rw [if_pos hnok]
  | succ k ih =>
    intro n addr count wi w wk ws hc ha hk hn hv hp hbad
    obtain ⟨m, rfl⟩ : ∃ m, n = m + 1 := ⟨n - 1, by omega⟩
    have h8 : 8 < count := by
      unfold strides at hk
      omega
    rw [strides_verified] at hv
    cases hp0 : stride_program d c fuel buf addr count wi w with
    | none => simp [hp0] at hv
    | some ws0 =>
      simp only [hp0] at hv
      by_cases hcl : ¬ WrpErr d c ws0.hw ∧ ReadBack d buf addr count wi ws0.hw
      · rw [if_pos hcl] at hv
        have hok := (stride_verify_ok_iff d c buf addr count wi ws0 (by omega)).2 hcl
        rw [write_loop, if_neg (by omega)]
        simp only [hp0]
        rw [if_neg (by simpa using hok), if_neg (by omega)]
        have hw1 : wrap32 (addr + 8) = addr + 8 := Nat.mod_eq_of_lt (by omega)
        have hw2 : wrap32 (count + 4294967296 - 8) = count - 8 := by
          unfold wrap32; omega
        rw [hw1, hw2]
        have e1 : addr + 8 * (k + 1) = addr + 8 + 8 * k := by omega
        have e2 : count - 8 * (k + 1) = count - 8 - 8 * k := by omega
        have e3 : wi + 2 * (k + 1) = wi + 2 + 2 * k := by omega
        rw [e1, e2, e3] at hp hbad ⊢
        have hs := strides_step count (by omega)
        exact ih m (addr + 8) (count - 8) (wi + 2) _ wk ws (by omega) (by omega) (by omega)
          (by omega) hv hp hbad
      · rw [if_neg hcl] at hv
        cases hv

/-! ## `up_progmem_write` on a validated request -/

theorem up_progmem_write_valid (d : Device σ) (c : Chip) (hg : c.Geometry) (fuel addr : Nat)
    (buf : Nat → Nat) (count : Nat) (w : World σ) (hv : ValidRequest c addr count) :
    write_dest c addr + count < 4294967296 ∧
      up_progmem_write d c fuel addr buf count w =
        match write_begin d c fuel w with
        | none => none
        | some w1 =>
          match write_loop d c fuel buf fuel (write_dest c addr) count 0 w1 with
          | none => none
          | some r => some (if r.1 = OK then toSsize count else r.1, write_end d c r.1 r.2) := by
  obtain ⟨ha, hc, hr⟩ := hv
  have hsz := Chip.Geometry.size_lt c hg
  have hend := hg.end_le
  unfold SIZE_MAX at hend
  unfold write_dest up_progmem_write
  simp only [and_seven, and_three, ha, hc, ne_eq, not_true_eq_false, if_false]
  generalize (if addr ≥ c.STM32L4_FLASH_BASE then addr - c.STM32L4_FLASH_BASE else addr) =
    addr1 at hr
  have hw1 : wrap32 (addr1 + count) = addr1 + count := Nat.mod_eq_of_lt (by omega)
  have hw2 : wrap32 (addr1 + c.STM32L4_FLASH_BASE) = addr1 + c.STM32L4_FLASH_BASE :=
    Nat.mod_eq_of_lt (by omega)
  rw [hw1, hw2, if_neg (by omega)]
  exact ⟨by omega, rfl⟩

theorem write_end_ok_trace (d : Device σ) (c : Chip) (w : World σ) :
    ∃ cr cr2, (write_end d c OK w).trace = w.trace ++
      [Event.get32 c.STM32L4_FLASH_CR cr,
       Event.put32 ((cr &&& not32 c.FLASH_CR_PG) ||| 0) c.STM32L4_FLASH_CR,
       Event.get32 c.STM32L4_FLASH_CR cr2,
       Event.put32 ((cr2 &&& not32 0) ||| c.FLASH_CR_LOCK) c.STM32L4_FLASH_CR,
       Event.sem_post] := by
  refine ⟨d.read32 w.hw c.STM32L4_FLASH_CR,
    d.read32 (d.write32 w.hw ((d.read32 w.hw c.STM32L4_FLASH_CR &&& not32 c.FLASH_CR_PG) ||| 0)
      c.STM32L4_FLASH_CR) c.STM32L4_FLASH_CR, ?_⟩
  simp [write_end, sem_unlock, nxsem_post, flash_lock, modifyreg32, putreg32, getreg32]

theorem write_end_error_trace (d : Device σ) (c : Chip) (ret : Int) (w : World σ)
    (h : ret ≠ OK) :
    ∃ cr sr cr2, (write_end d c ret w).trace = w.trace ++
      [Event.get32 c.STM32L4_FLASH_CR cr,
       Event.put32 ((cr &&& not32 c.FLASH_CR_PG) ||| 0) c.STM32L4_FLASH_CR,
       Event.get32 c.STM32L4_FLASH_SR sr,
       Event.put32 ((sr &&& not32 0) ||| c.FLASH_SR_ALLERRS) c.STM32L4_FLASH_SR,
       Event.get32 c.STM32L4_FLASH_CR cr2,
       Event.put32 ((cr2 &&& not32 0) ||| c.FLASH_CR_LOCK) c.STM32L4_FLASH_CR,
       Event.sem_post] := by
  refine ⟨d.read32 w.hw c.STM32L4_FLASH_CR,
    d.read32 (d.write32 w.hw ((d.read32 w.hw c.STM32L4_FLASH_CR &&& not32 c.FLASH_CR_PG) ||| 0)
      c.STM32L4_FLASH_CR) c.STM32L4_FLASH_SR,
    d.read32 (d.write32 (d.write32 w.hw
      ((d.read32 w.hw c.STM32L4_FLASH_CR &&& not32 c.FLASH_CR_PG) ||| 0) c.STM32L4_FLASH_CR)
      ((d.read32 (d.write32 w.hw
        ((d.read32 w.hw c.STM32L4_FLASH_CR &&& not32 c.FLASH_CR_PG) ||| 0)
        c.STM32L4_FLASH_CR) c.STM32L4_FLASH_SR &&& not32 0) ||| c.FLASH_SR_ALLERRS)
      c.STM32L4_FLASH_SR) c.STM32L4_FLASH_CR, ?_⟩
  simp [write_end, h, sem_unlock, nxsem_post, flash_lock, modifyreg32, putreg32, getreg32]

/-- C3: for a validated request (address a multiple of 8, count a multiple
of 4, range inside the array) and fuel for its strides: when every stride ends
its busy-wait with the write-protection-error flag clear and both words reading
back as written, `up_progmem_write` returns exactly `count`, the byte count of
the caller (0 for count = 0, `count` itself when it is an odd number of words);
conversely a non-negative return value is `count` and every stride of the
request was verified in this way. -/
theorem up_progmem_write_returns_count (d : Device σ) (c : Chip) (hg : c.Geometry)
    (fuel addr : Nat) (buf : Nat → Nat) (count : Nat) (w : World σ)
    (hv : ValidRequest c addr count) (hfuel : strides count < fuel) :
    (∀ w1 wn, write_begin d c fuel w = some w1 →
        strides_verified d c fuel buf (strides count) (write_dest c addr) count 0 w1 = some wn →
        up_progmem_write d c fuel addr buf count w =
          some ((count : Int), write_end d c OK wn)) ∧
      (∀ r w', up_progmem_write d c fuel addr buf count w = some (r, w') → 0 ≤ r →
        r = (count : Int) ∧
        ∃ w1 wn, write_begin d c fuel w = some w1 ∧
          strides_verified d c fuel buf (strides count) (write_dest c addr) count 0 w1 =
            some wn ∧
          w' = write_end d c OK wn) := by
  obtain ⟨hdest, hdef⟩ := up_progmem_write_valid d c hg fuel addr buf count w hv
  have hcnt : toSsize count = (count : Int) := by
    have hsz := Chip.Geometry.size_lt c hg
    have := hv.2.2
    apply toSsize_of_lt
    omega
  constructor
  · intro w1 wn hb hs
    have hl := write_loop_of_verified d c fuel buf fuel (write_dest c addr) count 0 w1 wn
      hv.2.1 hdest hfuel hs
    rw [hdef, hb]
    simp only [hl, if_true, hcnt]
  · intro r w' h hr
    rw [hdef] at h
    cases hb : write_begin d c fuel w with
    | none => simp [hb] at h
    | some w1 =>
      simp only [hb] at h
      cases hl : write_loop d c fuel buf fuel (write_dest c addr) count 0 w1 with
      | none => simp [hl] at h
      | some r0 =>
        obtain ⟨ret, wn⟩ := r0
        simp only [hl, Option.some.injEq, Prod.mk.injEq] at h
        obtain ⟨h1, h2⟩ := h
        have hret := write_loop_ret d c fuel buf _ _ _ _ _ _ hl
        simp only at hret
        rcases hret with hret | hret | hret
        · subst hret
          simp only [if_true] at h1
          have hver := verified_of_write_loop d c fuel buf fuel (write_dest c addr) count 0
            w1 wn hv.2.1 hdest hl
          exact ⟨by rw [← h1, hcnt], w1, wn, rfl, hver, h2.symm⟩
        · subst hret
          simp [EROFS, OK] at h1
          omega
        · subst hret
          simp [ EIO, OK] at h1
          omega

/-- C3 on the simulated controller after reset over an erased array: three
words (an odd number) programmed at 0x08001800; both strides verify and the call
returns 12. -/
theorem up_progmem_write_returns_count_witness :
    up_progmem_write Sim.device stm32l476 3 0x08001800 (fun i => 0x11111111 * (i + 1)) 12
        (Sim.boot (fun _ => false) (fun _ => 0xff)) =
      some (((12 : Nat) : Int), write_end Sim.device stm32l476 OK
        ((strides_verified Sim.device stm32l476 3 (fun i => 0x11111111 * (i + 1)) (strides 12)
          (write_dest stm32l476 0x08001800) 12 0
          ((write_begin Sim.device stm32l476 3
            (Sim.boot (fun _ => false) (fun _ => 0xff))).get (by decide))).get (by decide))) :=
  (up_progmem_write_returns_count Sim.device stm32l476 stm32l476_geometry 3 0x08001800
    (fun i => 0x11111111 * (i + 1)) 12 (Sim.boot (fun _ => false) (fun _ => 0xff))
    (by decide) (by decide)).1 _ _ (Option.some_get _).symm (Option.some_get _).symm

/-- C4: for a validated request, let stride `k` be the first that does not
verify (the strides before it all did; after its busy-wait the
write-protection-error flag is set or a word does not read back as written).
Then `up_progmem_write` returns `-EROFS` when the flag is set, whatever the
read-back, and `-EIO` when it is clear; after the busy-wait of stride `k` the
call only reads (the verification) and then writes the control register, the
status register with all error flags to clear them, and the control register
again: no flash word is written any more. On a run whose strides all verify the
status register is not written. -/
theorem up_progmem_write_first_failure (d : Device σ) (c : Chip) (hg : c.Geometry)
    (fuel addr : Nat) (buf : Nat → Nat) (count : Nat) (w w1 : World σ)
    (hv : ValidRequest c addr count) (hfuel : strides count < fuel)
    (hbegin : write_begin d c fuel w = some w1) :
    (∀ k wk ws, k < strides count →
        strides_verified d c fuel buf k (write_dest c addr) count 0 w1 = some wk →
        stride_program d c fuel buf (write_dest c addr + 8 * k) (count - 8 * k) (2 * k) wk =
          some ws →
        ¬ (¬ WrpErr d c ws.hw ∧
          ReadBack d buf (write_dest c addr + 8 * k) (count - 8 * k) (2 * k) ws.hw) →
        ∃ w' reads cr sr cr2,
          up_progmem_write d c fuel addr buf count w =
            some (if WrpErr d c ws.hw then - EROFS else - EIO, w') ∧
          w'.trace = ws.trace ++ reads ++
            [Event.get32 c.STM32L4_FLASH_CR cr,
             Event.put32 ((cr &&& not32 c.FLASH_CR_PG) ||| 0) c.STM32L4_FLASH_CR,
             Event.get32 c.STM32L4_FLASH_SR sr,
             Event.put32 ((sr &&& not32 0) ||| c.FLASH_SR_ALLERRS) c.STM32L4_FLASH_SR,
             Event.get32 c.STM32L4_FLASH_CR cr2,
             Event.put32 ((cr2 &&& not32 0) ||| c.FLASH_CR_LOCK) c.STM32L4_FLASH_CR,
             Event.sem_post] ∧
          ∀ v a, Event.put32 v a ∉ reads) ∧
      (∀ wn, strides_verified d c fuel buf (strides count) (write_dest c addr) count 0 w1 =
          some wn →
        ∃ w' cr cr2,
          up_progmem_write d c fuel addr buf count w = some ((count : Int), w') ∧
          w'.trace = wn.trace ++
            [Event.get32 c.STM32L4_FLASH_CR cr,
             Event.put32 ((cr &&& not32 c.FLASH_CR_PG) ||| 0) c.STM32L4_FLASH_CR,
             Event.get32 c.STM32L4_FLASH_CR cr2,
             Event.put32 ((cr2 &&& not32 0) ||| c.FLASH_CR_LOCK) c.STM32L4_FLASH_CR,
             Event.sem_post]) := by
  obtain ⟨hdest, hdef⟩ := up_progmem_write_valid d c hg fuel addr buf count w hv
  constructor
  · intro k wk ws hk hprev hprog hbad
    have hprog' : stride_program d c fuel buf (write_dest c addr + 8 * k) (count - 8 * k)
        (0 + 2 * k) wk = some ws := by rw [Nat.zero_add]; exact hprog
    have hbad' : ¬ (¬ WrpErr d c ws.hw ∧
        ReadBack d buf (write_dest c addr + 8 * k) (count - 8 * k) (0 + 2 * k) ws.hw) := by
      rw [Nat.zero_add]; exact hbad
    have hl := write_loop_of_failure d c fuel buf k fuel (write_dest c addr) count 0 w1 wk ws
      hv.2.1 hdest hk (by omega) hprev hprog' hbad'
    rw [Nat.zero_add] at hl
    have hrem : 8 * k < count := by
      unfold strides at hk
      omega
    have ha4 : write_dest c addr + 8 * k + 4 < 4294967296 := by
      have := hv.2.1
      omega
    rw [hdef, hbegin]
    simp only [hl]
    by_cases hw : WrpErr d c ws.hw
    · rw [stride_verify_wrperr d c buf _ _ _ ws hw]
      have hne : (- EROFS : Int) ≠ OK := by simp [EROFS, OK]
      obtain ⟨cr, sr, cr2, ht⟩ := write_end_error_trace d c (- EROFS)
        { ws with trace := ws.trace ++
          [Event.get32 c.STM32L4_FLASH_SR (d.read32 ws.hw c.STM32L4_FLASH_SR)] } hne
      refine ⟨write_end d c (- EROFS) { ws with trace := ws.trace ++
          [Event.get32 c.STM32L4_FLASH_SR (d.read32 ws.hw c.STM32L4_FLASH_SR)] },
        [Event.get32 c.STM32L4_FLASH_SR (d.read32 ws.hw c.STM32L4_FLASH_SR)],
        cr, sr, cr2, ?_, ?_, ?_⟩
      · simp only [if_neg hne, if_pos hw]
      · rw [ht]
      · intro v a hm
        simp at hm
    · have hrb : ¬ ReadBack d buf (write_dest c addr + 8 * k) (count - 8 * k) (2 * k) ws.hw :=
        fun h => hbad ⟨hw, h⟩
      obtain ⟨evs, he, hp⟩ := stride_verify_mismatch d c buf _ _ _ ws ha4 hw hrb
      rw [he]
      have hne : (- EIO : Int) ≠ OK := by simp [ EIO, OK]
      obtain ⟨cr, sr, cr2, ht⟩ := write_end_error_trace d c (- EIO)
        { ws with trace := ws.trace ++ evs } hne
      refine ⟨write_end d c (- EIO) { ws with trace := ws.trace ++ evs }, evs, cr, sr, cr2,
        ?_, ?_, hp⟩
      · simp only [if_neg hne, if_neg hw]
      · rw [ht]
  · intro wn hs
    have hl := write_loop_of_verified d c fuel buf fuel (write_dest c addr) count 0 w1 wn
      hv.2.1 hdest hfuel hs
    have hcnt : toSsize count = (count : Int) := by
      have hsz := Chip.Geometry.size_lt c hg
      have := hv.2.2
      apply toSsize_of_lt
      omega
    obtain ⟨cr, cr2, ht⟩ := write_end_ok_trace d c wn
    refine ⟨write_end d c OK wn, cr, cr2, ?_, ht⟩
    rw [hdef, hbegin]
    simp only [hl, if_true, hcnt]

/-- C4 on the simulated controller after reset with every page
write-protected: the first stride of a 12-byte request at 0x08001800 raises the
write-protection error and the call returns `-EROFS`. -/
theorem up_progmem_write_first_failure_witness :
    ∃ w' reads cr sr cr2,
      up_progmem_write Sim.device stm32l476 3 0x08001800 (fun i => 0x11111111 * (i + 1)) 12
          (Sim.boot (fun _ => true) (fun _ => 0xff)) = some (- EROFS, w') ∧
        w'.trace =
          ((stride_program Sim.device stm32l476 3 (fun i => 0x11111111 * (i + 1))
            (write_dest stm32l476 0x08001800 + 8 * 0) (12 - 8 * 0) (2 * 0)
            ((write_begin Sim.device stm32l476 3
              (Sim.boot (fun _ => true) (fun _ => 0xff))).get (by decide))).get
                (by decide)).trace ++ reads ++
          [Event.get32 stm32l476.STM32L4_FLASH_CR cr,
           Event.put32 ((cr &&& not32 stm32l476.FLASH_CR_PG) ||| 0) stm32l476.STM32L4_FLASH_CR,
           Event.get32 stm32l476.STM32L4_FLASH_SR sr,
           Event.put32 ((sr &&& not32 0) ||| stm32l476.FLASH_SR_ALLERRS)
             stm32l476.STM32L4_FLASH_SR,
           Event.get32 stm32l476.STM32L4_FLASH_CR cr2,
           Event.put32 ((cr2 &&& not32 0) ||| stm32l476.FLASH_CR_LOCK)
             stm32l476.STM32L4_FLASH_CR,
           Event.sem_post] ∧
        ∀ v a, Event.put32 v a ∉ reads := by
  have h := (up_progmem_write_first_failure Sim.device stm32l476 stm32l476_geometry 3 0x08001800
    (fun i => 0x11111111 * (i + 1)) 12 (Sim.boot (fun _ => true) (fun _ => 0xff))
    ((write_begin Sim.device stm32l476 3 (Sim.boot (fun _ => true) (fun _ => 0xff))).get
      (by decide))
    (by decide) (by decide) (Option.some_get _).symm).1 0 _
    ((stride_program Sim.device stm32l476 3 (fun i => 0x11111111 * (i + 1))
      (write_dest stm32l476 0x08001800 + 8 * 0) (12 - 8 * 0) (2 * 0)
      ((write_begin Sim.device stm32l476 3
        (Sim.boot (fun _ => true) (fun _ => 0xff))).get (by decide))).get (by decide))
    (by decide) rfl (Option.some_get _).symm (by decide)
  rw [if_pos (by decide)] at h
  exact h

/-! ## The control register -/

theorem and_two_pow_eq_zero (x k : Nat) (h : x.testBit k = false) : x &&& 2 ^ k = 0 := by
  apply Nat.eq_of_testBit_eq
  intro i
  rw [Nat.zero_testBit, Nat.testBit_and, Nat.testBit_two_pow]
  by_cases hi : k = i
  · subst hi
    rw [h, Bool.false_and]
  · simp [hi]

theorem stm32l476_layout : stm32l476.Layout := by
  constructor
  · decide
  · rintro m (h | h | h) <;> subst h <;> decide
  · decide
  · decide
  · decide
  · rintro m (h | h | h) <;> subst h <;> decide
  · intro n m hn hm
    have hn' : n < 256 := hn
    have hs : stm32l476.FLASH_CR_PNB n = n <<< 3 := by
      show (n <<< 3) % 4294967296 = n <<< 3
      rw [Nat.shiftLeft_eq]
      omega
    rw [hs]
    rcases hm with h | h | h <;> subst h
    · show n <<< 3 &&& 2 ^ 31 = 0
      apply and_two_pow_eq_zero
      apply Nat.testBit_lt_two_pow
      rw [Nat.shiftLeft_eq]
      omega
    · show n <<< 3 &&& 2 ^ 0 = 0
      apply and_two_pow_eq_zero
      rw [Nat.testBit_shiftLeft]
      rfl
    · show n <<< 3 &&& 2 ^ 1 = 0
      apply and_two_pow_eq_zero
      rw [Nat.testBit_shiftLeft]
      rfl
  · rintro m (h | h | h) <;> subst h <;> decide
  · rintro m (h | h | h) <;> subst h <;> decide
  · decide
  · decide
  · decide
  · decide
  · right; decide
  · decide
  · decide

theorem lor_land (x y z : Nat) : (x ||| y) &&& z = (x &&& z) ||| (y &&& z) := by
  rw [Nat.and_comm, Nat.and_or_distrib_left, Nat.and_comm z x, Nat.and_comm z y]

theorem lor_land_disjoint (x o m : Nat) (ho : o &&& m = 0) : (x ||| o) &&& m = x &&& m := by
  rw [lor_land, ho, Nat.or_zero]

theorem land_land_keep (x n m : Nat) (hn : n &&& m = m) : (x &&& n) &&& m = x &&& m := by
  rw [Nat.and_assoc, hn]

theorem land_land_disjoint (x o m : Nat) (ho : o &&& m = 0) : (x &&& o) &&& m = 0 := by
  rw [Nat.and_assoc, ho, Nat.and_zero]

theorem Sim.writeCR_field (s : Sim) (v m : Nat)
    (hm : m = stm32l476.FLASH_CR_LOCK ∨ m = stm32l476.FLASH_CR_PG ∨ m = stm32l476.FLASH_CR_PER) :
    (Sim.writeCR s v).cr &&& m =
      if s.cr &&& stm32l476.FLASH_CR_LOCK ≠ 0 then s.cr &&& m else v &&& m := by
  have hn : not32 (stm32l476.FLASH_CR_START ||| stm32l476.FLASH_CR_OPTSTRT) &&& m = m := by
    rcases hm with h | h | h <;> subst h <;> decide
  have ho : stm32l476.FLASH_CR_OPTLOCK &&& m = 0 := by
    rcases hm with h | h | h <;> subst h <;> decide
  unfold Sim.writeCR
  by_cases hl : s.cr &&& stm32l476.FLASH_CR_LOCK ≠ 0
  · rw [if_pos hl, if_pos hl]
  · rw [if_neg hl, if_neg hl]
    have hkept : ((v ||| (s.cr &&& stm32l476.FLASH_CR_OPTLOCK)) &&&
        not32 (stm32l476.FLASH_CR_START ||| stm32l476.FLASH_CR_OPTSTRT)) &&& m = v &&& m := by
      rw [land_land_keep _ _ _ hn, lor_land, land_land_disjoint _ _ _ ho, Nat.or_zero]
    have hkept2 : (((v ||| (s.cr &&& stm32l476.FLASH_CR_OPTLOCK)) &&&
        not32 (stm32l476.FLASH_CR_START ||| stm32l476.FLASH_CR_OPTSTRT)) |||
          stm32l476.FLASH_CR_OPTLOCK) &&& m = v &&& m := by
      rw [lor_land_disjoint _ _ _ ho, hkept]
    simp only
    repeat' split
    all_goals first | exact hkept | exact hkept2

theorem Sim.crval_eq (s : Sim) : crval Sim.device stm32l476 s = s.cr := rfl

theorem Sim.write32_cr (s : Sim) (v : Nat) :
    Sim.device.write32 s v stm32l476.STM32L4_FLASH_CR = Sim.writeCR s v := rfl

theorem Sim.write32_other_cr (s : Sim) (v a : Nat) (ha : a ≠ stm32l476.STM32L4_FLASH_CR) :
    (Sim.write32 s v a).cr = s.cr ∨
      (Sim.write32 s v a).cr = s.cr &&& not32 stm32l476.FLASH_CR_LOCK ∨
      (Sim.write32 s v a).cr = s.cr &&& not32 stm32l476.FLASH_CR_OPTLOCK := by
  unfold Sim.write32
  rw [if_neg ha]
  repeat' split
  all_goals first
    | exact Or.inl rfl
    | exact Or.inr (Or.inl rfl)
    | exact Or.inr (Or.inr rfl)

theorem Sim.controlRegister : ControlRegister Sim.device stm32l476 := by
  constructor
  · intro s v m hm hl
    rw [Sim.write32_cr, Sim.crval_eq, Sim.writeCR_field s v m hm]
    unfold Locked at hl
    rw [Sim.crval_eq] at hl
    rw [if_neg hl]
  · intro s v m hm hl
    rw [Sim.write32_cr, Sim.crval_eq, Sim.writeCR_field s v m hm]
    unfold Locked at hl
    rw [Sim.crval_eq] at hl
    rw [if_pos hl, Sim.crval_eq]
  · intro s v a ha
    unfold Locked
    simp only [Sim.crval_eq]
    have h := Sim.write32_other_cr s v a ha
    change (Sim.write32 s v a).cr &&& _ = _ ∧ (Sim.write32 s v a).cr &&& _ = _ ∧
      ((Sim.write32 s v a).cr &&& _ ≠ 0 → _)
    rcases h with h | h | h <;> rw [h]
    · exact ⟨rfl, rfl, fun h => h⟩
    · refine ⟨land_land_keep _ _ _ (by decide), land_land_keep _ _ _ (by decide), ?_⟩
      intro hl
      exact absurd (land_land_disjoint _ _ _ (by decide)) hl
    · refine ⟨land_land_keep _ _ _ (by decide), land_land_keep _ _ _ (by decide), ?_⟩
      intro hl
      rw [land_land_keep _ _ _ (by decide)] at hl
      exact hl
  · intro s
    rfl
theorem land_not32_self (x m : Nat) (hm : m < 4294967296) : (x &&& not32 m) &&& m = 0 := by
  apply Nat.eq_of_testBit_eq
  intro i
  rw [Nat.zero_testBit, Nat.testBit_and, Nat.testBit_and, testBit_not32]
  cases hmi : m.testBit i with
  | false => simp
  | true =>
    have := testBit_mask_lt m i hm hmi
    simp [this]

theorem lor_land_self (x m : Nat) : (x ||| m) &&& m = m := by
  rw [lor_land, Nat.and_self]
  apply Nat.eq_of_testBit_eq
  intro i
  rw [Nat.testBit_or, Nat.testBit_and]
  cases m.testBit i <;> simp

theorem modifyreg32_hw (d : Device σ) (addr clearbits setbits : Nat) (w : World σ) :
    (modifyreg32 d addr clearbits setbits w).hw =
        d.write32 w.hw ((d.read32 w.hw addr &&& not32 clearbits) ||| setbits) addr ∧
      (modifyreg32 d addr clearbits setbits w).g_sem = w.g_sem :=
  ⟨rfl, rfl⟩

/-- A read-modify-write of the control register with masks that avoid a
field leaves the field as it was, locked or not. -/
theorem modify_cr_field (d : Device σ) (c : Chip) (hl : c.Layout) (hd : ControlRegister d c)
    (clearbits setbits m : Nat) (hm : IsField c m) (hc : clearbits &&& m = 0)
    (hs : setbits &&& m = 0) (w : World σ) :
    crval d c (modifyreg32 d c.STM32L4_FLASH_CR clearbits setbits w).hw &&& m =
      crval d c w.hw &&& m := by
  rw [(modifyreg32_hw d _ _ _ w).1]
  by_cases hlk : Locked d c w.hw
  · exact hd.write_locked _ _ m hm hlk
  · rw [hd.write_unlocked _ _ m hm hlk]
    exact field_preserved _ _ _ m (hl.field_lt m hm) hc hs

/-- Setting a field of the unlocked control register. -/
theorem modify_cr_set (d : Device σ) (c : Chip) (hd : ControlRegister d c)
    (clearbits m : Nat) (hm : IsField c m) (w : World σ) (hlk : ¬ Locked d c w.hw) :
    crval d c (modifyreg32 d c.STM32L4_FLASH_CR clearbits m w).hw &&& m = m := by
  rw [(modifyreg32_hw d _ _ _ w).1, hd.write_unlocked _ _ m hm hlk]
  exact lor_land_self _ _

/-- Clearing a field of the unlocked control register. -/
theorem modify_cr_clear (d : Device σ) (c : Chip) (hl : c.Layout) (hd : ControlRegister d c)
    (m : Nat) (hm : IsField c m) (w : World σ) (hlk : ¬ Locked d c w.hw) :
    crval d c (modifyreg32 d c.STM32L4_FLASH_CR m 0 w).hw &&& m = 0 := by
  rw [(modifyreg32_hw d _ _ _ w).1, hd.write_unlocked _ _ m hm hlk, Nat.or_zero]
  exact land_not32_self _ _ (hl.field_lt m hm)

theorem isField_lock (c : Chip) : IsField c c.FLASH_CR_LOCK := Or.inl rfl

theorem isField_pg (c : Chip) : IsField c c.FLASH_CR_PG := Or.inr (Or.inl rfl)

theorem isField_per (c : Chip) : IsField c c.FLASH_CR_PER := Or.inr (Or.inr rfl)

theorem modePair_facts (c : Chip) (hl : c.Layout) (b o : Nat) (hp : ModePair c b o) :
    IsField c b ∧ IsField c o ∧ b &&& o = 0 ∧ c.FLASH_CR_LOCK &&& b = 0 ∧
      c.FLASH_CR_LOCK &&& o = 0 ∧ b &&& c.FLASH_CR_LOCK = 0 := by
  rcases hp with ⟨hb, ho⟩ | ⟨hb, ho⟩ <;> subst hb <;> subst ho
  · exact ⟨isField_pg c, isField_per c, hl.pg_per, hl.lock_pg, hl.lock_per, by
      rw [Nat.and_comm]; exact hl.lock_pg⟩
  · exact ⟨isField_per c, isField_pg c, by rw [Nat.and_comm]; exact hl.pg_per, hl.lock_per,
      hl.lock_pg, by rw [Nat.and_comm]; exact hl.lock_per⟩

theorem modeClear_iff (d : Device σ) (c : Chip) (b o : Nat) (hp : ModePair c b o) (s : σ) :
    ModeClear d c s ↔ (crval d c s &&& b = 0 ∧ crval d c s &&& o = 0) := by
  unfold ModeClear
  rcases hp with ⟨hb, ho⟩ | ⟨hb, ho⟩ <;> subst hb <;> subst ho
  · exact Iff.rfl
  · exact And.comm

theorem quiet_modeInv (d : Device σ) (c : Chip) (hd : ControlRegister d c) (b o : Nat)
    (hp : ModePair c b o) : Quiet d c (ModeInv d c b o) := by
  constructor
  · intro s h
    unfold ModeInv Locked at h ⊢
    rw [hd.stall]
    exact h
  · intro s v a ha h
    obtain ⟨hpg, hper, hlk⟩ := hd.write_other s v a ha
    unfold ModeInv at h ⊢
    rcases hp with ⟨hb, ho⟩ | ⟨hb, ho⟩ <;> subst hb <;> subst ho
    · exact ⟨by rw [hper]; exact h.1, fun hl' => by rw [hpg]; exact h.2 (hlk hl')⟩
    · exact ⟨by rw [hpg]; exact h.1, fun hl' => by rw [hper]; exact h.2 (hlk hl')⟩

theorem quiet_modeClear (d : Device σ) (c : Chip) (hd : ControlRegister d c) :
    Quiet d c (ModeClear d c) := by
  constructor
  · intro s h
    unfold ModeClear at h ⊢
    rw [hd.stall]
    exact h
  · intro s v a ha h
    obtain ⟨hpg, hper, _⟩ := hd.write_other s v a ha
    unfold ModeClear at h ⊢
    exact ⟨by rw [hpg]; exact h.1, by rw [hper]; exact h.2⟩

theorem modeInv_of_clear (d : Device σ) (c : Chip) (b o : Nat) (hp : ModePair c b o) (s : σ)
    (h : ModeClear d c s) : ModeInv d c b o s := by
  rw [modeClear_iff d c b o hp] at h
  exact ⟨h.2, fun _ => h.1⟩

/-- Setting the mode bit keeps the invariant: on a locked register nothing
changes, on an unlocked one the register stays unlocked. -/
theorem modeInv_set (d : Device σ) (c : Chip) (hl : c.Layout) (hd : ControlRegister d c)
    (b o : Nat) (hp : ModePair c b o) (w : World σ) (h : ModeInv d c b o w.hw) :
    ModeInv d c b o (modifyreg32 d c.STM32L4_FLASH_CR 0 b w).hw := by
  obtain ⟨hfb, hfo, hbo, hlb, hlo, hbl⟩ := modePair_facts c hl b o hp
  have ho := modify_cr_field d c hl hd 0 b o hfo (Nat.zero_and _) hbo w
  have hlock := modify_cr_field d c hl hd 0 b c.FLASH_CR_LOCK (isField_lock c)
    (Nat.zero_and _) hbl w
  refine ⟨by rw [ho]; exact h.1, ?_⟩
  intro hlk'
  have hlk : Locked d c w.hw := by
    unfold Locked at hlk' ⊢
    rw [hlock] at hlk'
    exact hlk'
  rw [(modifyreg32_hw d _ _ _ w).1, hd.write_locked _ _ b hfb hlk]
  exact h.2 hlk

/-- Clearing the mode bit leaves both mode bits clear. -/
theorem modeClear_of_clear (d : Device σ) (c : Chip) (hl : c.Layout)
    (hd : ControlRegister d c) (b o : Nat) (hp : ModePair c b o) (w : World σ)
    (h : ModeInv d c b o w.hw) :
    ModeClear d c (modifyreg32 d c.STM32L4_FLASH_CR b 0 w).hw := by
  obtain ⟨hfb, hfo, hbo, hlb, hlo, hbl⟩ := modePair_facts c hl b o hp
  rw [modeClear_iff d c b o hp]
  have ho := modify_cr_field d c hl hd b 0 o hfo hbo (Nat.zero_and _) w
  refine ⟨?_, by rw [ho]; exact h.1⟩
  by_cases hlk : Locked d c w.hw
  · rw [(modifyreg32_hw d _ _ _ w).1, hd.write_locked _ _ b hfb hlk]
    exact h.2 hlk
  · exact modify_cr_clear d c hl hd b hfb w hlk

/-- A read-modify-write of the control register with masks that avoid Lock,
PG and PER keeps the invariant. -/
theorem modeInv_neutral (d : Device σ) (c : Chip) (hl : c.Layout) (hd : ControlRegister d c)
    (b o : Nat) (hp : ModePair c b o) (clearbits setbits : Nat)
    (hc : ∀ m, IsField c m → clearbits &&& m = 0) (hs : ∀ m, IsField c m → setbits &&& m = 0)
    (w : World σ) (h : ModeInv d c b o w.hw) :
    ModeInv d c b o (modifyreg32 d c.STM32L4_FLASH_CR clearbits setbits w).hw := by
  obtain ⟨hfb, hfo, _⟩ := modePair_facts c hl b o hp
  have e := fun m hm => modify_cr_field d c hl hd clearbits setbits m hm (hc m hm) (hs m hm) w
  unfold ModeInv Locked at h ⊢
  rw [e o hfo, e b hfb, e _ (isField_lock c)]
  exact h

theorem modeClear_neutral (d : Device σ) (c : Chip) (hl : c.Layout) (hd : ControlRegister d c)
    (clearbits setbits : Nat)
    (hc : ∀ m, IsField c m → clearbits &&& m = 0) (hs : ∀ m, IsField c m → setbits &&& m = 0)
    (w : World σ) (h : ModeClear d c w.hw) :
    ModeClear d c (modifyreg32 d c.STM32L4_FLASH_CR clearbits setbits w).hw := by
  have e := fun m hm => modify_cr_field d c hl hd clearbits setbits m hm (hc m hm) (hs m hm) w
  unfold ModeClear at h ⊢
  rw [e _ (isField_pg c), e _ (isField_per c)]
  exact h

/-- `flash_lock` on a register with both mode bits clear: Lock set, mode
bits still clear. -/
theorem flash_lock_relocks (d : Device σ) (c : Chip) (hl : c.Layout) (hd : ControlRegister d c)
    (w : World σ) (h : ModeClear d c w.hw) :
    Locked d c (flash_lock d c w).hw ∧ ModeClear d c (flash_lock d c w).hw ∧
      (flash_lock d c w).g_sem = w.g_sem := by
  unfold flash_lock
  refine ⟨?_, ?_, rfl⟩
  · unfold Locked
    by_cases hlk : Locked d c w.hw
    · rw [(modifyreg32_hw d _ _ _ w).1, hd.write_locked _ _ _ (isField_lock c) hlk]
      exact hlk
    · rw [modify_cr_set d c hd 0 _ (isField_lock c) w hlk]
      exact hl.lock_ne
  · unfold ModeClear at h ⊢
    rw [modify_cr_field d c hl hd 0 _ _ (isField_pg c) (Nat.zero_and _) hl.lock_pg w,
      modify_cr_field d c hl hd 0 _ _ (isField_per c) (Nat.zero_and _) hl.lock_per w]
    exact h

/-! ## Quiet properties across the private functions -/

theorem busy_wait_quiet (d : Device σ) (c : Chip) (P : σ → Prop) (hq : Quiet d c P) :
    ∀ (fuel : Nat) (w w' : World σ), busy_wait d c fuel w = some w' → P w.hw → P w'.hw := by
  intro fuel
  induction fuel with
  | zero => intro w w' h; simp [busy_wait] at h
  | succ n ih =>
    intro w w' h hp
    rw [busy_wait] at h
    split at h
    · exact ih _ _ h (hq.stall _ hp)
    · cases h
      exact hp

theorem flash_unlock_quiet (d : Device σ) (c : Chip) (hl : c.Layout) (P : σ → Prop)
    (hq : Quiet d c P) (fuel : Nat) (w w' : World σ) (h : flash_unlock d c fuel w = some w')
    (hp : P w.hw) : P w'.hw := by
  unfold flash_unlock at h
  cases hb : busy_wait d c fuel w with
  | none => simp [hb] at h
  | some w1 =>
    have h1 := busy_wait_quiet d c P hq fuel w w1 hb hp
    simp only [hb] at h
    split at h
    · cases h
      exact hq.write _ _ _ hl.keyr_ne (hq.write _ _ _ hl.keyr_ne h1)
    · cases h
      exact h1

theorem flash_optbytes_unlock_quiet (d : Device σ) (c : Chip) (hl : c.Layout) (P : σ → Prop)
    (hq : Quiet d c P) (fuel : Nat) (w w' : World σ)
    (h : flash_optbytes_unlock d c fuel w = some w') (hp : P w.hw) : P w'.hw := by
  unfold flash_optbytes_unlock at h
  cases hb : flash_unlock d c fuel w with
  | none => simp [hb] at h
  | some w1 =>
    have h1 := flash_unlock_quiet d c hl P hq fuel w w1 hb hp
    simp only [hb] at h
    split at h
    · cases h
      exact hq.write _ _ _ hl.optkeyr_ne (hq.write _ _ _ hl.optkeyr_ne h1)
    · cases h
      exact h1

theorem stride_verify_frame (d : Device σ) (c : Chip) (buf : Nat → Nat) (addr count wi : Nat)
    (w : World σ) :
    (stride_verify d c buf addr count wi w).2.hw = w.hw ∧
      (stride_verify d c buf addr count wi w).2.g_sem = w.g_sem := by
  unfold stride_verify
  simp only [getreg32]
  repeat' split
  all_goals exact ⟨rfl, rfl⟩

theorem stride_program_quiet (d : Device σ) (c : Chip) (P : σ → Prop) (hq : Quiet d c P)
    (fuel : Nat) (buf : Nat → Nat) (addr count wi : Nat) (w w' : World σ)
    (h1 : addr ≠ c.STM32L4_FLASH_CR) (h2 : wrap32 (addr + 4) ≠ c.STM32L4_FLASH_CR)
    (h : stride_program d c fuel buf addr count wi w = some w') (hp : P w.hw) :
    P w'.hw ∧ w'.g_sem = w.g_sem := by
  unfold stride_program at h
  refine ⟨busy_wait_quiet d c P hq fuel _ w' h ?_, (busy_wait_trace d c fuel _ w' h).1⟩
  exact hq.write _ _ _ h2 (hq.write _ _ _ h1 hp)

theorem write_loop_quiet (d : Device σ) (c : Chip) (hl : c.Layout) (P : σ → Prop)
    (hq : Quiet d c P) (fuel : Nat) (buf : Nat → Nat) :
    ∀ (n addr count wi : Nat) (w : World σ) (r : Int × World σ), count % 4 = 0 →
      addr % 8 = 0 → c.STM32L4_FLASH_BASE ≤ addr →
      addr + count ≤ c.STM32L4_FLASH_BASE + c.STM32L4_FLASH_SIZE →
      c.STM32L4_FLASH_BASE + c.STM32L4_FLASH_SIZE < 4294967296 →
      write_loop d c fuel buf n addr count wi w = some r → P w.hw →
      P r.2.hw ∧ r.2.g_sem = w.g_sem := by
  intro n
  induction n with
  | zero => intro addr count wi w r _ _ _ _ _ h; simp [write_loop] at h
  | succ n ih =>
    intro addr count wi w r hc ha8 hb he hlt h hp
    have hba := hl.base_aligned
    have hsa := hl.size_aligned
    rw [write_loop] at h
    by_cases h0 : count = 0
    · rw [if_pos h0] at h
      cases h
      exact ⟨hp, rfl⟩
    · rw [if_neg h0] at h
      have hw4 : wrap32 (addr + 4) = addr + 4 := Nat.mod_eq_of_lt (by omega)
      have ha1 : addr ≠ c.STM32L4_FLASH_CR := by
        rcases hl.cr_outside with h' | h' <;> omega
      have ha2 : wrap32 (addr + 4) ≠ c.STM32L4_FLASH_CR := by
        rw [hw4]
        rcases hl.cr_outside with h' | h' <;> omega
      cases hs : stride_program d c fuel buf addr count wi w with
      | none => simp [hs] at h
      | some ws =>
        obtain ⟨hps, hgs⟩ := stride_program_quiet d c P hq fuel buf addr count wi w ws ha1 ha2
          hs hp
        obtain ⟨hvh, hvg⟩ := stride_verify_frame d c buf addr count wi ws
        simp only [hs] at h
        split at h
        · cases h
          exact ⟨by rw [hvh]; exact hps, by rw [hvg, hgs]⟩
        · split at h
          · cases h
            exact ⟨by rw [hvh]; exact hps, by rw [hvg, hgs]⟩
          · have h8 : 8 ≤ count := by omega
            have hw1 : wrap32 (addr + 8) = addr + 8 := Nat.mod_eq_of_lt (by omega)
            have hw2 : wrap32 (count + 4294967296 - 8) = count - 8 := by
              unfold wrap32; omega
            rw [hw1, hw2] at h
            obtain ⟨h1, h2⟩ := ih (addr + 8) (count - 8) (wi + 2) _ r (by omega) (by omega)
              (by omega) (by omega) hlt h (by rw [hvh]; exact hps)
            exact ⟨h1, by rw [h2, hvg, hgs]⟩

theorem write_begin_frame (d : Device σ) (c : Chip) (hl : c.Layout) (hd : ControlRegister d c)
    (fuel : Nat) (w w1 : World σ) (h : write_begin d c fuel w = some w1)
    (hm : ModeClear d c w.hw) :
    ModeInv d c c.FLASH_CR_PG c.FLASH_CR_PER w1.hw ∧ 0 < w.g_sem ∧ w1.g_sem = w.g_sem - 1 := by
  have hp : ModePair c c.FLASH_CR_PG c.FLASH_CR_PER := Or.inl ⟨rfl, rfl⟩
  unfold write_begin at h
  cases h1 : sem_lock w with
  | none => simp [h1] at h
  | some w0 =>
    obtain ⟨hpos, hw0⟩ := sem_lock_some w w0 h1
    simp only [h1] at h
    cases h2 : flash_unlock d c fuel w0 with
    | none => simp [h2] at h
    | some w2 =>
      simp only [h2, Option.some.injEq] at h
      subst h
      have hinv0 : ModeInv d c c.FLASH_CR_PG c.FLASH_CR_PER w0.hw := by
        rw [hw0]
        exact modeInv_of_clear d c _ _ hp _ hm
      have hinv2 := flash_unlock_quiet d c hl _ (quiet_modeInv d c hd _ _ hp) fuel w0 w2 h2 hinv0
      refine ⟨modeInv_set d c hl hd _ _ hp w2 hinv2, hpos, ?_⟩
      rw [(modifyreg32_hw d _ _ _ w2).2, (flash_unlock_trace d c fuel w0 w2 h2).1, hw0]

theorem write_end_relocks (d : Device σ) (c : Chip) (hl : c.Layout) (hd : ControlRegister d c)
    (ret : Int) (w : World σ) (h : ModeInv d c c.FLASH_CR_PG c.FLASH_CR_PER w.hw) :
    Relocked d c (w.g_sem + 1) (write_end d c ret w) := by
  have hp : ModePair c c.FLASH_CR_PG c.FLASH_CR_PER := Or.inl ⟨rfl, rfl⟩
  have h1 := modeClear_of_clear d c hl hd _ _ hp w h
  unfold write_end
  simp only
  by_cases hr : ret ≠ OK
  · rw [if_pos hr]
    have h2 : ModeClear d c (modifyreg32 d c.STM32L4_FLASH_SR 0 c.FLASH_SR_ALLERRS
        (modifyreg32 d c.STM32L4_FLASH_CR c.FLASH_CR_PG 0 w)).hw := by
      rw [(modifyreg32_hw d _ _ _ _).1]
      exact (quiet_modeClear d c hd).write _ _ _ hl.sr_ne h1
    obtain ⟨a, b, e⟩ := flash_lock_relocks d c hl hd _ h2
    exact ⟨a, b, by
      show (flash_lock d c _).g_sem + 1 = w.g_sem + 1
      rw [e]; rfl⟩
  · rw [if_neg hr]
    obtain ⟨a, b, e⟩ := flash_lock_relocks d c hl hd _ h1
    exact ⟨a, b, by
      show (flash_lock d c _).g_sem + 1 = w.g_sem + 1
      rw [e]; rfl⟩

theorem up_progmem_write_relocks (d : Device σ) (c : Chip) (hl : c.Layout) (hg : c.Geometry)
    (hd : ControlRegister d c) (fuel addr : Nat) (buf : Nat → Nat) (count : Nat)
    (w : World σ) (r : Int) (w' : World σ) (hm : ModeClear d c w.hw)
    (hv : ValidRequest c addr count)
    (h : up_progmem_write d c fuel addr buf count w = some (r, w')) :
    Relocked d c w.g_sem w' := by
  have hp : ModePair c c.FLASH_CR_PG c.FLASH_CR_PER := Or.inl ⟨rfl, rfl⟩
  obtain ⟨hdest, hdef⟩ := up_progmem_write_valid d c hg fuel addr buf count w hv
  rw [hdef] at h
  cases hb : write_begin d c fuel w with
  | none => simp [hb] at h
  | some w1 =>
    obtain ⟨hinv1, hpos, hg1⟩ := write_begin_frame d c hl hd fuel w w1 hb hm
    simp only [hb] at h
    cases hlp : write_loop d c fuel buf fuel (write_dest c addr) count 0 w1 with
    | none => simp [hlp] at h
    | some r0 =>
      simp only [hlp, Option.some.injEq, Prod.mk.injEq] at h
      have hend := hg.end_le
      unfold SIZE_MAX at hend
      have hrange := hv.2.2
      have ha8 := hv.1
      have hba := hl.base_aligned
      have hdst : write_dest c addr % 8 = 0 ∧ c.STM32L4_FLASH_BASE ≤ write_dest c addr ∧
          write_dest c addr + count ≤ c.STM32L4_FLASH_BASE + c.STM32L4_FLASH_SIZE := by
        unfold write_dest
        split at hrange <;> rename_i hge
        · rw [if_pos hge]; omega
        · rw [if_neg hge]; omega
      obtain ⟨hinv2, hg2⟩ := write_loop_quiet d c hl _ (quiet_modeInv d c hd _ _ hp) fuel buf
        fuel (write_dest c addr) count 0 w1 r0 hv.2.1 hdst.1 hdst.2.1 hdst.2.2 (by omega)
        hlp hinv1
      have hfin := write_end_relocks d c hl hd r0.1 r0.2 hinv2
      rw [h.2] at hfin
      have e : r0.2.g_sem + 1 = w.g_sem := by omega
      rw [e] at hfin
      exact hfin
theorem scan_page_g_sem (d : Device σ) :
    ∀ (n a b : Nat) (w : World σ), (scan_page d n a b w).2.g_sem = w.g_sem := by
  intro n
  induction n with
  | zero => intro a b w; rfl
  | succ n ih =>
    intro a b w
    rw [scan_page, ih]
    rfl

theorem up_progmem_ispageerased_frame (d : Device σ) (c : Chip) (page : Nat) (w : World σ) :
    (up_progmem_ispageerased d c page w).2.hw = w.hw ∧
      (up_progmem_ispageerased d c page w).2.g_sem = w.g_sem := by
  unfold up_progmem_ispageerased
  split
  · exact ⟨rfl, rfl⟩
  · exact ⟨scan_page_hw d _ _ _ _, scan_page_g_sem d _ _ _ _⟩

theorem erasepage_locked_relocks (d : Device σ) (c : Chip) (hl : c.Layout)
    (hd : ControlRegister d c) (fuel page : Nat) (w w' : World σ)
    (hpage : page < c.STM32L4_FLASH_NPAGES) (hm : ModeClear d c w.hw)
    (h : erasepage_locked d c fuel page w = some w') : Relocked d c w.g_sem w' := by
  have hp : ModePair c c.FLASH_CR_PER c.FLASH_CR_PG := Or.inr ⟨rfl, rfl⟩
  have hq := quiet_modeInv d c hd _ _ hp
  unfold erasepage_locked at h
  simp only [Chip.FLASH_CR_PAGE_ERASE] at h
  cases h1 : sem_lock w with
  | none => simp [h1] at h
  | some w0 =>
    obtain ⟨hpos, hw0⟩ := sem_lock_some w w0 h1
    simp only [h1] at h
    cases h2 : flash_unlock d c fuel w0 with
    | none => simp [h2] at h
    | some w2 =>
      simp only [h2] at h
      have hinv0 : ModeInv d c c.FLASH_CR_PER c.FLASH_CR_PG w0.hw := by
        rw [hw0]
        exact modeInv_of_clear d c _ _ hp _ hm
      have hinv2 := flash_unlock_quiet d c hl _ hq fuel w0 w2 h2 hinv0
      have hg2 : w2.g_sem = w.g_sem - 1 := by
        rw [(flash_unlock_trace d c fuel w0 w2 h2).1, hw0]
      have hinv3 := modeInv_set d c hl hd _ _ hp w2 hinv2
      have hinv4 := modeInv_neutral d c hl hd _ _ hp c.FLASH_CR_PNB_MASK (c.FLASH_CR_PNB page)
        hl.pnb_mask (fun m hm' => hl.pnb page m hpage hm') _ hinv3
      have hinv5 := modeInv_neutral d c hl hd _ _ hp 0 c.FLASH_CR_START
        (fun m _ => Nat.zero_and m) hl.start _ hinv4
      split at h
      · cases h
      · rename_i w6 h6
        have hinv6 := busy_wait_quiet d c _ hq fuel _ w6 h6 hinv5
        have hg6 := (busy_wait_trace d c fuel _ w6 h6).1
        simp only [Option.some.injEq] at h
        subst h
        have hclear := modeClear_of_clear d c hl hd _ _ hp w6 hinv6
        obtain ⟨a, b, e⟩ := flash_lock_relocks d c hl hd _ hclear
        refine ⟨a, b, ?_⟩
        show (flash_lock d c _).g_sem + 1 = w.g_sem
        rw [e, (modifyreg32_hw d _ _ _ w6).2, hg6]
        simp only [(modifyreg32_hw d _ _ _ _).2, Chip.FLASH_CR_PAGE_ERASE]
        omega

theorem up_progmem_erasepage_relocks (d : Device σ) (c : Chip) (hl : c.Layout)
    (hd : ControlRegister d c) (fuel page : Nat) (w : World σ) (r : Int) (w' : World σ)
    (hpage : page < c.STM32L4_FLASH_NPAGES) (hm : ModeClear d c w.hw)
    (h : up_progmem_erasepage d c fuel page w = some (r, w')) : Relocked d c w.g_sem w' := by
  unfold up_progmem_erasepage at h
  rw [if_neg (by omega)] at h
  cases h1 : erasepage_locked d c fuel page w with
  | none => simp [h1] at h
  | some w1 =>
    obtain ⟨a, b, e⟩ := erasepage_locked_relocks d c hl hd fuel page w w1 hpage hm h1
    obtain ⟨fh, fg⟩ := up_progmem_ispageerased_frame d c page w1
    simp only [h1] at h
    have hw' : w' = (up_progmem_ispageerased d c page w1).2 := by
      split at h
      · simp only [Option.some.injEq, Prod.mk.injEq] at h
        exact h.2.symm
      · simp only [Option.some.injEq, Prod.mk.injEq] at h
        exact h.2.symm
    unfold Relocked
    rw [hw', fh, fg]
    exact ⟨a, b, e⟩

theorem user_optbytes_locked_relocks (d : Device σ) (c : Chip) (hl : c.Layout)
    (hd : ControlRegister d c) (fuel clrbits setbits : Nat) (w : World σ) (r : Nat)
    (w' : World σ) (hm : ModeClear d c w.hw)
    (h : user_optbytes_locked d c fuel clrbits setbits w = some (r, w')) :
    Relocked d c w.g_sem w' := by
  have hq := quiet_modeClear d c hd
  unfold user_optbytes_locked at h
  cases h1 : sem_lock w with
  | none => simp [h1] at h
  | some w0 =>
    obtain ⟨hpos, hw0⟩ := sem_lock_some w w0 h1
    simp only [h1] at h
    cases h2 : flash_optbytes_unlock d c fuel w0 with
    | none => simp [h2] at h
    | some w2 =>
      simp only [h2] at h
      have hm0 : ModeClear d c w0.hw := by rw [hw0]; exact hm
      have hm2 := flash_optbytes_unlock_quiet d c hl _ hq fuel w0 w2 h2 hm0
      have hg2 : w2.g_sem = w.g_sem - 1 := by
        rw [(flash_optbytes_unlock_trace d c fuel w0 w2 h2).1, hw0]
      have hm3 : ModeClear d c (putreg32 d
          ((getreg32 d c.STM32L4_FLASH_OPTR w2).1 &&& not32 clrbits ||| setbits)
          c.STM32L4_FLASH_OPTR (getreg32 d c.STM32L4_FLASH_OPTR w2).2).hw :=
        hq.write _ _ _ hl.optr_ne hm2
      have hm4 := modeClear_neutral d c hl hd 0 c.FLASH_CR_OPTSTRT
        (fun m _ => Nat.zero_and m) hl.optstrt _ hm3
      split at h
      · cases h
      · rename_i w5 h5
        have hm5 := busy_wait_quiet d c _ hq fuel _ w5 h5 hm4
        have hg5 := (busy_wait_trace d c fuel _ w5 h5).1
        simp only [Option.some.injEq, Prod.mk.injEq] at h
        obtain ⟨_, hw'⟩ := h
        subst hw'
        obtain ⟨a, b, e⟩ := flash_lock_relocks d c hl hd _ hm5
        refine ⟨a, b, ?_⟩
        show (flash_lock d c _).g_sem + 1 = w.g_sem
        rw [e, hg5]
        simp only [(modifyreg32_hw d _ _ _ _).2]
        show w2.g_sem + 1 = w.g_sem
        omega

theorem user_optbytes_relocks (d : Device σ) (c : Chip) (hl : c.Layout)
    (hd : ControlRegister d c) (fuel clrbits setbits : Nat) (w : World σ) (r : Nat)
    (w' : World σ) (hm : ModeClear d c w.hw)
    (h : stm32l4_flash_user_optbytes d c fuel clrbits setbits w = Outcome.returned (r, w')) :
    Relocked d c w.g_sem w' := by
  unfold stm32l4_flash_user_optbytes DEBUGASSERT at h
  split at h
  · split at h
    · cases hr : user_optbytes_locked d c fuel clrbits setbits w with
      | none => simp [hr] at h
      | some r' =>
        simp only [hr, Outcome.returned.injEq] at h
        subst h
        exact user_optbytes_locked_relocks d c hl hd fuel clrbits setbits w r w' hm hr
    · cases h
  · cases h

theorem call_run_relocks (d : Device σ) (c : Chip) (hl : c.Layout) (hg : c.Geometry)
    (hd : ControlRegister d c) (fuel : Nat) (call : Call) (w w' : World σ)
    (hv : call.InRange c) (hm : ModeClear d c w.hw) (h : Call.run d c fuel call w = some w') :
    Relocked d c w.g_sem w' := by
  cases call with
  | erasepage page =>
    simp only [Call.run] at h
    cases hr : up_progmem_erasepage d c fuel page w with
    | none => simp [hr] at h
    | some r =>
      simp only [hr, Option.some.injEq] at h
      subst h
      exact up_progmem_erasepage_relocks d c hl hd fuel page w r.1 r.2 hv hm hr
  | write addr buf count =>
    simp only [Call.run] at h
    cases hr : up_progmem_write d c fuel addr buf count w with
    | none => simp [hr] at h
    | some r =>
      simp only [hr, Option.some.injEq] at h
      subst h
      exact up_progmem_write_relocks d c hl hg hd fuel addr buf count w r.1 r.2 hm hv hr
  | user_optbytes clrbits setbits =>
    simp only [Call.run] at h
    cases hr : stm32l4_flash_user_optbytes d c fuel clrbits setbits w with
    | returned r =>
      simp only [hr, Option.some.injEq] at h
      subst h
      exact user_optbytes_relocks d c hl hd fuel clrbits setbits w r.1 r.2 hm hr
    | assertion_failed => simp [hr] at h
    | no_return => simp [hr] at h

theorem run_calls_relocks (d : Device σ) (c : Chip) (hl : c.Layout) (hg : c.Geometry)
    (hd : ControlRegister d c) :
    ∀ (calls : List (Nat × Call)) (w w' : World σ),
      (∀ fc, fc ∈ calls → fc.2.InRange c) → ModeClear d c w.hw →
      run_calls d c calls w = some w' →
      ModeClear d c w'.hw ∧ w'.g_sem = w.g_sem ∧ (calls ≠ [] → Locked d c w'.hw) := by
  intro calls
  induction calls with
  | nil =>
    intro w w' _ hm h
    rw [run_calls] at h
    cases h
    exact ⟨hm, rfl, fun h => absurd rfl h⟩
  | cons fc rest ih =>
    intro w w' hv hm h
    rw [run_calls] at h
    cases hr : Call.run d c fc.1 fc.2 w with
    | none => simp [hr] at h
    | some w1 =>
      simp only [hr] at h
      obtain ⟨hlk1, hm1, hg1⟩ := call_run_relocks d c hl hg hd fc.1 fc.2 w w1
        (hv fc (List.mem_cons_self _ _)) hm hr
      obtain ⟨hm', hg', hlk'⟩ := ih w1 w' (fun x hx => hv x (List.mem_cons_of_mem _ hx)) hm1 h
      refine ⟨hm', by rw [hg', hg1], fun _ => ?_⟩
      by_cases hrest : rest = []
      · subst hrest
        rw [run_calls] at h
        cases h
        exact hlk1
      · exact hlk' hrest

theorem Sim.boot_modeClear (wrp : Nat → Bool) (mem : Nat → Nat) :
    ModeClear Sim.device stm32l476 (Sim.boot wrp mem).hw := by
  constructor
  · show (0xC0000000 : Nat) &&& 0x1 = 0
    decide
  · show (0xC0000000 : Nat) &&& 0x2 = 0
    decide

theorem ofSsize_toSsize (n : Nat) (h : n < 4294967296) : ofSsize (toSsize n) = n := by
  unfold ofSsize toSsize
  split <;> omega

/-- C13 as stated fails on two headers that satisfy its assumptions (flash
size = pageCount * pageSize, base + flash size within `size_t`). With one page
of size 0, page 0 has the address `base`, which `up_progmem_getpage` rejects
with `-EFAULT`. With 0x80000001 pages of one byte at base 0, page 0x80000000
has the address 0x80000000, which `up_progmem_getpage` returns as the negative
`ssize_t` -2147483648. -/
theorem getpage_getaddress_counterexample :
    (zeroPageChip.STM32L4_FLASH_SIZE =
        zeroPageChip.STM32L4_FLASH_NPAGES * zeroPageChip.STM32L4_FLASH_PAGESIZE ∧
      zeroPageChip.STM32L4_FLASH_BASE + zeroPageChip.STM32L4_FLASH_SIZE ≤ SIZE_MAX ∧
      0 < zeroPageChip.STM32L4_FLASH_NPAGES ∧
      up_progmem_getpage zeroPageChip (up_progmem_getaddress zeroPageChip 0) = - EFAULT ∧
      up_progmem_getpage zeroPageChip (up_progmem_getaddress zeroPageChip 0) ≠ ((0 : Nat) : Int)) ∧
    (hugeChip.STM32L4_FLASH_SIZE =
        hugeChip.STM32L4_FLASH_NPAGES * hugeChip.STM32L4_FLASH_PAGESIZE ∧
      hugeChip.STM32L4_FLASH_BASE + hugeChip.STM32L4_FLASH_SIZE ≤ SIZE_MAX ∧
      0x80000000 < hugeChip.STM32L4_FLASH_NPAGES ∧
      up_progmem_getpage hugeChip (up_progmem_getaddress hugeChip 0x80000000) = -2147483648 ∧
      up_progmem_getpage hugeChip (up_progmem_getaddress hugeChip 0x80000000) ≠
        ((0x80000000 : Nat) : Int)) := by
  decide

/-- C13, amended: assuming flash size = pageCount * pageSize, base + flash
size within `size_t`, and in addition a positive page size and a page count of
at most 2^31 (every page index is a non-negative `ssize_t`): for every page
index below the page count `up_progmem_getaddress` is `base + p * pageSize`, is
not `SIZE_MAX` and `up_progmem_getpage` maps it back to `p`; and every absolute
address inside the array lies in the page `up_progmem_getpage` names, between
that page's address and its address plus `up_progmem_pagesize`. -/
theorem getaddress_getpage_roundtrip (c : Chip)
    (hsize : c.STM32L4_FLASH_SIZE = c.STM32L4_FLASH_NPAGES * c.STM32L4_FLASH_PAGESIZE)
    (hend : c.STM32L4_FLASH_BASE + c.STM32L4_FLASH_SIZE ≤ SIZE_MAX)
    (hps : 0 < c.STM32L4_FLASH_PAGESIZE) (hnp : c.STM32L4_FLASH_NPAGES ≤ 2147483648) :
    (∀ p, p < c.STM32L4_FLASH_NPAGES →
      up_progmem_getaddress c p = c.STM32L4_FLASH_BASE + p * c.STM32L4_FLASH_PAGESIZE ∧
      up_progmem_getaddress c p ≠ SIZE_MAX ∧
      up_progmem_getpage c (up_progmem_getaddress c p) = (p : Int)) ∧
    (∀ a, c.STM32L4_FLASH_BASE ≤ a → a < c.STM32L4_FLASH_BASE + c.STM32L4_FLASH_SIZE →
      up_progmem_getaddress c (ofSsize (up_progmem_getpage c a)) ≤ a ∧
      a < up_progmem_getaddress c (ofSsize (up_progmem_getpage c a)) +
        up_progmem_pagesize c (ofSsize (up_progmem_getpage c a))) := by
  unfold SIZE_MAX at hend
  have haddr : ∀ p, p < c.STM32L4_FLASH_NPAGES →
      up_progmem_getaddress c p = c.STM32L4_FLASH_BASE + p * c.STM32L4_FLASH_PAGESIZE ∧
      p * c.STM32L4_FLASH_PAGESIZE + c.STM32L4_FLASH_PAGESIZE ≤ c.STM32L4_FLASH_SIZE := by
    intro p hp
    have h1 : (p + 1) * c.STM32L4_FLASH_PAGESIZE ≤
        c.STM32L4_FLASH_NPAGES * c.STM32L4_FLASH_PAGESIZE :=
      Nat.mul_le_mul_right _ hp
    rw [Nat.add_mul, Nat.one_mul, ← hsize] at h1
    refine ⟨?_, h1⟩
    unfold up_progmem_getaddress wrap32
    rw [if_neg (by omega)]
    omega
  constructor
  · intro p hp
    obtain ⟨ha, hle⟩ := haddr p hp
    refine ⟨ha, ?_, ?_⟩
    · rw [ha]
      unfold SIZE_MAX
      omega
    · rw [ha]
      unfold up_progmem_getpage
      simp only [ge_iff_le, Nat.le_add_right, if_true, Nat.add_sub_cancel_left]
      rw [if_neg (by omega), Nat.mul_div_cancel _ hps, toSsize_of_lt _ (by omega)]
  · intro a hlo hhi
    have hq : (a - c.STM32L4_FLASH_BASE) / c.STM32L4_FLASH_PAGESIZE < c.STM32L4_FLASH_NPAGES := by
      apply Nat.div_lt_of_lt_mul
      rw [Nat.mul_comm, ← hsize]
      omega
    have hpage : up_progmem_getpage c a =
        toSsize ((a - c.STM32L4_FLASH_BASE) / c.STM32L4_FLASH_PAGESIZE) := by
      unfold up_progmem_getpage
      simp only [ge_iff_le, hlo, if_true]
      rw [if_neg (by omega)]
    rw [hpage, ofSsize_toSsize _ (by omega), (haddr _ hq).1]
    have hdm := Nat.div_add_mod (a - c.STM32L4_FLASH_BASE) c.STM32L4_FLASH_PAGESIZE
    have hmod := Nat.mod_lt (a - c.STM32L4_FLASH_BASE) hps
    have hcomm : c.STM32L4_FLASH_PAGESIZE *
        ((a - c.STM32L4_FLASH_BASE) / c.STM32L4_FLASH_PAGESIZE) =
        (a - c.STM32L4_FLASH_BASE) / c.STM32L4_FLASH_PAGESIZE * c.STM32L4_FLASH_PAGESIZE :=
      Nat.mul_comm _ _
    rw [hcomm] at hdm
    unfold up_progmem_pagesize
    constructor <;> omega

/-- C13, amended, at page 3 and at address 0x08001a34 of the 256 pages of
2048 bytes at 0x08000000. -/
theorem getaddress_getpage_roundtrip_witness :
    (up_progmem_getaddress stm32l476 3 =
        stm32l476.STM32L4_FLASH_BASE + 3 * stm32l476.STM32L4_FLASH_PAGESIZE ∧
      up_progmem_getaddress stm32l476 3 ≠ SIZE_MAX ∧
      up_progmem_getpage stm32l476 (up_progmem_getaddress stm32l476 3) = ((3 : Nat) : Int)) ∧
    (up_progmem_getaddress stm32l476 (ofSsize (up_progmem_getpage stm32l476 0x08001a34)) ≤
        0x08001a34 ∧
      0x08001a34 <
        up_progmem_getaddress stm32l476 (ofSsize (up_progmem_getpage stm32l476 0x08001a34)) +
          up_progmem_pagesize stm32l476 (ofSsize (up_progmem_getpage stm32l476 0x08001a34))) :=
  ⟨(getaddress_getpage_roundtrip stm32l476 (by decide) (by decide) (by decide)
      (by decide)).1 3 (by decide),
   (getaddress_getpage_roundtrip stm32l476 (by decide) (by decide) (by decide)
      (by decide)).2 0x08001a34 (by decide) (by decide)⟩

/-! ## Programming on the simulated controller -/

theorem Sim.write32_flash (s : Sim) (v a : Nat) (hr : s.Ready)
    (ha : 0x08000000 ≤ a) (ha2 : a + 4 ≤ 0x08080000) :
    Sim.write32 s v a = { s with busy := true, mem := Sim.store32 s.mem a v } := by
  obtain ⟨hu, hpg, _, hw, _⟩ := hr
  have h1 : a ≠ stm32l476.STM32L4_FLASH_KEYR := by show a ≠ 0x40022008; omega
  have h2 : a ≠ stm32l476.STM32L4_FLASH_OPTKEYR := by show a ≠ 0x4002200c; omega
  have h3 : a ≠ stm32l476.STM32L4_FLASH_CR := by show a ≠ 0x40022014; omega
  have h4 : a ≠ stm32l476.STM32L4_FLASH_SR := by show a ≠ 0x40022010; omega
  have h5 : a ≠ stm32l476.STM32L4_FLASH_OPTR := by show a ≠ 0x40022020; omega
  have h6 : stm32l476.STM32L4_FLASH_BASE ≤ a ∧
      a + 4 ≤ stm32l476.STM32L4_FLASH_BASE + stm32l476.STM32L4_FLASH_SIZE := by
    show 0x08000000 ≤ a ∧ a + 4 ≤ 0x08000000 + 256 * 2048
    omega
  unfold Sim.write32
  rw [if_neg h1, if_neg h2, if_neg h3, if_neg h4, if_neg h5, if_pos h6, if_pos ⟨hu, hpg⟩, hw]
  simp

theorem Sim.read32_flash (s : Sim) (a : Nat) (ha : 0x08000000 ≤ a) (ha2 : a + 4 ≤ 0x08080000) :
    Sim.read32 s a = Sim.load32 s.mem a := by
  have h3 : a ≠ stm32l476.STM32L4_FLASH_CR := by show a ≠ 0x40022014; omega
  have h4 : a ≠ stm32l476.STM32L4_FLASH_SR := by show a ≠ 0x40022010; omega
  have h5 : a ≠ stm32l476.STM32L4_FLASH_OPTR := by show a ≠ 0x40022020; omega
  have h12 : ¬ (a = stm32l476.STM32L4_FLASH_KEYR ∨ a = stm32l476.STM32L4_FLASH_OPTKEYR) := by
    show ¬ (a = 0x40022008 ∨ a = 0x4002200c)
    omega
  unfold Sim.read32
  rw [if_neg h4, if_neg h3, if_neg h5, if_neg h12]

theorem Sim.load32_store32_same (m : Nat → Nat) (a v : Nat) (hv : v < 4294967296) :
    Sim.load32 (Sim.store32 m a v) a = v := by
  unfold Sim.load32 Sim.store32
  simp only [if_true, show a + 1 ≠ a by omega, show a + 2 ≠ a by omega, show a + 3 ≠ a by omega,
    show a + 2 ≠ a + 1 by omega, show a + 3 ≠ a + 1 by omega, show a + 3 ≠ a + 2 by omega,
    if_false]
  omega

theorem Sim.load32_store32_other (m : Nat → Nat) (a b v : Nat) (h : a + 4 ≤ b ∨ b + 4 ≤ a) :
    Sim.load32 (Sim.store32 m b v) a = Sim.load32 m a := by
  unfold Sim.load32 Sim.store32
  simp only [show a ≠ b by omega, show a ≠ b + 1 by omega, show a ≠ b + 2 by omega,
    show a ≠ b + 3 by omega, show a + 1 ≠ b by omega, show a + 1 ≠ b + 1 by omega,
    show a + 1 ≠ b + 2 by omega, show a + 1 ≠ b + 3 by omega, show a + 2 ≠ b by omega,
    show a + 2 ≠ b + 1 by omega, show a + 2 ≠ b + 2 by omega, show a + 2 ≠ b + 3 by omega,
    show a + 3 ≠ b by omega, show a + 3 ≠ b + 1 by omega, show a + 3 ≠ b + 2 by omega,
    show a + 3 ≠ b + 3 by omega, if_false]

theorem busy_wait_after_one_stall (d : Device σ) (c : Chip) (f : Nat) (w : World σ)
    (h1 : d.read32 w.hw c.STM32L4_FLASH_SR &&& c.FLASH_SR_BSY ≠ 0)
    (h2 : d.read32 (d.stall w.hw) c.STM32L4_FLASH_SR &&& c.FLASH_SR_BSY = 0) :
    ∃ ws, busy_wait d c (f + 2) w = some ws ∧ ws.hw = d.stall w.hw ∧ ws.g_sem = w.g_sem := by
  rw [busy_wait]
  simp only [getreg32]
  rw [if_pos h1, busy_wait]
  simp only [getreg32, up_waste]
  rw [if_neg (not_not.2 h2)]
  exact ⟨_, rfl, rfl, rfl⟩

theorem Sim.ready_write (s : Sim) (v a : Nat) (hr : s.Ready)
    (ha : 0x08000000 ≤ a) (ha2 : a + 4 ≤ 0x08080000) : (Sim.write32 s v a).Ready := by
  rw [Sim.write32_flash s v a hr ha ha2]
  exact hr

theorem Sim.stride_program_ok (fuel : Nat) (hf : 2 ≤ fuel) (buf : Nat → Nat) (a cnt wi : Nat)
    (w : World Sim) (hr : w.hw.Ready) (ha : 0x08000000 ≤ a) (ha2 : a + 8 ≤ 0x08080000) :
    ∃ ws, stride_program Sim.device stm32l476 fuel buf a cnt wi w = some ws ∧
      ws.hw = { w.hw with
        busy := false,
        mem := Sim.store32 (Sim.store32 w.hw.mem a (buf wi)) (a + 4) (second_word buf cnt wi) } ∧
      ws.g_sem = w.g_sem := by
  obtain ⟨f, rfl⟩ : ∃ f, fuel = f + 2 := ⟨fuel - 2, by omega⟩
  have hw4 : wrap32 (a + 4) = a + 4 := Nat.mod_eq_of_lt (by omega)
  have hs1 := Sim.write32_flash w.hw (buf wi) a hr ha (by omega)
  have hr1 := Sim.ready_write w.hw (buf wi) a hr ha (by omega)
  have hs2 := Sim.write32_flash _ (second_word buf cnt wi) (a + 4) hr1 (by omega) (by omega)
  have hsr : (Sim.write32 (Sim.write32 w.hw (buf wi) a) (second_word buf cnt wi) (a + 4)).sr = 0 := by
    rw [hs2, hs1]
    exact hr.2.2.2.2
  have hbusy : (Sim.write32 (Sim.write32 w.hw (buf wi) a) (second_word buf cnt wi)
      (a + 4)).busy = true := by
    rw [hs2]
  unfold stride_program
  rw [hw4]
  obtain ⟨ws, h1, h2, h3⟩ := busy_wait_after_one_stall Sim.device stm32l476 f
    (putreg32 Sim.device (second_word buf cnt wi) (a + 4) (putreg32 Sim.device (buf wi) a w))
    (by
      show ((Sim.write32 (Sim.write32 w.hw (buf wi) a) (second_word buf cnt wi) (a + 4)).sr &&&
        stm32l476.FLASH_SR_ALLERRS |||
        (if (Sim.write32 (Sim.write32 w.hw (buf wi) a) (second_word buf cnt wi) (a + 4)).busy
          then stm32l476.FLASH_SR_BSY else 0)) &&& stm32l476.FLASH_SR_BSY ≠ 0
      rw [hsr, hbusy]
      decide)
    (by
      show ((Sim.write32 (Sim.write32 w.hw (buf wi) a) (second_word buf cnt wi) (a + 4)).sr &&&
        stm32l476.FLASH_SR_ALLERRS ||| 0) &&& stm32l476.FLASH_SR_BSY = 0
      rw [hsr]
      decide)
  refine ⟨ws, h1, ?_, h3⟩
  rw [h2]
  show Sim.stall (Sim.write32 (Sim.write32 w.hw (buf wi) a) (second_word buf cnt wi) (a + 4)) = _
  rw [hs2, hs1]
  rfl

theorem second_word_lt (buf : Nat → Nat) (hbuf : ∀ i, buf i < 4294967296) (cnt wi : Nat) :
    second_word buf cnt wi < 4294967296 := by
  unfold second_word
  split
  · decide
  · exact hbuf _

theorem Sim.strides_verified_ok (fuel : Nat) (hf : 2 ≤ fuel) (buf : Nat → Nat)
    (hbuf : ∀ i, buf i < 4294967296) :
    ∀ (k a cnt wi : Nat) (w : World Sim), w.hw.Ready → 0x08000000 ≤ a →
      a + 8 * k ≤ 0x08080000 →
      ∃ wk, strides_verified Sim.device stm32l476 fuel buf k a cnt wi w = some wk ∧
        wk.hw.Ready ∧ wk.hw.mem = Sim.programmed buf k a cnt wi w.hw.mem ∧
        wk.g_sem = w.g_sem := by
  intro k
  induction k with
  | zero =>
    intro a cnt wi w hr _ _
    exact ⟨w, rfl, hr, rfl, rfl⟩
  | succ k ih =>
    intro a cnt wi w hr ha ha2
    obtain ⟨ws, hs, hhw, hg⟩ := Sim.stride_program_ok fuel hf buf a cnt wi w hr ha (by omega)
    have hrs : ws.hw.Ready := by
      rw [hhw]
      exact hr
    have hnw : ¬ WrpErr Sim.device stm32l476 ws.hw := by
      unfold WrpErr
      show ¬ ((ws.hw.sr &&& stm32l476.FLASH_SR_ALLERRS |||
        (if ws.hw.busy then stm32l476.FLASH_SR_BSY else 0)) &&& stm32l476.FLASH_SR_WRPERR ≠ 0)
      have h1 : ws.hw.sr = 0 := hrs.2.2.2.2
      have h2 : ws.hw.busy = false := by rw [hhw]
      rw [h1, h2]
      decide
    have hrb : ReadBack Sim.device buf a cnt wi ws.hw := by
      unfold ReadBack
      constructor
      · show Sim.read32 ws.hw a = buf wi
        rw [Sim.read32_flash ws.hw a ha (by omega), hhw]
        show Sim.load32 (Sim.store32 (Sim.store32 w.hw.mem a (buf wi)) (a + 4)
          (second_word buf cnt wi)) a = buf wi
        rw [Sim.load32_store32_other _ _ _ _ (Or.inl (Nat.le_refl _)),
          Sim.load32_store32_same _ _ _ (hbuf wi)]
      · show Sim.read32 ws.hw (a + 4) = second_word buf cnt wi
        rw [Sim.read32_flash ws.hw (a + 4) (by omega) (by omega), hhw]
        exact Sim.load32_store32_same _ _ _ (second_word_lt buf hbuf cnt wi)
    obtain ⟨hvh, hvg⟩ := stride_verify_frame Sim.device stm32l476 buf a cnt wi ws
    obtain ⟨wk, hk, hrk, hmk, hgk⟩ := ih (a + 8) (cnt - 8) (wi + 2)
      (stride_verify Sim.device stm32l476 buf a cnt wi ws).2 (by rw [hvh]; exact hrs)
      (by omega) (by omega)
    refine ⟨wk, ?_, hrk, ?_, ?_⟩
    · rw [strides_verified]
      simp only [hs]
      rw [if_pos ⟨hnw, hrb⟩]
      exact hk
    · rw [hmk, hvh, hhw]
      rfl
    · rw [hgk, hvg, hg]

/-! ## Counting the bytes that are not erased -/

theorem scan_page_nonblank (d : Device σ) :
    ∀ (n a b : Nat) (w : World σ), a + n < 4294967296 → b + n < 4294967296 →
      (scan_page d n a b w).1 = b + nonblank (d.read8 w.hw) n a := by
  intro n
  induction n with
  | zero => intro a b w _ _; rfl
  | succ n ih =>
    intro a b w ha hb
    have hwa : wrap32 (a + 1) = a + 1 := Nat.mod_eq_of_lt (by omega)
    have hwb : wrap32 (b + 1) = b + 1 := Nat.mod_eq_of_lt (by omega)
    have hhw : (getreg8 d a w).2.hw = w.hw := rfl
    have hval : (getreg8 d a w).1 = d.read8 w.hw a := rfl
    rw [scan_page, nonblank, hwa, hwb, hval]
    by_cases hbyte : d.read8 w.hw a ≠ 0xff
    · rw [if_pos hbyte, if_pos hbyte, ih (a + 1) (b + 1) _ (by omega) (by omega), hhw]
      omega
    · rw [if_neg hbyte, if_neg hbyte, ih (a + 1) b _ (by omega) (by omega), hhw]
      omega

theorem nonblank_congr (f g : Nat → Nat) :
    ∀ (n a b : Nat), (∀ i, i < n → f (a + i) = g (b + i)) → nonblank f n a = nonblank g n b := by
  intro n
  induction n with
  | zero => intro a b _; rfl
  | succ n ih =>
    intro a b h
    rw [nonblank, nonblank, ih (a + 1) (b + 1) (fun i hi => by
      have := h (i + 1) (by omega)
      rw [show a + 1 + i = a + (i + 1) by omega, show b + 1 + i = b + (i + 1) by omega]
      exact this)]
    have h0 := h 0 (by omega)
    rw [Nat.add_zero, Nat.add_zero] at h0
    rw [h0]

theorem nonblank_add (f : Nat → Nat) :
    ∀ (n m a : Nat), nonblank f (n + m) a = nonblank f n a + nonblank f m (a + n) := by
  intro n
  induction n with
  | zero => intro m a; simp [nonblank]
  | succ n ih =>
    intro m a
    rw [show n + 1 + m = (n + m) + 1 by omega, nonblank, nonblank, ih m (a + 1),
      show a + 1 + n = a + (n + 1) by omega]
    omega

theorem nonblank_blank (f : Nat → Nat) :
    ∀ (n a : Nat), (∀ i, i < n → f (a + i) = 0xff) → nonblank f n a = 0 := by
  intro n
  induction n with
  | zero => intro a _; rfl
  | succ n ih =>
    intro a h
    have h0 := h 0 (by omega)
    rw [Nat.add_zero] at h0
    rw [nonblank, if_neg (by rw [h0]; exact fun h => h rfl), ih (a + 1) (fun i hi => by
      rw [show a + 1 + i = a + (i + 1) by omega]
      exact h (i + 1) (by omega))]

theorem nonblank_le (f : Nat → Nat) : ∀ (n a : Nat), nonblank f n a ≤ n := by
  intro n
  induction n with
  | zero => intro a; exact Nat.le_refl _
  | succ n ih =>
    intro a
    rw [nonblank]
    have := ih (a + 1)
    split <;> omega

theorem nonblank_full (f : Nat → Nat) :
    ∀ (n a : Nat), (∀ i, i < n → f (a + i) ≠ 0xff) → nonblank f n a = n := by
  intro n
  induction n with
  | zero => intro a _; rfl
  | succ n ih =>
    intro a h
    have h0 := h 0 (by omega)
    rw [Nat.add_zero] at h0
    rw [nonblank, if_pos h0, ih (a + 1) (fun i hi => by
      rw [show a + 1 + i = a + (i + 1) by omega]
      exact h (i + 1) (by omega))]
    omega

/-! ## The bytes a programming loop leaves in the simulated array -/

theorem Sim.store32_outside (m : Nat → Nat) (a v x : Nat) (h : x < a ∨ a + 4 ≤ x) :
    Sim.store32 m a v x = m x := by
  unfold Sim.store32
  simp only [show x ≠ a by omega, show x ≠ a + 1 by omega, show x ≠ a + 2 by omega,
    show x ≠ a + 3 by omega, if_false]

theorem Sim.store32_word (m : Nat → Nat) (bytes : Nat → Nat) (a i j : Nat) (hj : j < 4) :
    Sim.store32 m a (words_of_bytes bytes i) (a + j) = bytes (4 * i + j) % 256 := by
  unfold Sim.store32 words_of_bytes
  have hc : j = 0 ∨ j = 1 ∨ j = 2 ∨ j = 3 := by omega
  rcases hc with h | h | h | h <;> subst h
  · simp only [Nat.add_zero, if_true]
    omega
  · simp only [show a + 1 ≠ a by omega, if_false, if_true]
    omega
  · simp only [show a + 2 ≠ a by omega, show a + 2 ≠ a + 1 by omega, if_false, if_true]
    omega
  · simp only [show a + 3 ≠ a by omega, show a + 3 ≠ a + 1 by omega,
      show a + 3 ≠ a + 2 by omega, if_false, if_true]
    omega

theorem words_of_bytes_lt (bytes : Nat → Nat) (i : Nat) :
    words_of_bytes bytes i < 4294967296 := by
  unfold words_of_bytes
  omega

theorem Sim.programmed_read (bytes : Nat → Nat) :
    ∀ (k a cnt wi : Nat) (m : Nat → Nat) (x : Nat), 8 * k ≤ cnt →
      Sim.programmed (words_of_bytes bytes) k a cnt wi m x =
        if a ≤ x ∧ x < a + 8 * k then bytes (4 * wi + (x - a)) % 256 else m x := by
  intro k
  induction k with
  | zero =>
    intro a cnt wi m x _
    rw [Sim.programmed, if_neg (by omega)]
  | succ k ih =>
    intro a cnt wi m x hc
    have hsw : second_word (words_of_bytes bytes) cnt wi = words_of_bytes bytes (wi + 1) := by
      unfold second_word
      rw [if_neg (by omega)]
    rw [Sim.programmed, hsw, ih (a + 8) (cnt - 8) (wi + 2) _ x (by omega)]
    by_cases h1 : a + 8 ≤ x ∧ x < a + 8 + 8 * k
    · rw [if_pos h1, if_pos (by omega)]
      congr 2
      omega
    · rw [if_neg h1]
      by_cases h2 : a ≤ x ∧ x < a + 4
      · rw [if_pos (by omega), Sim.store32_outside _ _ _ _ (Or.inl h2.2)]
        obtain ⟨j, rfl⟩ : ∃ j, x = a + j := ⟨x - a, by omega⟩
        rw [Sim.store32_word _ _ _ _ j (by omega)]
        congr 2
        omega
      · by_cases h3 : a + 4 ≤ x ∧ x < a + 8
        · rw [if_pos (by omega)]
          obtain ⟨j, rfl⟩ : ∃ j, x = a + 4 + j := ⟨x - (a + 4), by omega⟩
          rw [Sim.store32_word _ _ _ _ j (by omega)]
          congr 2
          omega
        · rw [if_neg (by omega), Sim.store32_outside _ _ _ _ (by omega),
            Sim.store32_outside _ _ _ _ (by omega)]

theorem Sim.writeCR_mem (s : Sim) (v : Nat) (h : v &&& stm32l476.FLASH_CR_PER = 0) :
    (Sim.writeCR s v).mem = s.mem := by
  unfold Sim.writeCR
  split
  · rfl
  · simp only
    rw [if_neg (fun hc => hc.2 h)]
    split <;> rfl

theorem Sim.write_end_mem (w : World Sim) (h : w.hw.cr &&& stm32l476.FLASH_CR_PER = 0) :
    (write_end Sim.device stm32l476 OK w).hw.mem = w.hw.mem ∧
      (write_end Sim.device stm32l476 OK w).g_sem = w.g_sem + 1 := by
  have hv1 : ((w.hw.cr &&& not32 stm32l476.FLASH_CR_PG) ||| 0) &&& stm32l476.FLASH_CR_PER = 0 := by
    rw [field_preserved _ _ _ _ (by decide) (by decide) (by decide)]
    exact h
  have hcr1 : (Sim.writeCR w.hw ((w.hw.cr &&& not32 stm32l476.FLASH_CR_PG) ||| 0)).cr &&&
      stm32l476.FLASH_CR_PER = 0 := by
    rw [Sim.writeCR_field _ _ _ (Or.inr (Or.inr rfl))]
    split
    · exact h
    · exact hv1
  have hv2 : (((Sim.writeCR w.hw ((w.hw.cr &&& not32 stm32l476.FLASH_CR_PG) ||| 0)).cr &&&
      not32 0) ||| stm32l476.FLASH_CR_LOCK) &&& stm32l476.FLASH_CR_PER = 0 := by
    rw [field_preserved _ _ _ _ (by decide) (by decide) (by decide)]
    exact hcr1
  constructor
  · show (Sim.writeCR (Sim.writeCR w.hw ((w.hw.cr &&& not32 stm32l476.FLASH_CR_PG) ||| 0))
      (((Sim.writeCR w.hw ((w.hw.cr &&& not32 stm32l476.FLASH_CR_PG) ||| 0)).cr &&&
        not32 0) ||| stm32l476.FLASH_CR_LOCK)).mem = w.hw.mem
    rw [Sim.writeCR_mem _ _ hv2, Sim.writeCR_mem _ _ hv1]
  · rfl

/-! ## The erase, program, is-page-erased scenario -/

theorem scenario_erase :
    ∃ wE, up_progmem_erasepage Sim.device stm32l476 2 3 (Sim.boot (fun _ => false) (fun _ => 0)) =
        some (2048, wE) ∧
      wE.hw = Sim.idle3 (Sim.erase (fun _ => 0) 3) ∧ wE.g_sem = 1 := by
  have hl : ∃ tr, erasepage_locked Sim.device stm32l476 2 3
      (Sim.boot (fun _ => false) (fun _ => 0)) =
        some ⟨Sim.idle3 (Sim.erase (fun _ => 0) 3), 1, tr⟩ := ⟨_, rfl⟩
  obtain ⟨tr, hl⟩ := hl
  have hblank : PageBlank Sim.device stm32l476 3 (Sim.idle3 (Sim.erase (fun _ => 0) 3)) := by
    intro i hi
    have hi' : i < 2048 := hi
    have ha : up_progmem_getaddress stm32l476 3 = 0x08001800 := by decide
    have hw : wrap32 (0x08001800 + i) = 0x08001800 + i := Nat.mod_eq_of_lt (by omega)
    rw [ha, hw]
    show Sim.erase (fun _ => 0) 3 (0x08001800 + i) = 0xff
    unfold Sim.erase
    rw [if_pos (by
      show 0x08000000 + 3 * 2048 ≤ 0x08001800 + i ∧ 0x08001800 + i < 0x08000000 + (3 + 1) * 2048
      omega)]
  have hz := (ispageerased_zero_iff Sim.device stm32l476 3
    ⟨Sim.idle3 (Sim.erase (fun _ => 0) 3), 1, tr⟩ (by decide) (by decide)).2 hblank
  obtain ⟨fh, fg⟩ := up_progmem_ispageerased_frame Sim.device stm32l476 3
    ⟨Sim.idle3 (Sim.erase (fun _ => 0) 3), 1, tr⟩
  refine ⟨(up_progmem_ispageerased Sim.device stm32l476 3
    ⟨Sim.idle3 (Sim.erase (fun _ => 0) 3), 1, tr⟩).2, ?_, fh, fg⟩
  unfold up_progmem_erasepage
  rw [if_neg (by decide), hl]
  simp only
  rw [if_pos hz]
  rfl

theorem Sim.writeCR_plain (s : Sim) (v : Nat) (h1 : s.cr &&& stm32l476.FLASH_CR_LOCK = 0)
    (h2 : v &&& stm32l476.FLASH_CR_START = 0) (h3 : v &&& stm32l476.FLASH_CR_OPTSTRT = 0)
    (h4 : v &&& stm32l476.FLASH_CR_LOCK = 0) :
    Sim.writeCR s v =
      { s with
        cr := ((v ||| (s.cr &&& stm32l476.FLASH_CR_OPTLOCK)) &&& not32 (stm32l476.FLASH_CR_START ||| stm32l476.FLASH_CR_OPTSTRT)) } := by
  unfold Sim.writeCR
  rw [if_neg (not_not.2 h1)]
  simp only
  rw [if_neg (fun hc => hc.1 h2), if_neg (not_not.2 h3), if_neg (not_not.2 h4)]

theorem Sim.idle3_not_busy (m : Nat → Nat) :
    ¬ (Sim.device.read32 (Sim.idle3 m) stm32l476.STM32L4_FLASH_SR &&&
      stm32l476.FLASH_SR_BSY ≠ 0) := by
  show ¬ (((0 : Nat) &&& stm32l476.FLASH_SR_ALLERRS ||| 0) &&& stm32l476.FLASH_SR_BSY ≠ 0)
  decide

theorem Sim.idle3_locked (m : Nat → Nat) :
    Sim.device.read32 (Sim.idle3 m) stm32l476.STM32L4_FLASH_CR &&&
      stm32l476.FLASH_CR_LOCK ≠ 0 := by
  show (0xC0000018 : Nat) &&& stm32l476.FLASH_CR_LOCK ≠ 0
  decide

theorem Sim.idle3_keys (m : Nat → Nat) :
    Sim.write32 (Sim.write32 (Sim.idle3 m) FLASH_KEY1 stm32l476.STM32L4_FLASH_KEYR)
      FLASH_KEY2 stm32l476.STM32L4_FLASH_KEYR =
        ⟨0x40000018, 0, 0xFFEFF8AA, false, false, false, fun _ => false, m⟩ := by
  have h : (0xC0000018 : Nat) &&& not32 stm32l476.FLASH_CR_LOCK = 0x40000018 := by decide
  rw [← h]
  rfl

theorem Sim.unlocked_set_pg (m : Nat → Nat) :
    Sim.writeCR ⟨0x40000018, 0, 0xFFEFF8AA, false, false, false, fun _ => false, m⟩
      0x40000019 = ⟨0x40000019, 0, 0xFFEFF8AA, false, false, false, fun _ => false, m⟩ := by
  rw [Sim.writeCR_plain _ _ (by show (0x40000018 : Nat) &&& stm32l476.FLASH_CR_LOCK = 0; decide)
    (by decide) (by decide) (by decide)]
  have h : ((0x40000019 : Nat) ||| ((0x40000018 : Nat) &&& stm32l476.FLASH_CR_OPTLOCK)) &&&
    not32 (stm32l476.FLASH_CR_START ||| stm32l476.FLASH_CR_OPTSTRT) = 0x40000019 := by decide
  show (⟨((0x40000019 : Nat) ||| ((0x40000018 : Nat) &&& stm32l476.FLASH_CR_OPTLOCK)) &&&
    not32 (stm32l476.FLASH_CR_START ||| stm32l476.FLASH_CR_OPTSTRT), 0, 0xFFEFF8AA, false,
    false, false, fun _ => false, m⟩ : Sim) = _
  rw [h]

theorem Sim.unlocked_modify_pg (m : Nat → Nat) (s : Sim)
    (h : s = ⟨0x40000018, 0, 0xFFEFF8AA, false, false, false, fun _ => false, m⟩) :
    Sim.write32 s ((s.cr &&& not32 0) ||| stm32l476.FLASH_CR_PG) stm32l476.STM32L4_FLASH_CR =
      ⟨0x40000019, 0, 0xFFEFF8AA, false, false, false, fun _ => false, m⟩ := by
  have hc : s.cr = 0x40000018 := by rw [h]
  have hv : ((0x40000018 : Nat) &&& not32 0) ||| stm32l476.FLASH_CR_PG = 0x40000019 := by decide
  show Sim.writeCR s _ = _
  rw [hc, hv, h, Sim.unlocked_set_pg m]

theorem Sim.write_begin_idle3 (f : Nat) (m : Nat → Nat) (w : World Sim)
    (hhw : w.hw = Sim.idle3 m) (hg : w.g_sem = 1) :
    ∃ w1, write_begin Sim.device stm32l476 (f + 1) w = some w1 ∧
      w1.hw = ⟨0x40000019, 0, 0xFFEFF8AA, false, false, false, fun _ => false, m⟩ ∧
      w1.g_sem = 0 := by
  have hsr : ¬ (Sim.device.read32 w.hw stm32l476.STM32L4_FLASH_SR &&&
      stm32l476.FLASH_SR_BSY ≠ 0) := by
    rw [hhw]
    exact Sim.idle3_not_busy m
  have hlk : Sim.device.read32 w.hw stm32l476.STM32L4_FLASH_CR &&&
      stm32l476.FLASH_CR_LOCK ≠ 0 := by
    rw [hhw]
    exact Sim.idle3_locked m
  unfold write_begin
  rw [sem_lock_eq w (by omega)]
  simp only
  unfold flash_unlock
  rw [busy_wait]
  simp only [getreg32]
  rw [if_neg hsr]
  simp only
  rw [if_pos hlk]
  refine ⟨_, rfl, ?_, ?_⟩
  · rw [(modifyreg32_hw _ _ _ _ _).1]
    show Sim.write32 (Sim.write32 (Sim.write32 w.hw FLASH_KEY1
      stm32l476.STM32L4_FLASH_KEYR) FLASH_KEY2 stm32l476.STM32L4_FLASH_KEYR)
      (((Sim.write32 (Sim.write32 w.hw FLASH_KEY1
      stm32l476.STM32L4_FLASH_KEYR) FLASH_KEY2 stm32l476.STM32L4_FLASH_KEYR).cr &&& not32 0) |||
        stm32l476.FLASH_CR_PG) stm32l476.STM32L4_FLASH_CR = _
    exact Sim.unlocked_modify_pg m _ (by rw [hhw, Sim.idle3_keys m])
  · show w.g_sem - 1 = 0
    omega

theorem up_progmem_ispageerased_count (d : Device σ) (c : Chip) (page : Nat) (w : World σ)
    (hp : page < c.STM32L4_FLASH_NPAGES)
    (ha : up_progmem_getaddress c page + c.STM32L4_FLASH_PAGESIZE < 4294967296)
    (hs : c.STM32L4_FLASH_PAGESIZE < 2147483648) :
    (up_progmem_ispageerased d c page w).1 =
      ((nonblank (d.read8 w.hw) c.STM32L4_FLASH_PAGESIZE (up_progmem_getaddress c page) : Nat) :
        Int) := by
  unfold up_progmem_ispageerased
  rw [if_neg (by omega)]
  simp only [up_progmem_pagesize]
  rw [scan_page_nonblank d _ _ 0 w ha (by omega), Nat.zero_add]
  exact toSsize_of_lt _ (Nat.lt_of_le_of_lt (nonblank_le _ _ _) hs)

theorem Sim.idle3_write (bytes : Nat → Nat) (m : Nat → Nat) (w : World Sim)
    (hhw : w.hw = Sim.idle3 m) (hg : w.g_sem = 1) :
    ∃ wW, up_progmem_write Sim.device stm32l476 5 (0x08000000 + 3 * 2048) (words_of_bytes bytes)
        32 w = some (32, wW) ∧
      wW.hw.mem = Sim.programmed (words_of_bytes bytes) 4 0x08001800 32 0 m ∧ wW.g_sem = 1 := by
  obtain ⟨w1, hb, h1hw, h1g⟩ := Sim.write_begin_idle3 4 m w hhw hg
  have hr1 : w1.hw.Ready := by
    rw [h1hw]
    refine ⟨?_, ?_, ?_, fun _ => rfl, rfl⟩
    · show (0x40000019 : Nat) &&& stm32l476.FLASH_CR_LOCK = 0
      decide
    · show (0x40000019 : Nat) &&& stm32l476.FLASH_CR_PG ≠ 0
      decide
    · show (0x40000019 : Nat) &&& stm32l476.FLASH_CR_PER = 0
      decide
  obtain ⟨wn, hsv, hrn, hmem, hgn⟩ := Sim.strides_verified_ok 5 (by omega) (words_of_bytes bytes)
    (words_of_bytes_lt bytes) 4 0x08001800 32 0 w1 hr1 (by omega) (by omega)
  have hloop := write_loop_of_verified Sim.device stm32l476 5 (words_of_bytes bytes) 5 0x08001800
    32 0 w1 wn (by decide) (by decide) (by decide) hsv
  have hv := (up_progmem_write_valid Sim.device stm32l476 stm32l476_geometry 5
    (0x08000000 + 3 * 2048) (words_of_bytes bytes) 32 w (by decide)).2
  have hd : write_dest stm32l476 (0x08000000 + 3 * 2048) = 0x08001800 := by decide
  rw [hd, hb] at hv
  simp only at hv
  rw [hloop] at hv
  simp only [if_true] at hv
  have hm := Sim.write_end_mem wn hrn.2.2.1
  refine ⟨write_end Sim.device stm32l476 OK wn, ?_, ?_, ?_⟩
  · rw [hv]
    rfl
  · rw [hm.1, hmem, h1hw]
  · rw [hm.2, hgn, h1g]

theorem Sim.programmed_page3 (bytes : Nat → Nat) :
    nonblank (Sim.programmed (words_of_bytes bytes) 4 0x08001800 32 0
        (Sim.erase (fun _ => 0) 3)) 2048 0x08001800 =
      nonblank (fun k => bytes k % 256) 32 0 := by
  have h := nonblank_add (Sim.programmed (words_of_bytes bytes) 4 0x08001800 32 0
    (Sim.erase (fun _ => 0) 3)) 32 2016 0x08001800
  have h1 : nonblank (Sim.programmed (words_of_bytes bytes) 4 0x08001800 32 0
      (Sim.erase (fun _ => 0) 3)) 32 0x08001800 = nonblank (fun k => bytes k % 256) 32 0 := by
    apply nonblank_congr
    intro i hi
    rw [Sim.programmed_read bytes 4 0x08001800 32 0 _ _ (by omega), if_pos (by omega)]
    show bytes (4 * 0 + (0x08001800 + i - 0x08001800)) % 256 = bytes (0 + i) % 256
    rw [show 4 * 0 + (0x08001800 + i - 0x08001800) = 0 + i by omega]
  have h2 : nonblank (Sim.programmed (words_of_bytes bytes) 4 0x08001800 32 0
      (Sim.erase (fun _ => 0) 3)) 2016 (0x08001800 + 32) = 0 := by
    apply nonblank_blank
    intro i hi
    rw [Sim.programmed_read bytes 4 0x08001800 32 0 _ _ (by omega), if_neg (by omega)]
    unfold Sim.erase
    rw [if_pos (by
      show 0x08000000 + 3 * 2048 ≤ 0x08001800 + 32 + i ∧
        0x08001800 + 32 + i < 0x08000000 + (3 + 1) * 2048
      omega)]
  rw [show (2048 : Nat) = 32 + 2016 by rfl, h, h1, h2, Nat.add_zero]

theorem scenario_from_eq (bytes : Nat → Nat) (w0 wE : World Sim)
    (hE : up_progmem_erasepage Sim.device stm32l476 2 3 w0 = some (2048, wE))
    (hhw : wE.hw = Sim.idle3 (Sim.erase (fun _ => 0) 3)) (hg : wE.g_sem = 1) :
    scenario_from w0 bytes =
      some (2048, 32, ((nonblank (fun k => bytes k % 256) 32 0 : Nat) : Int)) := by
  obtain ⟨wW, hW, hWm, hWg⟩ := Sim.idle3_write bytes _ wE hhw hg
  have hc := up_progmem_ispageerased_count Sim.device stm32l476 3 wW (by decide) (by decide)
    (by decide)
  have ha : up_progmem_getaddress stm32l476 3 = 0x08001800 := by decide
  rw [ha] at hc
  have hc2 : (up_progmem_ispageerased Sim.device stm32l476 3 wW).1 =
      ((nonblank wW.hw.mem 2048 0x08001800 : Nat) : Int) := hc
  rw [hWm, Sim.programmed_page3 bytes] at hc2
  unfold scenario_from
  rw [hE]
  simp only
  rw [hW]
  simp only
  rw [hc2]

theorem scenario_eq (bytes : Nat → Nat) :
    scenario bytes =
      some (2048, 32, ((nonblank (fun k => bytes k % 256) 32 0 : Nat) : Int)) := by
  obtain ⟨wE, hE, hEhw, hEg⟩ := scenario_erase
  exact scenario_from_eq bytes _ wE hE hEhw hEg

/-- C11, counterexample: in the scenario with the buffer 0x11, 0x22, ... (byte
`k` is `0x11 * (k + 1)` modulo 256, so the fifteenth byte is 0xff) the erase
returns 2048, the write returns 32 and `up_progmem_ispageerased(3)` returns 31,
the number of programmed bytes that differ from 0xff, not 2016. -/
theorem scenario_ispageerased_not_2016 :
    scenario (fun k => 0x11 * (k + 1)) = some (2048, 32, 31) ∧
      scenario (fun k => 0x11 * (k + 1)) ≠ some (2048, 32, 2016) := by
  have h : nonblank (fun k => 0x11 * (k + 1) % 256) 32 0 = 31 := by decide
  have e := scenario_eq (fun k => 0x11 * (k + 1))
  rw [h] at e
  rw [e]
  exact ⟨rfl, by decide⟩

/-- C11, amended: in the scenario (page size 2048, 256 pages, base 0x08000000,
erase setting every byte of the page to 0xff, programming storing the written
words), for every 32-byte buffer, `up_progmem_erasepage(3)` returns 2048, the
write of the buffer at the start of page 3 returns 32, and
`up_progmem_ispageerased(3)` then returns the number of bytes of the buffer that
differ from 0xff, which is at most 32; for the buffer 0x11, 0x22, ... it is 31. -/
theorem scenario_ispageerased_counts_programmed (bytes : Nat → Nat) :
    scenario bytes =
        some (2048, 32, ((nonblank (fun k => bytes k % 256) 32 0 : Nat) : Int)) ∧
      nonblank (fun k => bytes k % 256) 32 0 ≤ 32 ∧
      nonblank (fun k => 0x11 * (k + 1) % 256) 32 0 = 31 :=
  ⟨scenario_eq bytes, nonblank_le _ _ _, by decide⟩

/-! ## The writes of the programming loop -/

theorem puts_append (xs ys : List Event) : puts (xs ++ ys) = puts xs ++ puts ys := by
  induction xs with
  | nil => rfl
  | cons e es ih =>
    cases e <;> simp [puts, ih]

theorem puts_of_no_put (evs : List Event) (h : ∀ v a, Event.put32 v a ∉ evs) : puts evs = [] := by
  induction evs with
  | nil => rfl
  | cons e es ih =>
    have hes : ∀ v a, Event.put32 v a ∉ es := fun v a hm => h v a (List.mem_cons_of_mem _ hm)
    cases e with
    | put32 v a => exact absurd (List.mem_cons_self _ _) (h v a)
    | sem_wait => exact ih hes
    | sem_post => exact ih hes
    | get32 a v => exact ih hes
    | get8 a v => exact ih hes
    | waste => exact ih hes

theorem stride_program_puts (d : Device σ) (c : Chip) (fuel : Nat) (buf : Nat → Nat)
    (addr count wi : Nat) (w ws : World σ)
    (h : stride_program d c fuel buf addr count wi w = some ws) :
    ∃ evs, ws.trace = w.trace ++ evs ∧
      puts evs = [(buf wi, addr), (second_word buf count wi, wrap32 (addr + 4))] := by
  unfold stride_program at h
  obtain ⟨_, evs, ht, hp⟩ := busy_wait_trace d c fuel _ ws h
  refine ⟨[Event.put32 (buf wi) addr, Event.put32 (second_word buf count wi) (wrap32 (addr + 4))]
    ++ evs, ?_, ?_⟩
  · rw [ht]
    simp [putreg32]
  · rw [puts_append, puts_of_no_put evs hp]
    rfl

theorem stride_verify_puts (d : Device σ) (c : Chip) (buf : Nat → Nat) (addr count wi : Nat)
    (w : World σ) :
    ∃ evs, (stride_verify d c buf addr count wi w).2.trace = w.trace ++ evs ∧ puts evs = [] := by
  unfold stride_verify
  simp only [getreg32]
  split
  · exact ⟨[Event.get32 c.STM32L4_FLASH_SR (d.read32 w.hw c.STM32L4_FLASH_SR)], rfl, rfl⟩
  · split
    · exact ⟨[Event.get32 c.STM32L4_FLASH_SR (d.read32 w.hw c.STM32L4_FLASH_SR),
        Event.get32 addr (d.read32 w.hw addr)], by simp, rfl⟩
    · split
      · exact ⟨[Event.get32 c.STM32L4_FLASH_SR (d.read32 w.hw c.STM32L4_FLASH_SR),
          Event.get32 addr (d.read32 w.hw addr),
          Event.get32 (wrap32 (addr + 4)) (d.read32 w.hw (wrap32 (addr + 4)))], by simp, rfl⟩
      · exact ⟨[Event.get32 c.STM32L4_FLASH_SR (d.read32 w.hw c.STM32L4_FLASH_SR),
          Event.get32 addr (d.read32 w.hw addr),
          Event.get32 (wrap32 (addr + 4)) (d.read32 w.hw (wrap32 (addr + 4)))], by simp, rfl⟩

theorem strides_verified_puts (d : Device σ) (c : Chip) (fuel : Nat) (buf : Nat → Nat)
    (dest count : Nat) :
    ∀ (k s : Nat) (w wk : World σ), dest + 8 * (s + k) < 4294967296 + 4 →
      strides_verified d c fuel buf k (dest + 8 * s) (count - 8 * s) (2 * s) w = some wk →
      ∃ evs, wk.trace = w.trace ++ evs ∧
        puts evs = (List.range' s k).flatMap (fun j =>
          [(buf (2 * j), dest + 8 * j),
           (second_word buf (count - 8 * j) (2 * j), dest + 8 * j + 4)]) := by
  intro k
  induction k with
  | zero =>
    intro s w wk _ h
    rw [strides_verified] at h
    cases h
    exact ⟨[], by simp, rfl⟩
  | succ k ih =>
    intro s w wk hb h
    rw [strides_verified] at h
    cases hp : stride_program d c fuel buf (dest + 8 * s) (count - 8 * s) (2 * s) w with
    | none => simp [hp] at h
    | some ws =>
      simp only [hp] at h
      split at h
      · have e1 : dest + 8 * s + 8 = dest + 8 * (s + 1) := by omega
        have e2 : count - 8 * s - 8 = count - 8 * (s + 1) := by omega
        have e3 : 2 * s + 2 = 2 * (s + 1) := by omega
        rw [e1, e2, e3] at h
        obtain ⟨evs2, ht2, hp2⟩ := ih (s + 1) _ wk (by omega) h
        obtain ⟨evs1, ht1, hp1⟩ := stride_program_puts d c fuel buf _ _ _ w ws hp
        obtain ⟨evsv, htv, hpv⟩ := stride_verify_puts d c buf (dest + 8 * s) (count - 8 * s)
          (2 * s) ws
        have hw4 : wrap32 (dest + 8 * s + 4) = dest + 8 * s + 4 := Nat.mod_eq_of_lt (by omega)
        refine ⟨evs1 ++ evsv ++ evs2, ?_, ?_⟩
        · rw [ht2, htv, ht1]
          simp
        · rw [puts_append, puts_append, hp1, hpv, hp2, hw4, List.range'_succ, List.flatMap_cons]
          simp
      · cases h
theorem write_loop_congr (d : Device σ) (c : Chip) (fuel : Nat) (buf buf' : Nat → Nat) :
    ∀ (n addr count wi : Nat) (w : World σ), count % 4 = 0 →
      (∀ i, i < count / 4 → buf' (wi + i) = buf (wi + i)) →
      write_loop d c fuel buf' n addr count wi w = write_loop d c fuel buf n addr count wi w := by
  intro n
  induction n with
  | zero => intro addr count wi w _ _; rfl
  | succ n ih =>
    intro addr count wi w hc h
    rw [write_loop, write_loop]
    by_cases h0 : count = 0
    · rw [if_pos h0, if_pos h0]
    · have hw : buf' wi = buf wi := h 0 (by omega)
      have hsw : second_word buf' count wi = second_word buf count wi := by
        unfold second_word
        split
        · rfl
        · exact h 1 (by omega)
      have hprog : stride_program d c fuel buf' addr count wi w =
          stride_program d c fuel buf addr count wi w := by
        unfold stride_program
        rw [hw, hsw]
      have hver : ∀ ws, stride_verify d c buf' addr count wi ws =
          stride_verify d c buf addr count wi ws := by
        intro ws
        unfold stride_verify
        rw [hw, hsw]
      rw [if_neg h0, if_neg h0, hprog]
      cases stride_program d c fuel buf addr count wi w with
      | none => rfl
      | some ws =>
        simp only
        rw [hver ws]
        by_cases hr : (stride_verify d c buf addr count wi ws).1 ≠ OK
        · rw [if_pos hr, if_pos hr]
        · rw [if_neg hr, if_neg hr]
          by_cases h4 : count = 4
          · rw [if_pos h4, if_pos h4]
          · rw [if_neg h4, if_neg h4]
            apply ih
            · unfold wrap32
              omega
            · intro i hi
              unfold wrap32 at hi
              have := h (2 + i) (by omega)
              rw [show wi + 2 + i = wi + (2 + i) by omega]
              exact this

theorem length_flatMap_pairs {α β : Type} (f : α → List β) (hf : ∀ x, (f x).length = 2) :
    ∀ l : List α, (l.flatMap f).length = 2 * l.length := by
  intro l
  induction l with
  | nil => rfl
  | cons x xs ih =>
    rw [List.flatMap_cons, List.length_append, ih, hf, List.length_cons]
    omega

theorem second_word_spec (buf : Nat → Nat) (count j : Nat) (hc : count % 4 = 0)
    (hj : j < strides count) :
    second_word buf (count - 8 * j) (2 * j) =
      if (count / 4) % 2 = 1 ∧ j + 1 = strides count then 0xffffffff else buf (2 * j + 1) := by
  unfold strides at hj
  unfold second_word strides
  by_cases h : count - 8 * j = 4
  · rw [if_pos h, if_pos (by omega)]
  · rw [if_neg h, if_neg (by omega)]

/-- C12: for a validated program request (address a multiple of 8, count a
multiple of 4, range inside the array) whose strides all verify, the
programming loop ends, with `OK`, within any budget above ceil(count / 8)
strides; its writes are exactly, in this order, for each stride
i < ceil(count / 8) the source word 2i to dest + 8i and then the high word to
dest + 8i + 4, the high word being source word 2i+1 except in the last stride
of an odd number of words, where it is 0xffffffff: two writes in each of
exactly ceil(count / 8) strides (none for count = 0), each inside
[dest, dest + 8 * ceil(count / 8)); and the loop does not depend on the source
words at index count / 4 or beyond. -/
theorem write_loop_strides (d : Device σ) (c : Chip) (hg : c.Geometry) (fuel n addr : Nat)
    (buf : Nat → Nat) (count : Nat) (w1 wn : World σ) (hv : ValidRequest c addr count)
    (hn : strides count < n)
    (hver : strides_verified d c fuel buf (strides count) (write_dest c addr) count 0 w1 =
      some wn) :
    write_loop d c fuel buf n (write_dest c addr) count 0 w1 = some (OK, wn) ∧
      (∃ evs, wn.trace = w1.trace ++ evs ∧
        puts evs = (List.range (strides count)).flatMap (fun i =>
          [(buf (2 * i), write_dest c addr + 8 * i),
           (if (count / 4) % 2 = 1 ∧ i + 1 = strides count then 0xffffffff
              else buf (2 * i + 1), write_dest c addr + 8 * i + 4)]) ∧
        (puts evs).length = 2 * strides count ∧
        ∀ p ∈ puts evs, write_dest c addr ≤ p.2 ∧
          p.2 + 4 ≤ write_dest c addr + 8 * strides count) ∧
      (∀ buf' : Nat → Nat, (∀ i, i < count / 4 → buf' i = buf i) →
        write_loop d c fuel buf' n (write_dest c addr) count 0 w1 =
          write_loop d c fuel buf n (write_dest c addr) count 0 w1) := by
  have hdest := (up_progmem_write_valid d c hg fuel addr buf count w1 hv).1
  have hc : count % 4 = 0 := hv.2.1
  refine ⟨write_loop_of_verified d c fuel buf n _ count 0 w1 wn hc hdest hn hver, ?_, ?_⟩
  · have hver' : strides_verified d c fuel buf (strides count) (write_dest c addr + 8 * 0)
        (count - 8 * 0) (2 * 0) w1 = some wn := hver
    obtain ⟨evs, ht, hp⟩ := strides_verified_puts d c fuel buf (write_dest c addr) count
      (strides count) 0 w1 wn (by unfold strides; omega) hver'
    have hp' : puts evs = (List.range (strides count)).flatMap (fun i =>
        [(buf (2 * i), write_dest c addr + 8 * i),
         (if (count / 4) % 2 = 1 ∧ i + 1 = strides count then 0xffffffff
            else buf (2 * i + 1), write_dest c addr + 8 * i + 4)]) := by
      rw [hp, ← List.range_eq_range']
      apply List.flatMap_congr
      intro j hj
      rw [second_word_spec buf count j hc (List.mem_range.1 hj)]
    refine ⟨evs, ht, hp', ?_, ?_⟩
    · rw [hp', length_flatMap_pairs, List.length_range]
      intro x
      rfl
    · intro p hm
      rw [hp', List.mem_flatMap] at hm
      obtain ⟨i, hi, hmem⟩ := hm
      have hi' := List.mem_range.1 hi
      simp only [List.mem_cons, List.mem_singleton, List.not_mem_nil, or_false] at hmem
      rcases hmem with h | h <;> rw [h] <;> constructor <;> simp only <;> omega
  · intro buf' h
    apply write_loop_congr d c fuel buf buf' n _ count 0 w1 hc
    intro i hi
    rw [Nat.zero_add]
    exact h i hi

/-- C12 on the simulated controller after reset over an erased array: three
words (an odd number) programmed at 0x08001800 take two strides, which write
the three words and then 0xffffffff to 0x08001800, 0x08001804, 0x08001808 and
0x0800180c. -/
theorem write_loop_strides_witness :
    write_loop Sim.device stm32l476 3 (fun i => 0x11111111 * (i + 1)) 3
        (write_dest stm32l476 0x08001800) 12 0
        ((write_begin Sim.device stm32l476 3
          (Sim.boot (fun _ => false) (fun _ => 0xff))).get (by decide)) =
      some (OK, (strides_verified Sim.device stm32l476 3 (fun i => 0x11111111 * (i + 1))
        (strides 12) (write_dest stm32l476 0x08001800) 12 0
        ((write_begin Sim.device stm32l476 3
          (Sim.boot (fun _ => false) (fun _ => 0xff))).get (by decide))).get (by decide)) ∧
    ∃ evs, puts evs = [(0x11111111, 0x08001800), (0x22222222, 0x08001804),
        (0x33333333, 0x08001808), (0xffffffff, 0x0800180c)] ∧
      ((strides_verified Sim.device stm32l476 3 (fun i => 0x11111111 * (i + 1))
        (strides 12) (write_dest stm32l476 0x08001800) 12 0
        ((write_begin Sim.device stm32l476 3
          (Sim.boot (fun _ => false) (fun _ => 0xff))).get (by decide))).get (by decide)).trace =
        ((write_begin Sim.device stm32l476 3
          (Sim.boot (fun _ => false) (fun _ => 0xff))).get (by decide)).trace ++ evs := by
  obtain ⟨h1, ⟨evs, ht, hp, _, _⟩, _⟩ := write_loop_strides Sim.device stm32l476
    stm32l476_geometry 3 3 0x08001800 (fun i => 0x11111111 * (i + 1)) 12 _ _ (by decide)
    (by decide) (Option.some_get _).symm
  exact ⟨h1, evs, hp.trans (by decide), ht⟩

/-! ## Where the re-lock invariant ends -/

theorem validRequest_iff (c : Chip) (hg : c.Geometry) (addr count : Nat) :
    ValidRequest c addr count ↔
      PassesChecks c addr count ∧
        (if addr ≥ c.STM32L4_FLASH_BASE then addr - c.STM32L4_FLASH_BASE else addr) + count <
          4294967296 := by
  have hsz := Chip.Geometry.size_lt c hg
  unfold ValidRequest PassesChecks wrap32
  rw [and_seven, and_three]
  constructor
  · rintro ⟨ha, hc, hr⟩
    refine ⟨⟨ha, hc, ?_⟩, by omega⟩
    rw [Nat.mod_eq_of_lt (by omega)]
    omega
  · rintro ⟨⟨ha, hc, hr⟩, hlt⟩
    rw [Nat.mod_eq_of_lt hlt] at hr
    exact ⟨ha, hc, by omega⟩

theorem Sim.erasepage_blank (fuel page : Nat) (w0 wL : World Sim)
    (hp : page < stm32l476.STM32L4_FLASH_NPAGES)
    (hl : erasepage_locked Sim.device stm32l476 fuel page w0 = some wL)
    (hb : PageBlank Sim.device stm32l476 page wL.hw) :
    ∃ wE, up_progmem_erasepage Sim.device stm32l476 fuel page w0 = some (2048, wE) ∧
      wE.hw = wL.hw ∧ wE.g_sem = wL.g_sem := by
  have hz := (ispageerased_zero_iff Sim.device stm32l476 page wL hp (by decide)).2 hb
  obtain ⟨fh, fg⟩ := up_progmem_ispageerased_frame Sim.device stm32l476 page wL
  refine ⟨(up_progmem_ispageerased Sim.device stm32l476 page wL).2, ?_, fh, fg⟩
  unfold up_progmem_erasepage
  rw [if_neg (by omega), hl]
  simp only
  rw [if_pos hz]
  rfl

theorem Sim.erase3_with_pg :
    ∃ wE, up_progmem_erasepage Sim.device stm32l476 2 3
        ⟨⟨0xC0000001, 0, 0xFFEFF8AA, false, false, false, fun _ => false, fun _ => 0⟩, 1, []⟩ =
          some (2048, wE) ∧
      wE.hw = ⟨0xC0000019, 0, 0xFFEFF8AA, false, false, false, fun _ => false,
        Sim.erase (fun _ => 0) 3⟩ ∧ wE.g_sem = 1 := by
  have hl : ∃ tr, erasepage_locked Sim.device stm32l476 2 3
      ⟨⟨0xC0000001, 0, 0xFFEFF8AA, false, false, false, fun _ => false, fun _ => 0⟩, 1, []⟩ =
        some ⟨⟨0xC0000019, 0, 0xFFEFF8AA, false, false, false, fun _ => false,
          Sim.erase (fun _ => 0) 3⟩, 1, tr⟩ := ⟨_, rfl⟩
  obtain ⟨tr, hl⟩ := hl
  refine Sim.erasepage_blank 2 3 _ _ (by decide) hl ?_
  intro i hi
  have hi' : i < 2048 := hi
  have ha : up_progmem_getaddress stm32l476 3 = 0x08001800 := by decide
  have hw : wrap32 (0x08001800 + i) = 0x08001800 + i := Nat.mod_eq_of_lt (by omega)
  rw [ha, hw]
  show Sim.erase (fun _ => 0) 3 (0x08001800 + i) = 0xff
  unfold Sim.erase
  rw [if_pos (by
    show 0x08000000 + 3 * 2048 ≤ 0x08001800 + i ∧ 0x08001800 + i < 0x08000000 + (3 + 1) * 2048
    omega)]

end Stm32l4Flash
